import Mathlib

/-!
Verification development for the memory subsystem of the `os-experiment`
kernel (packages/kernel/src/memory and packages/kernel/src/interrupts).

The Rust source is shallowly embedded as executable Lean functions:

* Machine integers (`u64`/`usize`) are modelled as `Nat`; every bitwise
  operation of the source (`&`, `|`, bit tests) is kept as the corresponding
  `Nat` operation.  Value-range side conditions that the Rust types provide
  for free (frame numbers fit in 52 bits because they come from dividing a
  `u64` address by 4096, `EntryFlags` values only use the declared flag
  bits) are carried as explicit hypotheses.
* Panics (`assert!`, `expect`, `panic!`) are modelled as `Except.error`
  with the panic message; mutation is explicit state passing.
* Page tables: the source accesses tables through recursive-mapping
  virtual addresses (`next_table_address`); under the recursive-mapping
  invariant that virtual address denotes exactly the physical frame stored
  in the entry, so the model represents physical memory as a function
  `PTMem : frame number → entry index → entry value` and `next_table`
  returns the frame number held in the entry (when PRESENT and not HUGE).
  TLB flushes have no observable effect in this memory model.
-/

set_option maxRecDepth 4000

namespace OsKernel

/-! ## Constants (memory/mod.rs, paging/mod.rs, paging/entry.rs) -/

/-- Size of each page frame (`PAGE_SIZE` in memory/mod.rs). -/
def PAGE_SIZE : Nat := 0x1000

/-- Number of page table entries (`ENTRY_COUNT` in paging/mod.rs). -/
def ENTRY_COUNT : Nat := 512

/-- Physical-address mask of a page-table entry (bits 12..51), the literal
`0x000f_ffff_ffff_f000` of `Entry::pointed_frame` and `Entry::set`. -/
def addrMask : Nat := 0x000ffffffffff000

/-- The complement of `addrMask` as a 64-bit word, i.e. the Rust value
`!0x000f_ffff_ffff_f000` used by the assertion inside `Entry::set`. -/
def notMask : Nat := 0xfff0000000000fff

/-- Union of all declared `EntryFlags` bits (bits 0..8 and bit 63); this is
what `EntryFlags::from_bits_truncate` keeps. -/
def flagsMask : Nat := 0x80000000000001ff

/-- EntryFlags::PRESENT (1 << 0). -/
def PRESENT : Nat := 1

/-- EntryFlags::WRITABLE (1 << 1). -/
def WRITABLE : Nat := 2

/-- EntryFlags::HUGE_PAGE (1 << 7). -/
def HUGE_PAGE : Nat := 128

/-- EntryFlags::NO_EXECUTE (1 << 63). -/
def NO_EXECUTE : Nat := 0x8000000000000000

/-! ## Pages and frames -/

/-- Frame::containing_address (memory/mod.rs): integer division by 4096. -/
def frameContaining (address : Nat) : Nat := address / PAGE_SIZE

/-- Frame::start_address / Page::start_address: number * PAGE_SIZE. -/
def startAddress (number : Nat) : Nat := number * PAGE_SIZE

/-- The canonical-address condition asserted by `Page::containing_address`:
`address < 0x0000_8000_0000_0000 || address >= 0xffff_8000_0000_0000`. -/
def CanonicalAddr (address : Nat) : Prop :=
  address < 0x0000800000000000 ∨ 0xffff800000000000 ≤ address

instance (a : Nat) : Decidable (CanonicalAddr a) := by
  unfold CanonicalAddr; infer_instance

/-- A page number as produced by `Page::containing_address` from a `u64`
virtual address: the address is canonical and the number fits in 52 bits. -/
def ValidPage (p : Nat) : Prop :=
  CanonicalAddr (p * PAGE_SIZE) ∧ p < 2 ^ 52

instance (p : Nat) : Decidable (ValidPage p) := by
  unfold ValidPage; infer_instance

/-- Page::p4_index: `(number >> 27) & 0o777`. -/
def p4Index (p : Nat) : Nat := (p >>> 27) &&& 0o777

/-- Page::p3_index: `(number >> 18) & 0o777`. -/
def p3Index (p : Nat) : Nat := (p >>> 18) &&& 0o777

/-- Page::p2_index: `(number >> 9) & 0o777`. -/
def p2Index (p : Nat) : Nat := (p >>> 9) &&& 0o777

/-- Page::p1_index: `(number >> 0) & 0o777`. -/
def p1Index (p : Nat) : Nat := (p >>> 0) &&& 0o777

/-! ## Page-table entries (paging/entry.rs)

An entry is a 64-bit word, modelled as a `Nat` (all operations below keep
values below `2 ^ 64` when their inputs are). -/

/-- Entry::flags via EntryFlags::from_bits_truncate: keep the declared bits. -/
def entryFlags (e : Nat) : Nat := e &&& flagsMask

/-- EntryFlags `contains` (bitflags): all bits of `fl` are set in the flags
of `e`. -/
def flagsContain (e fl : Nat) : Prop := entryFlags e &&& fl = fl

instance (e fl : Nat) : Decidable (flagsContain e fl) := by
  unfold flagsContain; infer_instance

/-- Entry::pointed_frame: if the PRESENT flag is set, the frame containing
the masked physical address. -/
def pointedFrame (e : Nat) : Option Nat :=
  if flagsContain e PRESENT then some (frameContaining (e &&& addrMask)) else none

/-- Panic message of the assertion in `Entry::set`. -/
def msgEntrySet : String := "assertion failed: frame start address uses only address bits"

/-- Entry::set: asserts the frame's start address uses no bits outside
`addrMask`, then stores `start_address | flags.bits()`. -/
def entrySet (frame fl : Nat) : Except String Nat :=
  if startAddress frame &&& notMask = 0 then .ok (startAddress frame ||| fl)
  else .error msgEntrySet

/-! ## Physical memory of page tables -/

/-- Physical memory restricted to page tables: frame number and entry index
to entry value.  A total function; the code only reads tables it reached
through PRESENT entries or created (and zeroed) itself. -/
abbrev PTMem := Nat → Nat → Nat

/-- Write a single entry: `table[t][i] := v`. -/
def memSet (m : PTMem) (t i v : Nat) : PTMem :=
  Function.update m t (Function.update (m t) i v)

/-- Table::zero on the table in frame `c`. -/
def zeroFrame (m : PTMem) (c : Nat) : PTMem :=
  Function.update m c (fun _ => 0)

/-- Table::next_table_address / next_table, turned physical: when entry `i`
of the table in frame `t` is PRESENT and not HUGE_PAGE, the recursive-mapped
address `(table_address << 9) | (index << 12)` denotes the frame stored in
the entry, which this model returns directly. -/
def nextTableFrame (m : PTMem) (t i : Nat) : Option Nat :=
  let e := m t i
  if flagsContain e PRESENT ∧ ¬ flagsContain e HUGE_PAGE then
    some (frameContaining (e &&& addrMask))
  else none

/-- Panic message of the huge-page assertion in `Table::next_table_create`
and of the `expect` in `Mapper::unmap`. -/
def msgHuge : String := "mapping code does not support huge pages"

/-- Panic message of `allocate_frame().expect(...)` in `next_table_create`. -/
def msgNoFrames : String := "no frames available"

/-- Panic message of the `expect` after creating a table. -/
def msgNextTable : String := "next table inexplicably does not exist"

/-- Table::next_table_create: return the existing child frame, or assert
the slot is not a huge page, allocate a frame, store it with
`PRESENT | WRITABLE`, zero the new table, and return it. -/
def nextTableCreate (m : PTMem) (t i : Nat) (al : List Nat) :
    Except String (Nat × PTMem × List Nat) :=
  match nextTableFrame m t i with
  | some c => .ok (c, m, al)
  | none =>
    if flagsContain (m t i) HUGE_PAGE then .error msgHuge
    else
      match al with
      | [] => .error msgNoFrames
      | c :: rest =>
        match entrySet c (PRESENT ||| WRITABLE) with
        | .error e => .error e
        | .ok v =>
          let m1 := memSet m t i v
          match nextTableFrame m1 t i with
          | none => .error msgNextTable
          | some c2 => .ok (c2, zeroFrame m1 c2, rest)

/-! ## The Mapper (paging/mapper.rs)

The allocator argument of the Rust methods is the sequence of frames a
`FrameAllocator` will hand out, carried in the state as `alloc`. -/

/-- Mapper state: the P4 frame of the active table, the page-table memory,
and the frames the frame allocator will hand out next. -/
structure Mapper where
  p4 : Nat
  mem : PTMem
  alloc : List Nat

/-- Panic message of the canonical-address assertion in
`Page::containing_address`. -/
def msgInvalidAddress : String := "invalid address"

/-- Huge-page 1 GiB alignment assertion message in `translate_page`. -/
def msgAlign1G : String := "assertion failed: 1GiB huge page frame is aligned"

/-- Huge-page 2 MiB alignment assertion message in `translate_page`. -/
def msgAlign2M : String := "assertion failed: 2MiB huge page frame is aligned"

/-- The `huge_page` closure of `Mapper::translate_page`, given the P3 frame
for the page's P4 slot. -/
def hugePageLookup (m : PTMem) (p3f i3 i2 i1 : Nat) : Except String (Option Nat) :=
  let e3 := m p3f i3
  let tryP2 : Except String (Option Nat) :=
    match nextTableFrame m p3f i3 with
    | some p2f =>
      let e2 := m p2f i2
      match pointedFrame e2 with
      | some start2 =>
        if flagsContain e2 HUGE_PAGE then
          if start2 % ENTRY_COUNT = 0 then .ok (some (start2 + i1))
          else .error msgAlign2M
        else .ok none
      | none => .ok none
    | none => .ok none
  match pointedFrame e3 with
  | some start =>
    if flagsContain e3 HUGE_PAGE then
      if start % (ENTRY_COUNT * ENTRY_COUNT) = 0 then
        .ok (some (start + i2 * ENTRY_COUNT + i1))
      else .error msgAlign1G
    else tryP2
  | none => tryP2

/-- Mapper::translate_page: walk P4 to P1 and read the leaf's pointed frame;
when that walk yields nothing, fall back to the `huge_page` closure. -/
def Mapper.translatePage (mp : Mapper) (page : Nat) : Except String (Option Nat) :=
  match nextTableFrame mp.mem mp.p4 (p4Index page) with
  | none => .ok none
  | some p3f =>
    match (do
      let p2f ← nextTableFrame mp.mem p3f (p3Index page)
      let p1f ← nextTableFrame mp.mem p2f (p2Index page)
      pointedFrame (mp.mem p1f (p1Index page)) : Option Nat) with
    | some fr => .ok (some fr)
    | none => hugePageLookup mp.mem p3f (p3Index page) (p2Index page) (p1Index page)

/-- Mapper::translate: split off the in-page offset, translate the page
(constructed by `Page::containing_address`, whose canonicality assertion is
the guard), and add the offset back. -/
def Mapper.translate (mp : Mapper) (va : Nat) : Except String (Option Nat) :=
  if CanonicalAddr va then
    (mp.translatePage (frameContaining va)).map
      (fun o => o.map (fun fr => fr * PAGE_SIZE + va % PAGE_SIZE))
  else .error msgInvalidAddress

/-- Panic message of `assert!(p1[page.p1_index()].is_unused())`. -/
def msgP1Used : String := "assertion failed: p1 leaf entry is unused"

/-- Mapper::map_to: create the P3, P2, P1 tables as needed, assert the leaf
is unused, and set it to `frame | flags | PRESENT`. -/
def Mapper.mapTo (mp : Mapper) (page frame fl : Nat) : Except String Mapper :=
  match nextTableCreate mp.mem mp.p4 (p4Index page) mp.alloc with
  | .error e => .error e
  | .ok (p3f, m1, a1) =>
    match nextTableCreate m1 p3f (p3Index page) a1 with
    | .error e => .error e
    | .ok (p2f, m2, a2) =>
      match nextTableCreate m2 p2f (p2Index page) a2 with
      | .error e => .error e
      | .ok (p1f, m3, a3) =>
        if m3 p1f (p1Index page) = 0 then
          match entrySet frame (fl ||| PRESENT) with
          | .error e => .error e
          | .ok v => .ok ⟨mp.p4, memSet m3 p1f (p1Index page) v, a3⟩
        else .error msgP1Used

/-- Panic message of `allocate_frame().expect("out of memory")` in
`Mapper::map`. -/
def msgOutOfMemory : String := "out of memory"

/-- Mapper::map: allocate a fresh frame and `map_to` the page onto it. -/
def Mapper.map (mp : Mapper) (page fl : Nat) : Except String Mapper :=
  match mp.alloc with
  | [] => .error msgOutOfMemory
  | f :: rest => Mapper.mapTo ⟨mp.p4, mp.mem, rest⟩ page f fl

/-- Mapper::identity_map: map the page containing the frame's start address
(whose construction asserts canonicality) to the frame itself. -/
def Mapper.identityMap (mp : Mapper) (frame fl : Nat) : Except String Mapper :=
  if CanonicalAddr (startAddress frame) then
    mp.mapTo (frameContaining (startAddress frame)) frame fl
  else .error msgInvalidAddress

/-- Panic message of `assert!(self.translate(...).is_some())` in unmap. -/
def msgNotMapped : String := "assertion failed: page translates to a frame"

/-- Panic message of `pointed_frame().expect(...)` in unmap. -/
def msgNoPointedFrame : String := "couldn't find page frame"

/-- Mapper::unmap: assert the page translates, walk to the P1 table
(`expect`ing no huge pages), assert the leaf points at a frame, clear the
leaf.  The subsequent TLB flush has no effect on this memory model; the
frame itself is deliberately not deallocated (source TODO). -/
def Mapper.unmap (mp : Mapper) (page : Nat) : Except String Mapper :=
  match mp.translate (startAddress page) with
  | .error e => .error e
  | .ok o =>
    if o.isSome then
      match (do
        let p3f ← nextTableFrame mp.mem mp.p4 (p4Index page)
        let p2f ← nextTableFrame mp.mem p3f (p3Index page)
        nextTableFrame mp.mem p2f (p2Index page) : Option Nat) with
      | none => .error msgHuge
      | some p1f =>
        match pointedFrame (mp.mem p1f (p1Index page)) with
        | none => .error msgNoPointedFrame
        | some _ => .ok ⟨mp.p4, memSet mp.mem p1f (p1Index page) 0, mp.alloc⟩
    else .error msgNotMapped

/-! ## Structural well-formedness of a mapper state

The frames occupied by the paging structure itself, level by level, and
the separation invariant used by the theorems: a frame serving as a table
at one level does not also serve at another level, and frames the
allocator will hand out are not part of the structure (they are free). -/

/-- The child table frames reachable from the table in frame `t`. -/
def childFrames (m : PTMem) (t : Nat) : List Nat :=
  (List.range ENTRY_COUNT).filterMap (fun i => nextTableFrame m t i)

/-- Frames of P3-level tables reachable from the P4 frame. -/
def l3frames (m : PTMem) (p4 : Nat) : List Nat := childFrames m p4

/-- Frames of P2-level tables. -/
def l2frames (m : PTMem) (p4 : Nat) : List Nat :=
  (l3frames m p4).flatMap (childFrames m)

/-- Frames of P1-level tables. -/
def l1frames (m : PTMem) (p4 : Nat) : List Nat :=
  (l2frames m p4).flatMap (childFrames m)

/-- All frames occupied by the paging structure rooted at `p4`. -/
def ptFrames (m : PTMem) (p4 : Nat) : List Nat :=
  p4 :: (l3frames m p4 ++ l2frames m p4 ++ l1frames m p4)

/-- Level separation: no frame serves as a table at two different levels. -/
def LevelSep (m : PTMem) (p4 : Nat) : Prop :=
  p4 ∉ l3frames m p4 ∧ p4 ∉ l2frames m p4 ∧ p4 ∉ l1frames m p4 ∧
  (∀ x ∈ l3frames m p4, x ∉ l2frames m p4 ∧ x ∉ l1frames m p4) ∧
  (∀ x ∈ l2frames m p4, x ∉ l1frames m p4)

/-- Well-formed mapper state: level separation plus an allocator whose
pending frames are pairwise distinct, free (not part of the paging
structure), and valid physical frame numbers (address bits only). -/
def Inv (mp : Mapper) : Prop :=
  LevelSep mp.mem mp.p4 ∧ mp.alloc.Nodup ∧
  ∀ a ∈ mp.alloc, a ∉ ptFrames mp.mem mp.p4 ∧ a < 2 ^ 40

instance (m : PTMem) (p4 : Nat) : Decidable (LevelSep m p4) := by
  unfold LevelSep; infer_instance

instance (mp : Mapper) : Decidable (Inv mp) := by
  unfold Inv; infer_instance

/-! ## Bitwise toolkit -/

theorem and_511_eq_mod (x : Nat) : x &&& 511 = x % 512 := by
  have h : (511 : Nat) = 2 ^ 9 - 1 := by norm_num
  rw [h, Nat.and_pow_two_sub_one_eq_mod]

theorem shiftLeft_and_shiftLeft (a b k : Nat) :
    (a <<< k) &&& (b <<< k) = (a &&& b) <<< k := by
  apply Nat.eq_of_testBit_eq
  intro i
  simp only [Nat.testBit_land, Nat.testBit_shiftLeft]
  cases Nat.decLe k i with
  | isTrue h => simp [h]
  | isFalse h => simp [h]

theorem mul_4096_eq_shiftLeft (f : Nat) : f * 4096 = f <<< 12 := by
  rw [Nat.shiftLeft_eq]

theorem addrMask_eq_shiftLeft : addrMask = (2 ^ 40 - 1) <<< 12 := by
  decide

theorem mul_4096_and_addrMask (f : Nat) (hf : f < 2 ^ 40) :
    f * 4096 &&& addrMask = f * 4096 := by
  rw [mul_4096_eq_shiftLeft, addrMask_eq_shiftLeft, shiftLeft_and_shiftLeft,
    Nat.and_pow_two_sub_one_eq_mod, Nat.mod_eq_of_lt hf]

theorem flags_and_addrMask (x : Nat) (hx : x &&& flagsMask = x) :
    x &&& addrMask = 0 := by
  have : x &&& addrMask = (x &&& flagsMask) &&& addrMask := by rw [hx]
  rw [this, Nat.land_assoc]
  have hm : flagsMask &&& addrMask = 0 := by decide
  rw [hm, Nat.and_zero]

theorem lor_and_addrMask (f x : Nat) (hf : f < 2 ^ 40) (hx : x &&& addrMask = 0) :
    (f * 4096 ||| x) &&& addrMask = f * 4096 := by
  rw [Nat.and_distrib_right, hx, Nat.or_zero, mul_4096_and_addrMask f hf]

theorem and_distrib_left_nat (a b c : Nat) :
    a &&& (b ||| c) = (a &&& b) ||| (a &&& c) := by
  rw [Nat.land_comm, Nat.and_distrib_right, Nat.land_comm b a, Nat.land_comm c a]

theorem startAddress_and_notMask (f : Nat) (hf : f < 2 ^ 40) :
    startAddress f &&& notMask = 0 := by
  unfold startAddress PAGE_SIZE notMask
  rw [mul_4096_eq_shiftLeft]
  have hsplit : (0xfff0000000000fff : Nat) = ((0xfff <<< 52) ||| 0xfff : Nat) := by decide
  rw [hsplit, and_distrib_left_nat]
  have h1 : (f <<< 12) &&& (0xfff <<< 52) = 0 := by
    apply Nat.eq_of_testBit_eq
    intro i
    simp only [Nat.testBit_land, Nat.testBit_shiftLeft, Nat.zero_testBit]
    rcases Nat.lt_or_ge i 52 with h | h
    · have : ¬ (52 ≤ i) := by omega
      simp [this]
    · have : f.testBit (i - 12) = false :=
        Nat.testBit_eq_false_of_lt
          (lt_of_lt_of_le hf (Nat.pow_le_pow_right (by norm_num) (by omega)))
      simp [this]
  have h2 : (f <<< 12) &&& 0xfff = 0 := by
    have h := Nat.and_pow_two_sub_one_eq_mod (f <<< 12) 12
    norm_num at h
    rw [h, Nat.shiftLeft_eq]
    norm_num [Nat.mul_mod_left]
  rw [h1, h2, Nat.or_zero]

theorem testBit_zero_iff (x : Nat) : x.testBit 0 = true ↔ x % 2 = 1 := by
  rw [Nat.testBit_to_div_mod]
  norm_num

theorem flagsContain_present_iff (e : Nat) : flagsContain e PRESENT ↔ e % 2 = 1 := by
  unfold flagsContain entryFlags PRESENT
  rw [Nat.land_assoc]
  have h1 : flagsMask &&& 1 = 1 := by decide
  rw [h1]
  have h2 : (1 : Nat) = 2 ^ 1 - 1 := by norm_num
  rw [h2, Nat.and_pow_two_sub_one_eq_mod]

theorem flagsContain_huge_iff (e : Nat) : flagsContain e HUGE_PAGE ↔ e.testBit 7 = true := by
  unfold flagsContain entryFlags HUGE_PAGE
  rw [Nat.land_assoc]
  have h1 : flagsMask &&& 128 = 128 := by decide
  rw [h1]
  have h2 : (128 : Nat) = 2 ^ 7 := by norm_num
  rw [h2, Nat.and_two_pow]
  cases h : e.testBit 7 <;> simp [h]

theorem mul4096_testBit7 (c : Nat) : (c * 4096).testBit 7 = false := by
  rw [Nat.testBit_to_div_mod]
  have h : c * 4096 / 2 ^ 7 = c * 32 := by omega
  rw [h]
  simp
  omega

theorem lor_odd (a b : Nat) (hb : b % 2 = 1) : (a ||| b) % 2 = 1 := by
  have h : (a ||| b).testBit 0 = true := by
    rw [Nat.testBit_lor]
    have hb0 : b.testBit 0 = true := (testBit_zero_iff b).mpr hb
    simp [hb0]
  exact (testBit_zero_iff _).mp h

theorem lor_testBit7 (a b : Nat) (ha : a.testBit 7 = false) (hb : b.testBit 7 = false) :
    (a ||| b).testBit 7 = false := by
  simp [Nat.testBit_lor, ha, hb]

/-- Facts about the entry written by `next_table_create`:
`frame | PRESENT | WRITABLE` is present, not huge, and decodes back. -/
theorem createdEntry_facts (c : Nat) (hc : c < 2 ^ 40) :
    flagsContain (c * 4096 ||| 3) PRESENT ∧
    ¬ flagsContain (c * 4096 ||| 3) HUGE_PAGE ∧
    frameContaining ((c * 4096 ||| 3) &&& addrMask) = c := by
  refine ⟨(flagsContain_present_iff _).mpr (lor_odd _ _ (by norm_num)), ?_, ?_⟩
  · rw [flagsContain_huge_iff]
    have h7 := lor_testBit7 (c * 4096) 3 (mul4096_testBit7 c) (by decide)
    simp [h7]
  · have h3 : (3 : Nat) &&& addrMask = 0 := by decide
    rw [lor_and_addrMask c 3 hc h3]
    unfold frameContaining PAGE_SIZE
    omega

/-- Facts about the leaf entry written by `map_to`:
`frame | flags | PRESENT` is present and decodes back to the frame. -/
theorem leafEntry_facts (f fl : Nat) (hf : f < 2 ^ 40) (hfl : fl &&& flagsMask = fl) :
    flagsContain (f * 4096 ||| (fl ||| PRESENT)) PRESENT ∧
    frameContaining ((f * 4096 ||| (fl ||| PRESENT)) &&& addrMask) = f := by
  constructor
  · exact (flagsContain_present_iff _).mpr (lor_odd _ _ (lor_odd _ _ (by decide)))
  · have hx : (fl ||| PRESENT) &&& addrMask = 0 := by
      rw [Nat.and_distrib_right, flags_and_addrMask fl hfl]
      have h1 : PRESENT &&& addrMask = 0 := by decide
      rw [h1, Nat.or_zero]
    rw [lor_and_addrMask f _ hf hx]
    unfold frameContaining PAGE_SIZE
    omega

theorem leafEntry_ne_zero (f fl : Nat) :
    f * 4096 ||| (fl ||| PRESENT) ≠ 0 := by
  intro h
  have := lor_odd (f * 4096) (fl ||| PRESENT) (lor_odd fl PRESENT (by decide))
  omega

/-! ## Memory read lemmas -/

theorem memSet_read (m : PTMem) (t i v x j : Nat) :
    memSet m t i v x j = if x = t then (if j = i then v else m t j) else m x j := by
  unfold memSet
  rcases eq_or_ne x t with h | h
  · subst h
    rw [Function.update_same]
    rcases eq_or_ne j i with h2 | h2
    · subst h2; rw [Function.update_same]; simp
    · rw [Function.update_noteq h2]; simp [h2]
  · rw [Function.update_noteq h]; simp [h]

theorem zeroFrame_read (m : PTMem) (c x j : Nat) :
    zeroFrame m c x j = if x = c then 0 else m x j := by
  unfold zeroFrame
  rcases eq_or_ne x c with h | h
  · subst h; rw [Function.update_same]; simp
  · rw [Function.update_noteq h]; simp [h]

theorem nextTableFrame_congr (m1 m2 : PTMem) (t i : Nat) (h : m1 t i = m2 t i) :
    nextTableFrame m1 t i = nextTableFrame m2 t i := by
  unfold nextTableFrame
  rw [h]

/-- The entry value fully determines `nextTableFrame`. -/
theorem nextTableFrame_eq_some (m : PTMem) (t i c : Nat)
    (hp : flagsContain (m t i) PRESENT) (hh : ¬ flagsContain (m t i) HUGE_PAGE)
    (hd : frameContaining (m t i &&& addrMask) = c) :
    nextTableFrame m t i = some c := by
  unfold nextTableFrame
  simp only [hp, hh, not_false_iff, and_self, if_true]
  simp [hd]

theorem nextTableFrame_zero (m : PTMem) (t i : Nat) (h : m t i = 0) :
    nextTableFrame m t i = none := by
  unfold nextTableFrame
  rw [h]
  have : ¬ flagsContain 0 PRESENT := by decide
  simp [this]

/-! ## Index characterizations -/

theorem p4Index_eq (p : Nat) : p4Index p = p / 2 ^ 27 % 512 := by
  unfold p4Index
  rw [Nat.shiftRight_eq_div_pow]
  exact and_511_eq_mod _

theorem p3Index_eq (p : Nat) : p3Index p = p / 2 ^ 18 % 512 := by
  unfold p3Index
  rw [Nat.shiftRight_eq_div_pow]
  exact and_511_eq_mod _

theorem p2Index_eq (p : Nat) : p2Index p = p / 2 ^ 9 % 512 := by
  unfold p2Index
  rw [Nat.shiftRight_eq_div_pow]
  exact and_511_eq_mod _

theorem p1Index_eq (p : Nat) : p1Index p = p % 512 := by
  unfold p1Index
  rw [Nat.shiftRight_eq_div_pow]
  have h := and_511_eq_mod (p / 2 ^ 0)
  norm_num at h ⊢
  exact h

theorem p4Index_lt (p : Nat) : p4Index p < 512 := by rw [p4Index_eq]; omega

theorem p3Index_lt (p : Nat) : p3Index p < 512 := by rw [p3Index_eq]; omega

theorem p2Index_lt (p : Nat) : p2Index p < 512 := by rw [p2Index_eq]; omega

theorem p1Index_lt (p : Nat) : p1Index p < 512 := by rw [p1Index_eq]; omega

/-- Two valid (canonical, 52-bit) page numbers with identical P4..P1 indices
are equal: the indices encode bits 0..35 and canonicality pins the rest. -/
theorem validPage_injective (p q : Nat) (hp : ValidPage p) (hq : ValidPage q)
    (h4 : p4Index p = p4Index q) (h3 : p3Index p = p3Index q)
    (h2 : p2Index p = p2Index q) (h1 : p1Index p = p1Index q) : p = q := by
  rw [p4Index_eq, p4Index_eq] at h4
  rw [p3Index_eq, p3Index_eq] at h3
  rw [p2Index_eq, p2Index_eq] at h2
  rw [p1Index_eq, p1Index_eq] at h1
  obtain ⟨hpc, hp52⟩ := hp
  obtain ⟨hqc, hq52⟩ := hq
  unfold CanonicalAddr PAGE_SIZE at hpc hqc
  omega


end OsKernel
namespace OsKernel

/-! ## Specification of next_table_create -/

theorem startAddress_eq (f : Nat) : startAddress f = f * 4096 := rfl

theorem present_or_writable_eq : PRESENT ||| WRITABLE = 3 := rfl

/-- Case analysis of a successful `next_table_create`: either the child
already existed and nothing changed, or the head of the allocator list was
installed as a fresh zeroed child table. -/
theorem nextTableCreate_cases (m : PTMem) (t i : Nat) (al : List Nat)
    (c : Nat) (m' : PTMem) (al' : List Nat)
    (hsmall : ∀ a ∈ al, a < 2 ^ 40)
    (hok : nextTableCreate m t i al = .ok (c, m', al')) :
    (m' = m ∧ al' = al ∧ nextTableFrame m t i = some c) ∨
    (al = c :: al' ∧ c < 2 ^ 40 ∧ nextTableFrame m t i = none ∧
     ¬ flagsContain (m t i) HUGE_PAGE ∧
     m' = zeroFrame (memSet m t i (c * 4096 ||| 3)) c) := by
  cases hntf : nextTableFrame m t i with
  | some c0 =>
    simp only [nextTableCreate, hntf, Except.ok.injEq, Prod.mk.injEq] at hok
    obtain ⟨h1, h2, h3⟩ := hok
    subst h1
    exact Or.inl ⟨h2.symm, h3.symm, rfl⟩
  | none =>
    simp only [nextTableCreate, hntf] at hok
    by_cases hhuge : flagsContain (m t i) HUGE_PAGE
    · rw [if_pos hhuge] at hok
      exact absurd hok (by simp)
    · rw [if_neg hhuge] at hok
      cases al with
      | nil => exact absurd hok (by simp)
      | cons c1 rest =>
        have hc1 : c1 < 2 ^ 40 := hsmall c1 (by simp)
        have hmask : c1 * 4096 &&& notMask = 0 := by
          rw [← startAddress_eq]
          exact startAddress_and_notMask c1 hc1
        obtain ⟨hcp, hch, hcd⟩ := createdEntry_facts c1 hc1
        have hread : memSet m t i (c1 * 4096 ||| 3) t i = c1 * 4096 ||| 3 := by
          rw [memSet_read]; simp
        have hntf1 : nextTableFrame (memSet m t i (c1 * 4096 ||| 3)) t i = some c1 := by
          apply nextTableFrame_eq_some
          · rw [hread]; exact hcp
          · rw [hread]; exact hch
          · rw [hread]; exact hcd
        simp only [entrySet, present_or_writable_eq, startAddress_eq, if_pos hmask,
          hntf1, Except.ok.injEq, Prod.mk.injEq] at hok
        obtain ⟨h1, h2, h3⟩ := hok
        subst h1
        exact Or.inr ⟨by rw [h3], hc1, rfl, hhuge, h2.symm⟩

/-! ## Specification of map_to -/

/-- The leaf entry value written by `map_to`: `frame | flags | PRESENT`. -/
def leafVal (f fl : Nat) : Nat := f * 4096 ||| (fl ||| PRESENT)

/-- map_to outcome: all three child tables already existed. -/
def MapToAAA (mp mp' : Mapper) (p f fl p3f p2f p1f : Nat) : Prop :=
  nextTableFrame mp.mem mp.p4 (p4Index p) = some p3f ∧
  nextTableFrame mp.mem p3f (p3Index p) = some p2f ∧
  nextTableFrame mp.mem p2f (p2Index p) = some p1f ∧
  mp.mem p1f (p1Index p) = 0 ∧
  mp'.mem = memSet mp.mem p1f (p1Index p) (leafVal f fl) ∧
  mp'.alloc = mp.alloc

/-- map_to outcome: P3 and P2 existed, the P1 table was created. -/
def MapToAAB (mp mp' : Mapper) (p f fl p3f p2f p1f : Nat) : Prop :=
  nextTableFrame mp.mem mp.p4 (p4Index p) = some p3f ∧
  nextTableFrame mp.mem p3f (p3Index p) = some p2f ∧
  nextTableFrame mp.mem p2f (p2Index p) = none ∧
  ¬ flagsContain (mp.mem p2f (p2Index p)) HUGE_PAGE ∧
  mp.alloc = p1f :: mp'.alloc ∧ p1f < 2 ^ 40 ∧
  mp'.mem = memSet (zeroFrame (memSet mp.mem p2f (p2Index p) (p1f * 4096 ||| 3)) p1f)
      p1f (p1Index p) (leafVal f fl)

/-- map_to outcome: P3 existed, P2 and P1 were created. -/
def MapToABB (mp mp' : Mapper) (p f fl p3f p2f p1f : Nat) : Prop :=
  nextTableFrame mp.mem mp.p4 (p4Index p) = some p3f ∧
  nextTableFrame mp.mem p3f (p3Index p) = none ∧
  ¬ flagsContain (mp.mem p3f (p3Index p)) HUGE_PAGE ∧
  mp.alloc = p2f :: p1f :: mp'.alloc ∧ p2f < 2 ^ 40 ∧ p1f < 2 ^ 40 ∧
  mp'.mem = memSet (zeroFrame (memSet (zeroFrame (memSet mp.mem p3f (p3Index p)
      (p2f * 4096 ||| 3)) p2f) p2f (p2Index p) (p1f * 4096 ||| 3)) p1f)
      p1f (p1Index p) (leafVal f fl)

/-- map_to outcome: the P3, P2 and P1 tables were all created. -/
def MapToBBB (mp mp' : Mapper) (p f fl p3f p2f p1f : Nat) : Prop :=
  nextTableFrame mp.mem mp.p4 (p4Index p) = none ∧
  ¬ flagsContain (mp.mem mp.p4 (p4Index p)) HUGE_PAGE ∧
  mp.alloc = p3f :: p2f :: p1f :: mp'.alloc ∧
  p3f < 2 ^ 40 ∧ p2f < 2 ^ 40 ∧ p1f < 2 ^ 40 ∧
  mp'.mem = memSet (zeroFrame (memSet (zeroFrame (memSet (zeroFrame (memSet mp.mem mp.p4
      (p4Index p) (p3f * 4096 ||| 3)) p3f) p3f (p3Index p) (p2f * 4096 ||| 3)) p2f) p2f
      (p2Index p) (p1f * 4096 ||| 3)) p1f) p1f (p1Index p) (leafVal f fl)

/-- A successful `map_to` keeps the P4 frame, had a mask-valid frame
argument, and falls into one of the four creation patterns (creating a
table forces all deeper tables to be created as well, since a fresh table
is zeroed). -/
theorem mapTo_spec (mp mp' : Mapper) (p f fl : Nat)
    (hsmall : ∀ a ∈ mp.alloc, a < 2 ^ 40)
    (hok : mp.mapTo p f fl = .ok mp') :
    mp'.p4 = mp.p4 ∧ startAddress f &&& notMask = 0 ∧
    ∃ p3f p2f p1f,
      MapToAAA mp mp' p f fl p3f p2f p1f ∨ MapToAAB mp mp' p f fl p3f p2f p1f ∨
      MapToABB mp mp' p f fl p3f p2f p1f ∨ MapToBBB mp mp' p f fl p3f p2f p1f := by
  unfold Mapper.mapTo at hok
  cases h1 : nextTableCreate mp.mem mp.p4 (p4Index p) mp.alloc with
  | error e => rw [h1] at hok; exact absurd hok (by simp)
  | ok r1 =>
    obtain ⟨p3f, m1, a1⟩ := r1
    rw [h1] at hok
    simp only [] at hok
    cases h2 : nextTableCreate m1 p3f (p3Index p) a1 with
    | error e => rw [h2] at hok; exact absurd hok (by simp)
    | ok r2 =>
      obtain ⟨p2f, m2, a2⟩ := r2
      rw [h2] at hok
      simp only [] at hok
      cases h3 : nextTableCreate m2 p2f (p2Index p) a2 with
      | error e => rw [h3] at hok; exact absurd hok (by simp)
      | ok r3 =>
        obtain ⟨p1f, m3, a3⟩ := r3
        rw [h3] at hok
        simp only [] at hok
        by_cases hleaf : m3 p1f (p1Index p) = 0
        swap
        · rw [if_neg hleaf] at hok; exact absurd hok (by simp)
        rw [if_pos hleaf] at hok
        by_cases hmask : startAddress f &&& notMask = 0
        swap
        · unfold entrySet at hok
          rw [if_neg hmask] at hok
          exact absurd hok (by simp)
        unfold entrySet at hok
        rw [if_pos hmask] at hok
        simp only [Except.ok.injEq] at hok
        have hp4 : mp'.p4 = mp.p4 := by rw [← hok]
        have hmem : mp'.mem = memSet m3 p1f (p1Index p) (leafVal f fl) := by
          rw [← hok]
          unfold leafVal
          rw [startAddress_eq]
        have halloc : mp'.alloc = a3 := by rw [← hok]
        refine ⟨hp4, hmask, p3f, p2f, p1f, ?_⟩
        -- case analysis on the three creation steps
        rcases nextTableCreate_cases _ _ _ _ _ _ _ hsmall h1 with
          ⟨hm1, ha1, hntf1⟩ | ⟨hal1, hc1, hntf1, hhg1, hm1⟩
        · -- step 1 existing
          subst hm1
          have hsmall1 : ∀ a ∈ a1, a < 2 ^ 40 := by rw [ha1]; exact hsmall
          rcases nextTableCreate_cases _ _ _ _ _ _ _ hsmall1 h2 with
            ⟨hm2, ha2, hntf2⟩ | ⟨hal2, hc2, hntf2, hhg2, hm2⟩
          · -- step 2 existing
            subst hm2
            have hsmall2 : ∀ a ∈ a2, a < 2 ^ 40 := by rw [ha2]; exact hsmall1
            rcases nextTableCreate_cases _ _ _ _ _ _ _ hsmall2 h3 with
              ⟨hm3, ha3, hntf3⟩ | ⟨hal3, hc3, hntf3, hhg3, hm3⟩
            · -- AAA
              subst hm3
              refine Or.inl ⟨hntf1, hntf2, hntf3, hleaf, ?_, ?_⟩
              · rw [hmem]
              · rw [halloc, ha3, ha2, ha1]
            · -- AAB
              subst hm3
              refine Or.inr (Or.inl ⟨hntf1, hntf2, hntf3, hhg3, ?_, hc3, ?_⟩)
              · rw [halloc, ← ha1, ← ha2]
                exact hal3
              · rw [hmem]
          · -- step 2 created: step 3 must create as well
            subst hm2
            have hz : (zeroFrame (memSet mp.mem p3f (p3Index p) (p2f * 4096 ||| 3)) p2f) p2f
                (p2Index p) = 0 := by
              rw [zeroFrame_read]; simp
            have hsmall2 : ∀ a ∈ a2, a < 2 ^ 40 := by
              intro a ha
              apply hsmall1
              rw [hal2]
              exact List.mem_cons_of_mem _ ha
            rcases nextTableCreate_cases _ _ _ _ _ _ _ hsmall2 h3 with
              ⟨hm3, ha3, hntf3⟩ | ⟨hal3, hc3, hntf3, hhg3, hm3⟩
            · rw [nextTableFrame_zero _ _ _ hz] at hntf3
              exact absurd hntf3 (by simp)
            · -- ABB
              subst hm3
              refine Or.inr (Or.inr (Or.inl ⟨hntf1, hntf2, hhg2, ?_, hc2, hc3, ?_⟩))
              · rw [ha1] at hal2
                rw [hal2, hal3, halloc]
              · rw [hmem]
        · -- step 1 created: steps 2 and 3 must create as well
          subst hm1
          have hz1 : (zeroFrame (memSet mp.mem mp.p4 (p4Index p) (p3f * 4096 ||| 3)) p3f) p3f
              (p3Index p) = 0 := by
            rw [zeroFrame_read]; simp
          have hsmall1 : ∀ a ∈ a1, a < 2 ^ 40 := by
            intro a ha
            apply hsmall
            rw [hal1]
            exact List.mem_cons_of_mem _ ha
          rcases nextTableCreate_cases _ _ _ _ _ _ _ hsmall1 h2 with
            ⟨hm2, ha2, hntf2⟩ | ⟨hal2, hc2, hntf2, hhg2, hm2⟩
          · rw [nextTableFrame_zero _ _ _ hz1] at hntf2
            exact absurd hntf2 (by simp)
          · subst hm2
            have hz2 : (zeroFrame (memSet (zeroFrame (memSet mp.mem mp.p4 (p4Index p)
                (p3f * 4096 ||| 3)) p3f) p3f (p3Index p) (p2f * 4096 ||| 3)) p2f) p2f
                (p2Index p) = 0 := by
              rw [zeroFrame_read]; simp
            have hsmall2 : ∀ a ∈ a2, a < 2 ^ 40 := by
              intro a ha
              apply hsmall1
              rw [hal2]
              exact List.mem_cons_of_mem _ ha
            rcases nextTableCreate_cases _ _ _ _ _ _ _ hsmall2 h3 with
              ⟨hm3, ha3, hntf3⟩ | ⟨hal3, hc3, hntf3, hhg3, hm3⟩
            · rw [nextTableFrame_zero _ _ _ hz2] at hntf3
              exact absurd hntf3 (by simp)
            · -- BBB
              subst hm3
              have hc1a : p3f < 2 ^ 40 := hc1
              refine Or.inr (Or.inr (Or.inr ⟨hntf1, hhg1, ?_, hc1a, hc2, hc3, ?_⟩))
              · rw [hal1, hal2, hal3, halloc]
              · rw [hmem]

/-! ## Level membership and freshness helpers -/

theorem mem_childFrames (m : PTMem) (t i c : Nat) (hi : i < 512)
    (h : nextTableFrame m t i = some c) : c ∈ childFrames m t := by
  unfold childFrames ENTRY_COUNT
  exact List.mem_filterMap.mpr ⟨i, List.mem_range.mpr hi, h⟩

theorem mem_l3frames (m : PTMem) (p4 i c : Nat) (hi : i < 512)
    (h : nextTableFrame m p4 i = some c) : c ∈ l3frames m p4 :=
  mem_childFrames m p4 i c hi h

theorem mem_l2frames (m : PTMem) (p4 a i c : Nat) (ha : a ∈ l3frames m p4)
    (hi : i < 512) (h : nextTableFrame m a i = some c) : c ∈ l2frames m p4 := by
  unfold l2frames
  exact List.mem_flatMap.mpr ⟨a, ha, mem_childFrames m a i c hi h⟩

theorem mem_l1frames (m : PTMem) (p4 a i c : Nat) (ha : a ∈ l2frames m p4)
    (hi : i < 512) (h : nextTableFrame m a i = some c) : c ∈ l1frames m p4 := by
  unfold l1frames
  exact List.mem_flatMap.mpr ⟨a, ha, mem_childFrames m a i c hi h⟩

theorem fresh_split (m : PTMem) (p4 : Nat) (al : List Nat)
    (hFR : ∀ a ∈ al, a ∉ ptFrames m p4 ∧ a < 2 ^ 40) (a : Nat) (ha : a ∈ al) :
    a ≠ p4 ∧ a ∉ l3frames m p4 ∧ a ∉ l2frames m p4 ∧ a ∉ l1frames m p4 := by
  have h := (hFR a ha).1
  unfold ptFrames at h
  simp only [List.mem_cons, List.mem_append, not_or] at h
  exact ⟨h.1, h.2.1.1, h.2.1.2, h.2.2⟩

theorem ntf_of_created (m : PTMem) (t i c : Nat) (hc : c < 2 ^ 40)
    (hv : m t i = c * 4096 ||| 3) : nextTableFrame m t i = some c := by
  obtain ⟨h1, h2, h3⟩ := createdEntry_facts c hc
  exact nextTableFrame_eq_some m t i c (by rw [hv]; exact h1) (by rw [hv]; exact h2)
    (by rw [hv]; exact h3)

/-- Pairwise distinctness of the four frames of a walk. -/
def Distinct4 (p4 p3f p2f p1f : Nat) : Prop :=
  p4 ≠ p3f ∧ p4 ≠ p2f ∧ p4 ≠ p1f ∧ p3f ≠ p2f ∧ p3f ≠ p1f ∧ p2f ≠ p1f

/-- After a successful `map_to` from a well-formed state: the four frames on
the walk are pairwise distinct, the walk for `p` is intact in the new
memory, and the leaf holds `frame | flags | PRESENT`. -/
theorem mapTo_path (mp mp' : Mapper) (p f fl p3f p2f p1f : Nat)
    (hInv : Inv mp)
    (hcase : MapToAAA mp mp' p f fl p3f p2f p1f ∨ MapToAAB mp mp' p f fl p3f p2f p1f ∨
      MapToABB mp mp' p f fl p3f p2f p1f ∨ MapToBBB mp mp' p f fl p3f p2f p1f) :
    Distinct4 mp.p4 p3f p2f p1f ∧
    nextTableFrame mp'.mem mp.p4 (p4Index p) = some p3f ∧
    nextTableFrame mp'.mem p3f (p3Index p) = some p2f ∧
    nextTableFrame mp'.mem p2f (p2Index p) = some p1f ∧
    mp'.mem p1f (p1Index p) = leafVal f fl := by
  obtain ⟨hLS, hND, hFR⟩ := hInv
  rcases hcase with hc | hc | hc | hc
  · -- AAA: all three frames are existing tables
    obtain ⟨h1, h2, h3, hz, hmem, hal⟩ := hc
    have m3f : p3f ∈ l3frames mp.mem mp.p4 := mem_l3frames _ _ _ _ (p4Index_lt p) h1
    have m2f : p2f ∈ l2frames mp.mem mp.p4 := mem_l2frames _ _ _ _ _ m3f (p3Index_lt p) h2
    have m1f : p1f ∈ l1frames mp.mem mp.p4 := mem_l1frames _ _ _ _ _ m2f (p2Index_lt p) h3
    have d1 : mp.p4 ≠ p3f := by
      intro h; rw [← h] at m3f; exact hLS.1 m3f
    have d2 : mp.p4 ≠ p2f := by
      intro h; rw [← h] at m2f; exact hLS.2.1 m2f
    have d3 : mp.p4 ≠ p1f := by
      intro h; rw [← h] at m1f; exact hLS.2.2.1 m1f
    have d4 : p3f ≠ p2f := by
      intro h; rw [← h] at m2f; exact (hLS.2.2.2.1 p3f m3f).1 m2f
    have d5 : p3f ≠ p1f := by
      intro h; rw [← h] at m1f; exact (hLS.2.2.2.1 p3f m3f).2 m1f
    have d6 : p2f ≠ p1f := by
      intro h; rw [← h] at m1f; exact hLS.2.2.2.2 p2f m2f m1f
    refine ⟨⟨d1, d2, d3, d4, d5, d6⟩, ?_, ?_, ?_, ?_⟩
    · rw [hmem, nextTableFrame_congr _ mp.mem _ _
        (by simp only [memSet_read]; simp [d3])]
      exact h1
    · rw [hmem, nextTableFrame_congr _ mp.mem _ _
        (by simp only [memSet_read]; simp [d5])]
      exact h2
    · rw [hmem, nextTableFrame_congr _ mp.mem _ _
        (by simp only [memSet_read]; simp [d6])]
      exact h3
    · rw [hmem]
      simp only [memSet_read]
      simp
  · -- AAB: P1 freshly created from the allocator head
    obtain ⟨h1, h2, h3, hhg3, hal, hc1, hmem⟩ := hc
    have m3f : p3f ∈ l3frames mp.mem mp.p4 := mem_l3frames _ _ _ _ (p4Index_lt p) h1
    have m2f : p2f ∈ l2frames mp.mem mp.p4 := mem_l2frames _ _ _ _ _ m3f (p3Index_lt p) h2
    have hp1a : p1f ∈ mp.alloc := by rw [hal]; simp
    obtain ⟨e1, e2, e3, e4⟩ := fresh_split mp.mem mp.p4 mp.alloc hFR p1f hp1a
    have d1 : mp.p4 ≠ p3f := by
      intro h; rw [← h] at m3f; exact hLS.1 m3f
    have d2 : mp.p4 ≠ p2f := by
      intro h; rw [← h] at m2f; exact hLS.2.1 m2f
    have d3 : mp.p4 ≠ p1f := fun h => e1 h.symm
    have d4 : p3f ≠ p2f := by
      intro h; rw [← h] at m2f; exact (hLS.2.2.2.1 p3f m3f).1 m2f
    have d5 : p3f ≠ p1f := by
      intro h; rw [h] at m3f; exact e2 m3f
    have d6 : p2f ≠ p1f := by
      intro h; rw [h] at m2f; exact e3 m2f
    refine ⟨⟨d1, d2, d3, d4, d5, d6⟩, ?_, ?_, ?_, ?_⟩
    · rw [hmem, nextTableFrame_congr _ mp.mem _ _ ?_]
      · exact h1
      · simp only [memSet_read, zeroFrame_read]
        simp [d3, d2]
    · rw [hmem, nextTableFrame_congr _ mp.mem _ _ ?_]
      · exact h2
      · simp only [memSet_read, zeroFrame_read]
        simp [d5, d4]
    · rw [hmem]
      apply ntf_of_created _ _ _ _ hc1
      simp only [memSet_read, zeroFrame_read]
      simp [d6, (d6.symm : p1f ≠ p2f)]
    · rw [hmem]
      simp only [memSet_read]
      simp
  · -- ABB: P2 and P1 freshly created
    obtain ⟨h1, h2, hhg2, hal, hc2, hc1, hmem⟩ := hc
    have m3f : p3f ∈ l3frames mp.mem mp.p4 := mem_l3frames _ _ _ _ (p4Index_lt p) h1
    have hp2a : p2f ∈ mp.alloc := by rw [hal]; simp
    have hp1a : p1f ∈ mp.alloc := by rw [hal]; simp
    obtain ⟨e1, e2, e3, e4⟩ := fresh_split mp.mem mp.p4 mp.alloc hFR p1f hp1a
    obtain ⟨g1, g2, g3, g4⟩ := fresh_split mp.mem mp.p4 mp.alloc hFR p2f hp2a
    have d6 : p2f ≠ p1f := by
      intro h
      rw [hal] at hND
      subst h
      simp at hND
    have d1 : mp.p4 ≠ p3f := by
      intro h; rw [← h] at m3f; exact hLS.1 m3f
    have d2 : mp.p4 ≠ p2f := fun h => g1 h.symm
    have d3 : mp.p4 ≠ p1f := fun h => e1 h.symm
    have d4 : p3f ≠ p2f := by
      intro h; rw [h] at m3f; exact g2 m3f
    have d5 : p3f ≠ p1f := by
      intro h; rw [h] at m3f; exact e2 m3f
    refine ⟨⟨d1, d2, d3, d4, d5, d6⟩, ?_, ?_, ?_, ?_⟩
    · rw [hmem, nextTableFrame_congr _ mp.mem _ _ ?_]
      · exact h1
      · simp only [memSet_read, zeroFrame_read]
        simp [d3, d2, d1]
    · rw [hmem]
      apply ntf_of_created _ _ _ _ hc2
      simp only [memSet_read, zeroFrame_read]
      simp [d5, d4, (d4.symm : p2f ≠ p3f), (d5.symm : p1f ≠ p3f)]
    · rw [hmem]
      apply ntf_of_created _ _ _ _ hc1
      simp only [memSet_read, zeroFrame_read]
      simp [d6, (d6.symm : p1f ≠ p2f)]
    · rw [hmem]
      simp only [memSet_read]
      simp
  · -- BBB: all three tables freshly created
    obtain ⟨h1, hhg1, hal, hc3, hc2, hc1, hmem⟩ := hc
    have hp3a : p3f ∈ mp.alloc := by rw [hal]; simp
    have hp2a : p2f ∈ mp.alloc := by rw [hal]; simp
    have hp1a : p1f ∈ mp.alloc := by rw [hal]; simp
    obtain ⟨e1, e2, e3, e4⟩ := fresh_split mp.mem mp.p4 mp.alloc hFR p1f hp1a
    obtain ⟨g1, g2, g3, g4⟩ := fresh_split mp.mem mp.p4 mp.alloc hFR p2f hp2a
    obtain ⟨k1, k2, k3, k4⟩ := fresh_split mp.mem mp.p4 mp.alloc hFR p3f hp3a
    have hdist : p3f ≠ p2f ∧ p3f ≠ p1f ∧ p2f ≠ p1f := by
      rw [hal] at hND
      simp only [List.nodup_cons, List.mem_cons, not_or] at hND
      exact ⟨hND.1.1, hND.1.2.1, hND.2.1.1⟩
    have d1 : mp.p4 ≠ p3f := fun h => k1 h.symm
    have d2 : mp.p4 ≠ p2f := fun h => g1 h.symm
    have d3 : mp.p4 ≠ p1f := fun h => e1 h.symm
    refine ⟨⟨d1, d2, d3, hdist.1, hdist.2.1, hdist.2.2⟩, ?_, ?_, ?_, ?_⟩
    · rw [hmem]
      apply ntf_of_created _ _ _ _ hc3
      simp only [memSet_read, zeroFrame_read]
      simp [d1, d2, d3, d1.symm, d2.symm, d3.symm]
    · rw [hmem]
      apply ntf_of_created _ _ _ _ hc2
      simp only [memSet_read, zeroFrame_read]
      simp [hdist.1, hdist.2.1, (hdist.1.symm : p2f ≠ p3f), (hdist.2.1.symm : p1f ≠ p3f)]
    · rw [hmem]
      apply ntf_of_created _ _ _ _ hc1
      simp only [memSet_read, zeroFrame_read]
      simp [hdist.2.2, (hdist.2.2.symm : p1f ≠ p2f)]
    · rw [hmem]
      simp only [memSet_read]
      simp

/-! ## Address arithmetic helpers -/

theorem canonical_add (p k : Nat) (hp : CanonicalAddr (p * PAGE_SIZE)) (hk : k < PAGE_SIZE) :
    CanonicalAddr (p * PAGE_SIZE + k) := by
  unfold PAGE_SIZE at hk
  unfold CanonicalAddr PAGE_SIZE at hp ⊢
  omega

theorem frameContaining_start_add (p k : Nat) (hk : k < PAGE_SIZE) :
    frameContaining (startAddress p + k) = p := by
  unfold frameContaining startAddress PAGE_SIZE at *
  omega

theorem mod_start_add (p k : Nat) (hk : k < PAGE_SIZE) :
    (startAddress p + k) % PAGE_SIZE = k := by
  unfold startAddress PAGE_SIZE at *
  omega

/-- A frame number below `2 ^ 52` whose start address passes the
`Entry::set` mask assertion is below `2 ^ 40`. -/
theorem lt_2_40_of_mask (f : Nat) (h52 : f < 2 ^ 52)
    (hm : startAddress f &&& notMask = 0) : f < 2 ^ 40 := by
  have hx : startAddress f < 2 ^ 64 := by
    unfold startAddress PAGE_SIZE
    calc f * 4096 < 2 ^ 52 * 4096 := by omega
    _ = 2 ^ 64 := by norm_num
  have hsplit : startAddress f = startAddress f &&& addrMask := by
    have hall : addrMask ||| notMask = 2 ^ 64 - 1 := by decide
    have h1 : startAddress f &&& (2 ^ 64 - 1) = startAddress f := by
      rw [Nat.and_pow_two_sub_one_eq_mod, Nat.mod_eq_of_lt hx]
    calc startAddress f = startAddress f &&& (2 ^ 64 - 1) := h1.symm
    _ = startAddress f &&& (addrMask ||| notMask) := by rw [hall]
    _ = (startAddress f &&& addrMask) ||| (startAddress f &&& notMask) :=
        and_distrib_left_nat _ _ _
    _ = startAddress f &&& addrMask := by rw [hm, Nat.or_zero]
  have hle : startAddress f ≤ addrMask := hsplit ▸ Nat.and_le_right
  unfold startAddress PAGE_SIZE at hle
  unfold addrMask at hle
  omega

theorem option_bind_some {α β : Type} (a : α) (f : α → Option β) :
    (Bind.bind (some a) f : Option β) = f a := rfl

theorem pointedFrame_leafVal (f fl : Nat) (hf : f < 2 ^ 40) (hfl : fl &&& flagsMask = fl) :
    pointedFrame (leafVal f fl) = some f := by
  obtain ⟨hpp, hdec⟩ := leafEntry_facts f fl hf hfl
  unfold pointedFrame leafVal
  rw [if_pos hpp]
  rw [hdec]

/-- C2: for every well-formed Mapper, valid page p, valid frame f, valid
flag set, and allocator with available (fresh) frames: after a successful
`map_to(p, f, flags, alloc)` and no further mutation,
`translate(p.start_address() + k)` returns `Some(f.start_address() + k)`
for every offset `0 ≤ k < 4096`. -/
theorem c2_map_to_then_translate (mp mp' : Mapper) (p f fl k : Nat)
    (hInv : Inv mp) (hp : ValidPage p) (hf : f < 2 ^ 52)
    (hfl : fl &&& flagsMask = fl) (hk : k < PAGE_SIZE)
    (hok : mp.mapTo p f fl = .ok mp') :
    mp'.translate (startAddress p + k) = .ok (some (startAddress f + k)) := by
  have hsmall : ∀ a ∈ mp.alloc, a < 2 ^ 40 := fun a ha => (hInv.2.2 a ha).2
  obtain ⟨hp4, hmask, p3f, p2f, p1f, hcase⟩ := mapTo_spec mp mp' p f fl hsmall hok
  obtain ⟨hdist, w1, w2, w3, wleaf⟩ := mapTo_path mp mp' p f fl p3f p2f p1f hInv hcase
  have f40 : f < 2 ^ 40 := lt_2_40_of_mask f hf hmask
  have hcan : CanonicalAddr (startAddress p + k) := canonical_add p k hp.1 hk
  unfold Mapper.translate
  rw [if_pos hcan, frameContaining_start_add p k hk, mod_start_add p k hk]
  unfold Mapper.translatePage
  rw [hp4]
  simp only [w1, w2, w3, option_bind_some]
  rw [wleaf, pointedFrame_leafVal f fl f40 hfl]
  rfl

/-- Convenience Boolean success test for `Except` results. -/
def isOkE {α : Type} (x : Except String α) : Bool :=
  match x with
  | .ok _ => true
  | .error _ => false

/-- Witness for C2 at a concrete mapper state. -/
theorem c2_map_to_then_translate_witness :
    ∃ mp', Mapper.mapTo ⟨7, fun _ _ => 0, [10, 11, 12]⟩ 0 5 2 = .ok mp' ∧
      mp'.translate 123 = .ok (some 20603) := by
  cases hok : Mapper.mapTo ⟨7, fun _ _ => 0, [10, 11, 12]⟩ 0 5 2 with
  | error e =>
    have hvalue : isOkE (Mapper.mapTo ⟨7, fun _ _ => 0, [10, 11, 12]⟩ 0 5 2) = true := by

      rfl
    rw [hok] at hvalue
    exact absurd hvalue (by simp [isOkE])
  | ok mp' =>
    refine ⟨mp', rfl, ?_⟩
    have h := c2_map_to_then_translate ⟨7, fun _ _ => 0, [10, 11, 12]⟩ mp' 0 5 2 123
      (by decide) (by decide) (by decide) (by decide) (by decide) hok
    exact h

/-! ## C5: double mapping panics -/

/-- C5: mapping the same page twice without an intervening unmap panics on
the second `map_to` with the leaf-unused assertion: after a successful
`map_to(p, f1, fl1)`, any `map_to(p, f2, fl2)` fails because the P1 leaf
entry is no longer zero. -/
theorem c5_double_map_panics (mp mp1 : Mapper) (p f1 f2 fl1 fl2 : Nat)
    (hInv : Inv mp)
    (h1 : mp.mapTo p f1 fl1 = .ok mp1) :
    mp1.mapTo p f2 fl2 = .error msgP1Used := by
  have hsmall : ∀ a ∈ mp.alloc, a < 2 ^ 40 := fun a ha => (hInv.2.2 a ha).2
  obtain ⟨hp4, hmask, p3f, p2f, p1f, hcase⟩ := mapTo_spec mp mp1 p f1 fl1 hsmall h1
  obtain ⟨hdist, w1, w2, w3, wleaf⟩ := mapTo_path mp mp1 p f1 fl1 p3f p2f p1f hInv hcase
  have c1 : nextTableCreate mp1.mem mp.p4 (p4Index p) mp1.alloc =
      .ok (p3f, mp1.mem, mp1.alloc) := by
    unfold nextTableCreate
    rw [w1]
  have c2 : nextTableCreate mp1.mem p3f (p3Index p) mp1.alloc =
      .ok (p2f, mp1.mem, mp1.alloc) := by
    unfold nextTableCreate
    rw [w2]
  have c3 : nextTableCreate mp1.mem p2f (p2Index p) mp1.alloc =
      .ok (p1f, mp1.mem, mp1.alloc) := by
    unfold nextTableCreate
    rw [w3]
  have hne : mp1.mem p1f (p1Index p) ≠ 0 := by
    rw [wleaf]
    exact leafEntry_ne_zero f1 fl1
  unfold Mapper.mapTo
  rw [hp4]
  simp only [c1, c2, c3]
  rw [if_neg hne]

/-- Witness for C5 at a concrete mapper state. -/
theorem c5_double_map_panics_witness :
    ∃ mp1, Mapper.mapTo ⟨9, fun _ _ => 0, [20, 21, 22]⟩ 1 6 1 = .ok mp1 ∧
      mp1.mapTo 1 8 1 = .error msgP1Used := by
  cases hok : Mapper.mapTo ⟨9, fun _ _ => 0, [20, 21, 22]⟩ 1 6 1 with
  | error e =>
    have hvalue : isOkE (Mapper.mapTo ⟨9, fun _ _ => 0, [20, 21, 22]⟩ 1 6 1) = true := by
      rfl
    rw [hok] at hvalue
    exact absurd hvalue (by simp [isOkE])
  | ok mp1 =>
    exact ⟨mp1, rfl, c5_double_map_panics ⟨9, fun _ _ => 0, [20, 21, 22]⟩ mp1 1 6 8 1 1
      (by decide) hok⟩

/-! ## C4: unmap, then translate none, then remap -/

theorem ntf_some_elim (m : PTMem) (t i c : Nat) (h : nextTableFrame m t i = some c) :
    flagsContain (m t i) PRESENT ∧ ¬ flagsContain (m t i) HUGE_PAGE ∧
    frameContaining (m t i &&& addrMask) = c := by
  unfold nextTableFrame at h
  by_cases hc : flagsContain (m t i) PRESENT ∧ ¬ flagsContain (m t i) HUGE_PAGE
  · rw [if_pos hc] at h
    simp only [Option.some.injEq] at h
    exact ⟨hc.1, hc.2, h⟩
  · rw [if_neg hc] at h
    exact absurd h (by simp)

theorem pointedFrame_zero : pointedFrame 0 = none := by decide

theorem pointedFrame_of_present (e : Nat) (h : flagsContain e PRESENT) :
    pointedFrame e = some (frameContaining (e &&& addrMask)) := by
  unfold pointedFrame
  rw [if_pos h]

theorem frameContaining_start (p : Nat) : frameContaining (startAddress p) = p := by
  unfold frameContaining startAddress PAGE_SIZE
  omega

theorem start_mod_page (p : Nat) : startAddress p % PAGE_SIZE = 0 := by
  unfold startAddress PAGE_SIZE
  omega

/-- C4: for a page that currently translates through a non-huge walk,
`unmap(p, alloc)` succeeds; afterwards `translate(p.start_address())`
returns `None`, and a subsequent `map_to(p, f2, fl2, alloc)` succeeds (its
leaf-unused assertion holds). -/
theorem c4_unmap_translate_none_remap (mp : Mapper) (p p3f p2f p1f f2 fl2 : Nat)
    (hp : ValidPage p)
    (w1 : nextTableFrame mp.mem mp.p4 (p4Index p) = some p3f)
    (w2 : nextTableFrame mp.mem p3f (p3Index p) = some p2f)
    (w3 : nextTableFrame mp.mem p2f (p2Index p) = some p1f)
    (hleaf : flagsContain (mp.mem p1f (p1Index p)) PRESENT)
    (hdist : Distinct4 mp.p4 p3f p2f p1f)
    (hf2 : startAddress f2 &&& notMask = 0) :
    ∃ mp1, mp.unmap p = .ok mp1 ∧
      mp1.translate (startAddress p) = .ok none ∧
      ∃ mp2, mp1.mapTo p f2 fl2 = .ok mp2 := by
  obtain ⟨d1, d2, d3, d4, d5, d6⟩ := hdist
  have hcan : CanonicalAddr (startAddress p) := by
    rw [startAddress_eq]
    have := hp.1
    unfold PAGE_SIZE at this
    exact this
  -- the page currently translates
  have htrans : mp.translate (startAddress p) =
      .ok (some (frameContaining (mp.mem p1f (p1Index p) &&& addrMask) * PAGE_SIZE +
        startAddress p % PAGE_SIZE)) := by
    unfold Mapper.translate
    rw [if_pos hcan, frameContaining_start]
    unfold Mapper.translatePage
    simp only [w1, w2, w3, option_bind_some]
    rw [pointedFrame_of_present _ hleaf]
    rfl
  -- the unmap result state
  refine ⟨⟨mp.p4, memSet mp.mem p1f (p1Index p) 0, mp.alloc⟩, ?_, ?_, ?_⟩
  · unfold Mapper.unmap
    rw [htrans]
    simp only [Option.isSome_some, if_true, w1, w2, w3, option_bind_some]
    rw [pointedFrame_of_present _ hleaf]
  · -- translate now fails: the walk reaches a zero leaf and the huge-page
    -- fallback sees only present non-huge entries
    have r1 : memSet mp.mem p1f (p1Index p) 0 mp.p4 (p4Index p) = mp.mem mp.p4 (p4Index p) := by
      rw [memSet_read]
      simp [d3]
    have r2 : memSet mp.mem p1f (p1Index p) 0 p3f (p3Index p) = mp.mem p3f (p3Index p) := by
      rw [memSet_read]
      simp [d5]
    have r3 : memSet mp.mem p1f (p1Index p) 0 p2f (p2Index p) = mp.mem p2f (p2Index p) := by
      rw [memSet_read]
      simp [d6]
    have r4 : memSet mp.mem p1f (p1Index p) 0 p1f (p1Index p) = 0 := by
      rw [memSet_read]
      simp
    unfold Mapper.translate
    rw [if_pos hcan, frameContaining_start]
    unfold Mapper.translatePage
    simp only []
    rw [nextTableFrame_congr _ mp.mem _ _ r1, w1]
    simp only [nextTableFrame_congr _ mp.mem _ _ r2, w2,
      nextTableFrame_congr _ mp.mem _ _ r3, w3, option_bind_some]
    rw [r4, pointedFrame_zero]
    unfold hugePageLookup
    obtain ⟨e3p, e3h, _⟩ := ntf_some_elim _ _ _ _ w2
    obtain ⟨e2p, e2h, _⟩ := ntf_some_elim _ _ _ _ w3
    simp only [r2, r3, nextTableFrame_congr _ mp.mem _ _ r2, w2,
      pointedFrame_of_present _ e3p, if_neg e3h, pointedFrame_of_present _ e2p,
      if_neg e2h]
    rfl
  · -- remapping succeeds: the walk is intact and the leaf is now zero
    have r1 : memSet mp.mem p1f (p1Index p) 0 mp.p4 (p4Index p) = mp.mem mp.p4 (p4Index p) := by
      rw [memSet_read]
      simp [d3]
    have r2 : memSet mp.mem p1f (p1Index p) 0 p3f (p3Index p) = mp.mem p3f (p3Index p) := by
      rw [memSet_read]
      simp [d5]
    have r3 : memSet mp.mem p1f (p1Index p) 0 p2f (p2Index p) = mp.mem p2f (p2Index p) := by
      rw [memSet_read]
      simp [d6]
    have r4 : memSet mp.mem p1f (p1Index p) 0 p1f (p1Index p) = 0 := by
      rw [memSet_read]
      simp
    have c1 : nextTableCreate (memSet mp.mem p1f (p1Index p) 0) mp.p4 (p4Index p) mp.alloc =
        .ok (p3f, memSet mp.mem p1f (p1Index p) 0, mp.alloc) := by
      unfold nextTableCreate
      rw [nextTableFrame_congr _ mp.mem _ _ r1, w1]
    have c2 : nextTableCreate (memSet mp.mem p1f (p1Index p) 0) p3f (p3Index p) mp.alloc =
        .ok (p2f, memSet mp.mem p1f (p1Index p) 0, mp.alloc) := by
      unfold nextTableCreate
      rw [nextTableFrame_congr _ mp.mem _ _ r2, w2]
    have c3 : nextTableCreate (memSet mp.mem p1f (p1Index p) 0) p2f (p2Index p) mp.alloc =
        .ok (p1f, memSet mp.mem p1f (p1Index p) 0, mp.alloc) := by
      unfold nextTableCreate
      rw [nextTableFrame_congr _ mp.mem _ _ r3, w3]
    refine ⟨⟨mp.p4, memSet (memSet mp.mem p1f (p1Index p) 0) p1f (p1Index p)
      (startAddress f2 ||| (fl2 ||| PRESENT)), mp.alloc⟩, ?_⟩
    unfold Mapper.mapTo
    simp only [c1, c2, c3]
    rw [if_pos r4]
    unfold entrySet
    rw [if_pos hf2]

instance (a b c d : Nat) : Decidable (Distinct4 a b c d) := by
  unfold Distinct4; infer_instance

/-- A concrete page-table memory with page 0 mapped through frames
100 (P4) to 103 (P1), whose leaf points at frame 5. -/
def c4mem : PTMem := fun t i =>
  if t = 100 ∧ i = 0 then 101 * 4096 + 3
  else if t = 101 ∧ i = 0 then 102 * 4096 + 3
  else if t = 102 ∧ i = 0 then 103 * 4096 + 3
  else if t = 103 ∧ i = 0 then 5 * 4096 + 3
  else 0

/-- Witness for C4 at a concrete mapper state. -/
theorem c4_unmap_translate_none_remap_witness :
    ∃ mp1, Mapper.unmap ⟨100, c4mem, [30]⟩ 0 = .ok mp1 ∧
      mp1.translate (startAddress 0) = .ok none ∧
      ∃ mp2, mp1.mapTo 0 6 2 = .ok mp2 :=
  c4_unmap_translate_none_remap ⟨100, c4mem, [30]⟩ 0 101 102 103 6 2
    (by decide) (by decide) (by decide) (by decide) (by decide) (by decide) (by decide)

/-! ## C10: Entry::set followed by pointed_frame and flags -/

theorem startAddress_and_flagsMask (f : Nat) (hmask : startAddress f &&& notMask = 0) :
    startAddress f &&& flagsMask = 0 := by
  have hsub : flagsMask = notMask &&& flagsMask := by decide
  rw [hsub, ← Nat.land_assoc, hmask, Nat.zero_and]

/-- C10: for every frame whose start address has no bits outside the
physical-address mask and every valid flag set containing PRESENT,
`Entry::set(f, fl)` succeeds and afterwards `pointed_frame()` returns
`Some(f)` and `flags()` contains `fl`; and every entry whose flags lack
PRESENT has `pointed_frame() = None`. -/
theorem c10_entry_set_roundtrip (f fl : Nat) (hf52 : f < 2 ^ 52)
    (hmask : startAddress f &&& notMask = 0)
    (hfl : fl &&& flagsMask = fl) (hp : flagsContain fl PRESENT) :
    (∃ e, entrySet f fl = .ok e ∧ pointedFrame e = some f ∧ flagsContain e fl) ∧
    (∀ e2, ¬ flagsContain e2 PRESENT → pointedFrame e2 = none) := by
  constructor
  · have f40 : f < 2 ^ 40 := lt_2_40_of_mask f hf52 hmask
    refine ⟨startAddress f ||| fl, ?_, ?_, ?_⟩
    · unfold entrySet
      rw [if_pos hmask]
    · have hodd : (startAddress f ||| fl) % 2 = 1 :=
        lor_odd _ _ ((flagsContain_present_iff fl).mp hp)
      rw [pointedFrame_of_present _ ((flagsContain_present_iff _).mpr hodd)]
      rw [startAddress_eq, lor_and_addrMask f fl f40 (flags_and_addrMask fl hfl)]
      unfold frameContaining PAGE_SIZE
      congr 1
      omega
    · unfold flagsContain entryFlags
      rw [Nat.and_distrib_right, startAddress_and_flagsMask f hmask, Nat.zero_or, hfl,
        Nat.and_self]
  · intro e2 h
    unfold pointedFrame
    rw [if_neg h]

/-- Witness for C10 at a concrete frame and flag set. -/
theorem c10_entry_set_roundtrip_witness :
    (∃ e, entrySet 5 3 = .ok e ∧ pointedFrame e = some 5 ∧ flagsContain e 3) ∧
    (∀ e2, ¬ flagsContain e2 PRESENT → pointedFrame e2 = none) :=
  c10_entry_set_roundtrip 5 3 (by decide) (by decide) (by decide) (by decide)

/-! ## AreaFrameAllocator (memory/area_frame_allocator.rs)

Frames are identified by their `number`; the multiboot2 memory areas are a
list of `{base_addr, length}` records (both `u64`).  The recursive
`allocate_frame` of the source is embedded with a fuel parameter bounding
recursion depth only: every theorem below holds for every fuel value, and
a fuel-exhausted call returns `none` without touching the state. -/

/-- A multiboot2 memory area: `base_addr` and `length` in bytes. -/
structure MemoryArea where
  base_addr : Nat
  length : Nat

/-- AreaFrameAllocator state (field for field from the source); frames are
stored as their numbers. -/
structure AreaFrameAllocator where
  next_free_frame : Nat
  current_area : Option MemoryArea
  areas : List MemoryArea
  kernel_start : Nat
  kernel_end : Nat
  multiboot_start : Nat
  multiboot_end : Nat

/-- The u64 computation `area.base_addr + area.length - 1` (wrapping). -/
def areaLastAddress (a : MemoryArea) : Nat :=
  (a.base_addr + a.length + (2 ^ 64 - 1)) % 2 ^ 64

/-- The last frame of an area, as computed by the source. -/
def areaLastFrame (a : MemoryArea) : Nat := frameContaining (areaLastAddress a)

/-- Iterator::min_by_key on `base_addr`: the first element with minimal
base address. -/
def minByBase : List MemoryArea → Option MemoryArea
  | [] => none
  | a :: rest =>
    match minByBase rest with
    | none => some a
    | some b => if b.base_addr < a.base_addr then some b else some a

/-- AreaFrameAllocator::choose_next_area: pick the area with smallest base
address whose last frame is at or past the cursor; if it starts past the
cursor, advance the cursor to its first frame. -/
def choose_next_area (s : AreaFrameAllocator) : AreaFrameAllocator :=
  match minByBase (s.areas.filter (fun a => decide (s.next_free_frame ≤ areaLastFrame a))) with
  | none => { s with current_area := none }
  | some area =>
    if s.next_free_frame < frameContaining area.base_addr then
      { s with current_area := some area, next_free_frame := frameContaining area.base_addr }
    else
      { s with current_area := some area }

/-- AreaFrameAllocator::allocate_frame.  The Rust function is
tail-recursive; `fuel` bounds the recursion depth only. -/
def allocate_frame : Nat → AreaFrameAllocator → Option Nat × AreaFrameAllocator
  | 0, s => (none, s)
  | fuel + 1, s =>
    match s.current_area with
    | none => (none, s)
    | some area =>
      let frame := s.next_free_frame
      let current_area_last_frame := areaLastFrame area
      if current_area_last_frame < frame then
        allocate_frame fuel (choose_next_area s)
      else if s.kernel_start ≤ frame ∧ frame ≤ s.kernel_end then
        allocate_frame fuel { s with next_free_frame := s.kernel_end + 1 }
      else if s.multiboot_start ≤ frame ∧ frame ≤ s.multiboot_end then
        allocate_frame fuel { s with next_free_frame := s.multiboot_end + 1 }
      else
        (some frame, { s with next_free_frame := frame + 1 })

/-- AreaFrameAllocator::new. -/
def AreaFrameAllocator.new (kernel_start kernel_end multiboot_start multiboot_end : Nat)
    (memory_areas : List MemoryArea) : AreaFrameAllocator :=
  choose_next_area
    { next_free_frame := frameContaining 0
      current_area := none
      areas := memory_areas
      kernel_start := frameContaining kernel_start
      kernel_end := frameContaining kernel_end
      multiboot_start := frameContaining multiboot_start
      multiboot_end := frameContaining multiboot_end }

/-- The frames returned by `n` successive `allocate_frame` calls. -/
def allocate_n (fuel : Nat) : Nat → AreaFrameAllocator → List Nat × AreaFrameAllocator
  | 0, s => ([], s)
  | n + 1, s =>
    let r := allocate_frame fuel s
    let rest := allocate_n fuel n r.2
    (match r.1 with
     | some f => f :: rest.1
     | none => rest.1, rest.2)

/-- The allocator state invariant: the current area (when set) is one of
the memory-map areas and starts at or before the cursor. -/
def AfaInv (s : AreaFrameAllocator) : Prop :=
  ∀ a, s.current_area = some a →
    a ∈ s.areas ∧ frameContaining a.base_addr ≤ s.next_free_frame

/-- The configuration fields that `allocate_frame` never changes. -/
def afaConfig (s : AreaFrameAllocator) :
    List MemoryArea × Nat × Nat × Nat × Nat :=
  (s.areas, s.kernel_start, s.kernel_end, s.multiboot_start, s.multiboot_end)

/-- Membership of a frame in a reserved (kernel or multiboot) range. -/
def inReserved (s : AreaFrameAllocator) (f : Nat) : Prop :=
  (s.kernel_start ≤ f ∧ f ≤ s.kernel_end) ∨
  (s.multiboot_start ≤ f ∧ f ≤ s.multiboot_end)

/-- Membership of a frame in some memory area (as the source computes it). -/
def inAreas (areas : List MemoryArea) (f : Nat) : Prop :=
  ∃ a ∈ areas, frameContaining a.base_addr ≤ f ∧ f ≤ areaLastFrame a

theorem minByBase_mem (l : List MemoryArea) (a : MemoryArea) (h : minByBase l = some a) :
    a ∈ l := by
  induction l with
  | nil => simp [minByBase] at h
  | cons x rest ih =>
    unfold minByBase at h
    cases hm : minByBase rest with
    | none =>
      rw [hm] at h
      simp only [Option.some.injEq] at h
      simp [h]
    | some b =>
      rw [hm] at h
      simp only [] at h
      by_cases hb : b.base_addr < x.base_addr
      · rw [if_pos hb] at h
        simp only [Option.some.injEq] at h
        subst h
        exact List.mem_cons_of_mem _ (ih hm)
      · rw [if_neg hb] at h
        simp only [Option.some.injEq] at h
        simp [h]

theorem choose_spec (s : AreaFrameAllocator) :
    afaConfig (choose_next_area s) = afaConfig s ∧
    s.next_free_frame ≤ (choose_next_area s).next_free_frame ∧
    AfaInv (choose_next_area s) := by
  unfold choose_next_area
  cases hm : minByBase (s.areas.filter (fun a => decide (s.next_free_frame ≤ areaLastFrame a))) with
  | none =>
    simp only []
    refine ⟨rfl, le_refl _, ?_⟩
    intro a ha
    simp at ha
  | some area =>
    simp only []
    have hmem : area ∈ s.areas := by
      have h := minByBase_mem _ _ hm
      exact (List.mem_filter.mp h).1
    by_cases hlt : s.next_free_frame < frameContaining area.base_addr
    · rw [if_pos hlt]
      refine ⟨rfl, le_of_lt hlt, ?_⟩
      intro a ha
      simp only [Option.some.injEq] at ha
      subst ha
      exact ⟨hmem, le_refl _⟩
    · rw [if_neg hlt]
      refine ⟨rfl, le_refl _, ?_⟩
      intro a ha
      simp only [Option.some.injEq] at ha
      subst ha
      exact ⟨hmem, le_of_not_lt hlt⟩

theorem allocate_frame_spec (fuel : Nat) (s : AreaFrameAllocator) (hInv : AfaInv s) :
    ∀ r s2, allocate_frame fuel s = (r, s2) →
      afaConfig s2 = afaConfig s ∧ AfaInv s2 ∧
      s.next_free_frame ≤ s2.next_free_frame ∧
      ∀ f, r = some f →
        s.next_free_frame ≤ f ∧ s2.next_free_frame = f + 1 ∧
        ¬ inReserved s f ∧ inAreas s.areas f := by
  induction fuel generalizing s with
  | zero =>
    intro r s2 h
    unfold allocate_frame at h
    simp only [Prod.mk.injEq] at h
    obtain ⟨h1, h2⟩ := h
    subst h1 h2
    exact ⟨rfl, hInv, le_refl _, by simp⟩
  | succ fuel ih =>
    intro r s2 h
    unfold allocate_frame at h
    cases hca : s.current_area with
    | none =>
      rw [hca] at h
      simp only [Prod.mk.injEq] at h
      obtain ⟨h1, h2⟩ := h
      subst h1 h2
      exact ⟨rfl, hInv, le_refl _, by simp⟩
    | some area =>
      rw [hca] at h
      simp only [] at h
      by_cases hb1 : areaLastFrame area < s.next_free_frame
      · -- current area exhausted: advance to the next area and retry
        rw [if_pos hb1] at h
        obtain ⟨hcfg, hmono, hinv2⟩ := choose_spec s
        obtain ⟨c1, c2, c3, c4⟩ := ih (choose_next_area s) hinv2 r s2 h
        have harea : (choose_next_area s).areas = s.areas := congrArg (fun c => c.1) hcfg
        have hk1 : (choose_next_area s).kernel_start = s.kernel_start :=
          congrArg (fun c => c.2.1) hcfg
        have hk2 : (choose_next_area s).kernel_end = s.kernel_end :=
          congrArg (fun c => c.2.2.1) hcfg
        have hm1 : (choose_next_area s).multiboot_start = s.multiboot_start :=
          congrArg (fun c => c.2.2.2.1) hcfg
        have hm2 : (choose_next_area s).multiboot_end = s.multiboot_end :=
          congrArg (fun c => c.2.2.2.2) hcfg
        refine ⟨by rw [c1, hcfg], c2, le_trans hmono c3, ?_⟩
        intro f hf
        obtain ⟨d1, d2, d3, d4⟩ := c4 f hf
        refine ⟨le_trans hmono d1, d2, ?_, by rw [← harea]; exact d4⟩
        unfold inReserved at d3 ⊢
        rw [hk1, hk2, hm1, hm2] at d3
        exact d3
      · rw [if_neg hb1] at h
        by_cases hb2 : s.kernel_start ≤ s.next_free_frame ∧ s.next_free_frame ≤ s.kernel_end
        · -- cursor inside the kernel range: jump past it and retry
          rw [if_pos hb2] at h
          have hInv2 : AfaInv ⟨s.kernel_end + 1, some area, s.areas, s.kernel_start,
              s.kernel_end, s.multiboot_start, s.multiboot_end⟩ := by
            intro a ha
            simp only [Option.some.injEq] at ha
            subst ha
            obtain ⟨q1, q2⟩ := hInv area hca
            exact ⟨q1, by simp only []; omega⟩
          obtain ⟨c1, c2, c3, c4⟩ := ih _ hInv2 r s2 h
          have c3a : s.kernel_end + 1 ≤ s2.next_free_frame := c3
          refine ⟨c1, c2, by omega, ?_⟩
          intro f hf
          obtain ⟨d1, d2, d3, d4⟩ := c4 f hf
          have d1a : s.kernel_end + 1 ≤ f := d1
          exact ⟨by omega, d2, d3, d4⟩
        · rw [if_neg hb2] at h
          by_cases hb3 : s.multiboot_start ≤ s.next_free_frame ∧
              s.next_free_frame ≤ s.multiboot_end
          · -- cursor inside the multiboot range: jump past it and retry
            rw [if_pos hb3] at h
            have hInv2 : AfaInv ⟨s.multiboot_end + 1, some area, s.areas, s.kernel_start,
                s.kernel_end, s.multiboot_start, s.multiboot_end⟩ := by
              intro a ha
              simp only [Option.some.injEq] at ha
              subst ha
              obtain ⟨q1, q2⟩ := hInv area hca
              exact ⟨q1, by simp only []; omega⟩
            obtain ⟨c1, c2, c3, c4⟩ := ih _ hInv2 r s2 h
            have c3a : s.multiboot_end + 1 ≤ s2.next_free_frame := c3
            refine ⟨c1, c2, by omega, ?_⟩
            intro f hf
            obtain ⟨d1, d2, d3, d4⟩ := c4 f hf
            have d1a : s.multiboot_end + 1 ≤ f := d1
            exact ⟨by omega, d2, d3, d4⟩
          · -- free frame: return it and advance the cursor by one
            rw [if_neg hb3] at h
            simp only [Prod.mk.injEq] at h
            obtain ⟨h1, h2⟩ := h
            subst h1 h2
            refine ⟨rfl, ?_, Nat.le_succ _, ?_⟩
            · intro a ha
              simp only [Option.some.injEq] at ha
              subst ha
              obtain ⟨q1, q2⟩ := hInv area hca
              exact ⟨q1, by simp only []; omega⟩
            · intro f hf
              simp only [Option.some.injEq] at hf
              subst hf
              refine ⟨le_refl _, rfl, ?_, ?_⟩
              · unfold inReserved
                push_neg
                constructor
                · intro hk
                  by_contra hk2
                  exact hb2 ⟨hk, by omega⟩
                · intro hk
                  by_contra hk2
                  exact hb3 ⟨hk, by omega⟩
              · obtain ⟨q1, q2⟩ := hInv area hca
                exact ⟨area, q1, q2, by omega⟩

theorem inReserved_congr (s s' : AreaFrameAllocator) (h : afaConfig s' = afaConfig s)
    (f : Nat) : inReserved s' f ↔ inReserved s f := by
  unfold inReserved
  have h2 : s'.kernel_start = s.kernel_start := congrArg (fun c => c.2.1) h
  have h3 : s'.kernel_end = s.kernel_end := congrArg (fun c => c.2.2.1) h
  have h4 : s'.multiboot_start = s.multiboot_start := congrArg (fun c => c.2.2.2.1) h
  have h5 : s'.multiboot_end = s.multiboot_end := congrArg (fun c => c.2.2.2.2) h
  rw [h2, h3, h4, h5]

theorem allocate_n_spec (fuel n : Nat) (s : AreaFrameAllocator) (hInv : AfaInv s) :
    ∀ fs s2, allocate_n fuel n s = (fs, s2) →
      afaConfig s2 = afaConfig s ∧ AfaInv s2 ∧
      s.next_free_frame ≤ s2.next_free_frame ∧
      List.Pairwise (· < ·) fs ∧
      ∀ f ∈ fs, s.next_free_frame ≤ f ∧ f < s2.next_free_frame ∧
        ¬ inReserved s f ∧ inAreas s.areas f := by
  induction n generalizing s with
  | zero =>
    intro fs s2 h
    unfold allocate_n at h
    simp only [Prod.mk.injEq] at h
    obtain ⟨h1, h2⟩ := h
    subst h1 h2
    exact ⟨rfl, hInv, le_refl _, by simp, by simp⟩
  | succ n ih =>
    intro fs s2 h
    unfold allocate_n at h
    cases hr : allocate_frame fuel s with
    | mk r1 s1 =>
      rw [hr] at h
      simp only [] at h
      obtain ⟨cfg1, inv1, mono1, ret1⟩ := allocate_frame_spec fuel s hInv r1 s1 hr
      cases hrest : allocate_n fuel n s1 with
      | mk fs1 s2a =>
        rw [hrest] at h
        simp only [] at h
        obtain ⟨cfg2, inv2, mono2, pw, all⟩ := ih s1 inv1 fs1 s2a hrest
        have harea1 : s1.areas = s.areas := congrArg (fun c => c.1) cfg1
        cases r1 with
        | none =>
          simp only [Prod.mk.injEq] at h
          obtain ⟨h1, h2⟩ := h
          subst h1 h2
          refine ⟨cfg2.trans cfg1, inv2, le_trans mono1 mono2, pw, ?_⟩
          intro f hf
          obtain ⟨a1, a2, a3, a4⟩ := all f hf
          refine ⟨le_trans mono1 a1, a2, ?_, ?_⟩
          · rw [← inReserved_congr s s1 cfg1]
            exact a3
          · rw [← harea1]
            exact a4
        | some f0 =>
          simp only [Prod.mk.injEq] at h
          obtain ⟨h1, h2⟩ := h
          subst h1 h2
          obtain ⟨b1, b2, b3, b4⟩ := ret1 f0 rfl
          refine ⟨cfg2.trans cfg1, inv2, ?_, ?_, ?_⟩
          · rw [b2] at mono2
            omega
          · refine List.pairwise_cons.mpr ⟨?_, pw⟩
            intro g hg
            have := (all g hg).1
            rw [b2] at this
            omega
          · intro f hf
            rcases List.mem_cons.mp hf with hf0 | hfr
            · subst hf0
              refine ⟨b1, ?_, b3, b4⟩
              rw [b2] at mono2
              omega
            · obtain ⟨a1, a2, a3, a4⟩ := all f hfr
              refine ⟨?_, a2, ?_, ?_⟩
              · rw [b2] at a1
                omega
              · rw [← inReserved_congr s s1 cfg1]
                exact a3
              · rw [← harea1]
                exact a4

theorem areaLastAddress_eq (a : MemoryArea) (h1 : 0 < a.length)
    (h2 : a.base_addr + a.length ≤ 2 ^ 64) :
    areaLastAddress a = a.base_addr + a.length - 1 := by
  unfold areaLastAddress
  omega

/-- C1: for an AreaFrameAllocator constructed over a memory map and
kernel/multiboot reserved ranges, the frames returned by successive
`allocate_frame` calls have strictly increasing numbers (hence no frame is
returned twice), none lies in a reserved range, and each lies in the frame
range of some memory area. -/
theorem c1_area_frame_allocator_invariants (ks ke ms me : Nat)
    (areas : List MemoryArea) (fuel n : Nat)
    (hwf : ∀ a ∈ areas, 0 < a.length ∧ a.base_addr + a.length ≤ 2 ^ 64) :
    List.Pairwise (· < ·) (allocate_n fuel n (AreaFrameAllocator.new ks ke ms me areas)).1 ∧
    (allocate_n fuel n (AreaFrameAllocator.new ks ke ms me areas)).1.Nodup ∧
    ∀ f ∈ (allocate_n fuel n (AreaFrameAllocator.new ks ke ms me areas)).1,
      ¬ inReserved (AreaFrameAllocator.new ks ke ms me areas) f ∧
      ∃ a ∈ areas, frameContaining a.base_addr ≤ f ∧
        f ≤ frameContaining (a.base_addr + a.length - 1) := by
  have hInv : AfaInv (AreaFrameAllocator.new ks ke ms me areas) := by
    unfold AreaFrameAllocator.new
    exact (choose_spec _).2.2
  have harea : (AreaFrameAllocator.new ks ke ms me areas).areas = areas := by
    unfold AreaFrameAllocator.new
    have := congrArg (fun c => c.1) (choose_spec
      ⟨frameContaining 0, none, areas, frameContaining ks, frameContaining ke,
        frameContaining ms, frameContaining me⟩).1
    exact this
  cases h : allocate_n fuel n (AreaFrameAllocator.new ks ke ms me areas) with
  | mk fs s2 =>
    obtain ⟨cfg, inv2, mono, pw, all⟩ := allocate_n_spec fuel n _ hInv fs s2 h
    simp only []
    refine ⟨pw, List.Pairwise.imp Nat.ne_of_lt pw, ?_⟩
    intro f hf
    obtain ⟨a1, a2, a3, a4⟩ := all f hf
    refine ⟨a3, ?_⟩
    rw [harea] at a4
    obtain ⟨a, hmem, hlo, hhi⟩ := a4
    refine ⟨a, hmem, hlo, ?_⟩
    unfold areaLastFrame at hhi
    rw [areaLastAddress_eq a (hwf a hmem).1 (hwf a hmem).2] at hhi
    exact hhi

/-- Witness for C1 at a concrete memory map. -/
theorem c1_area_frame_allocator_invariants_witness :
    List.Pairwise (· < ·)
      (allocate_n 8 6 (AreaFrameAllocator.new 0x1000 0x1fff 0x3000 0x3fff [⟨0, 0x5000⟩])).1 ∧
    (allocate_n 8 6 (AreaFrameAllocator.new 0x1000 0x1fff 0x3000 0x3fff [⟨0, 0x5000⟩])).1.Nodup ∧
    ∀ f ∈ (allocate_n 8 6 (AreaFrameAllocator.new 0x1000 0x1fff 0x3000 0x3fff [⟨0, 0x5000⟩])).1,
      ¬ inReserved (AreaFrameAllocator.new 0x1000 0x1fff 0x3000 0x3fff [⟨0, 0x5000⟩]) f ∧
      ∃ a ∈ [(⟨0, 0x5000⟩ : MemoryArea)], frameContaining a.base_addr ≤ f ∧
        f ≤ frameContaining (a.base_addr + a.length - 1) :=
  c1_area_frame_allocator_invariants 0x1000 0x1fff 0x3000 0x3fff [⟨0, 0x5000⟩] 8 6
    (by decide)

/-! ## C3: the concrete S4 allocation scenario

Memory map `[0, 0x100000)`, kernel `[0x10000, 0x20000]`, multiboot
`[0x30000, 0x31000]`: the reserved frame ranges are `[16..32]` and
`[48..49]`. -/

/-- C3 counterexample: the claimed listing `0, 1, …, 15, 33, 50, 51, …`
is wrong: the frame returned directly after 33 is 34, not 50, so the first
18 returned frames differ from the claimed prefix. -/
theorem c3_counterexample_listing :
    (allocate_n 8 18 (AreaFrameAllocator.new 0x10000 0x20000 0x30000 0x31000
      [⟨0, 0x100000⟩])).1 ≠
    [0, 1, 2, 3, 4, 5, 6, 7, 8, 9, 10, 11, 12, 13, 14, 15, 33, 50] := by
  decide

/-- C3 (amended): the sequence of returned frames begins
`0, 1, …, 15, 33, 34, …, 47, 50, 51, …`; over the whole 256-frame area the
returned frames are exactly those outside `[16..32]` and `[48..49]`. -/
theorem c3_s4_allocation_sequence :
    (allocate_n 8 18 (AreaFrameAllocator.new 0x10000 0x20000 0x30000 0x31000
      [⟨0, 0x100000⟩])).1 =
      [0, 1, 2, 3, 4, 5, 6, 7, 8, 9, 10, 11, 12, 13, 14, 15, 33, 34] ∧
    (allocate_n 8 237 (AreaFrameAllocator.new 0x10000 0x20000 0x30000 0x31000
      [⟨0, 0x100000⟩])).1 =
      (List.range 256).filter (fun n => decide (¬ ((16 ≤ n ∧ n ≤ 32) ∨ (48 ≤ n ∧ n ≤ 49)))) := by
  constructor
  · decide
  · decide

/-! ## C6: ELF section flags and the remap_kernel section loop

The multiboot2 ELF section flag bits (`SHF_WRITE`, `SHF_ALLOC`,
`SHF_EXECINSTR`). -/

/-- multiboot2 ELF_SECTION_WRITABLE (0x1). -/
def ELF_SECTION_WRITABLE : Nat := 1

/-- multiboot2 ELF_SECTION_ALLOCATED (0x2). -/
def ELF_SECTION_ALLOCATED : Nat := 2

/-- multiboot2 ELF_SECTION_EXECUTABLE (0x4). -/
def ELF_SECTION_EXECUTABLE : Nat := 4

/-- An ELF section as consumed from the multiboot2 info structure. -/
structure ElfSection where
  addr : Nat
  size : Nat
  flags : Nat

/-- bitflags `contains` on ELF section flags. -/
def elfFlagsContain (fl x : Nat) : Prop := fl &&& x = x

instance (fl x : Nat) : Decidable (elfFlagsContain fl x) := by
  unfold elfFlagsContain; infer_instance

/-- EntryFlags::from_elf_section_flags: start from empty flags, OR in
PRESENT when ALLOCATED, WRITABLE when WRITABLE, NO_EXECUTE when not
EXECUTABLE. -/
def from_elf_section_flags (s : ElfSection) : Nat :=
  let f0 : Nat := 0
  let f1 := if elfFlagsContain s.flags ELF_SECTION_ALLOCATED then f0 ||| PRESENT else f0
  let f2 := if elfFlagsContain s.flags ELF_SECTION_WRITABLE then f1 ||| WRITABLE else f1
  if ¬ elfFlagsContain s.flags ELF_SECTION_EXECUTABLE then f2 ||| NO_EXECUTE else f2

/-- Frame::range_inclusive as the list of frame numbers from `a` to `b`. -/
def frameRangeInclusive (a b : Nat) : List Nat := List.range' a (b + 1 - a)

/-- Panic message of the page-alignment assertion in remap_kernel. -/
def msgSectionAligned : String := "sections need to be page aligned"

/-- The identity-map operations (frame, entry flags) issued for one ELF
section by the remap_kernel loop: skipped when not allocated or empty,
otherwise the alignment assertion followed by one `identity_map` per frame
from `containing(start)` to `containing(end - 1)` with flags from
`from_elf_section_flags`. -/
def sectionOps (s : ElfSection) : Except String (List (Nat × Nat)) :=
  if ¬ elfFlagsContain s.flags ELF_SECTION_ALLOCATED ∨ s.size = 0 then .ok []
  else if s.addr % PAGE_SIZE = 0 then
    .ok ((frameRangeInclusive (frameContaining s.addr)
      (frameContaining (s.addr + s.size - 1))).map
      (fun fr => (fr, from_elf_section_flags s)))
  else .error msgSectionAligned

/-- The identity-map operations of the whole ELF-sections loop of
remap_kernel, in program order. -/
def remapSectionOps : List ElfSection → Except String (List (Nat × Nat))
  | [] => .ok []
  | s :: rest =>
    match sectionOps s with
    | .error e => .error e
    | .ok ops =>
      match remapSectionOps rest with
      | .error e => .error e
      | .ok more => .ok (ops ++ more)

theorem testBit_one (j : Nat) : (1 : Nat).testBit j = decide (0 = j) := by
  have h : (1 : Nat) = 2 ^ 0 := by norm_num
  rw [h, Nat.testBit_two_pow]

theorem testBit_two (j : Nat) : (2 : Nat).testBit j = decide (1 = j) := by
  have h : (2 : Nat) = 2 ^ 1 := by norm_num
  rw [h, Nat.testBit_two_pow]

theorem testBit_nx (j : Nat) : NO_EXECUTE.testBit j = decide (63 = j) := by
  have h : NO_EXECUTE = 2 ^ 63 := by decide
  rw [h, Nat.testBit_two_pow]

theorem testBit_combo (a : Nat) (ha : a < 4) (j : Nat) (hj2 : 2 ≤ j) (hj63 : j ≠ 63) :
    (a ||| NO_EXECUTE).testBit j = false ∧ a.testBit j = false := by
  have h1 : a.testBit j = false := by
    apply Nat.testBit_eq_false_of_lt
    calc a < 4 := ha
    _ = 2 ^ 2 := by norm_num
    _ ≤ 2 ^ j := Nat.pow_le_pow_right (by norm_num) hj2
  refine ⟨?_, h1⟩
  rw [Nat.testBit_lor, h1, testBit_nx]
  simp [Ne.symm hj63]

/-- C6: `from_elf_section_flags` returns exactly PRESENT iff the section is
ALLOCATED, WRITABLE iff WRITABLE, NO_EXECUTE iff not EXECUTABLE, and no
other bits; and the remap_kernel section loop identity-maps every frame of
every allocated nonzero-size section with exactly these flags. -/
theorem c6_from_elf_section_flags (sections : List ElfSection) (ops : List (Nat × Nat))
    (hops : remapSectionOps sections = .ok ops) :
    (∀ s : ElfSection,
      ((from_elf_section_flags s).testBit 0 = true ↔
        elfFlagsContain s.flags ELF_SECTION_ALLOCATED) ∧
      ((from_elf_section_flags s).testBit 1 = true ↔
        elfFlagsContain s.flags ELF_SECTION_WRITABLE) ∧
      ((from_elf_section_flags s).testBit 63 = true ↔
        ¬ elfFlagsContain s.flags ELF_SECTION_EXECUTABLE) ∧
      (∀ j, j ≠ 0 → j ≠ 1 → j ≠ 63 → (from_elf_section_flags s).testBit j = false)) ∧
    (∀ s ∈ sections, elfFlagsContain s.flags ELF_SECTION_ALLOCATED → s.size ≠ 0 →
      ∀ fr, frameContaining s.addr ≤ fr → fr ≤ frameContaining (s.addr + s.size - 1) →
        (fr, from_elf_section_flags s) ∈ ops) := by
  constructor
  · intro s
    refine ⟨?_, ?_, ?_, ?_⟩
    · unfold from_elf_section_flags PRESENT WRITABLE
      by_cases h1 : elfFlagsContain s.flags ELF_SECTION_ALLOCATED <;>
        by_cases h2 : elfFlagsContain s.flags ELF_SECTION_WRITABLE <;>
          by_cases h3 : elfFlagsContain s.flags ELF_SECTION_EXECUTABLE <;>
            simp [h1, h2, h3, Nat.testBit_lor, testBit_one, testBit_two, testBit_nx,
              Nat.zero_testBit] <;> decide
    · unfold from_elf_section_flags PRESENT WRITABLE
      by_cases h1 : elfFlagsContain s.flags ELF_SECTION_ALLOCATED <;>
        by_cases h2 : elfFlagsContain s.flags ELF_SECTION_WRITABLE <;>
          by_cases h3 : elfFlagsContain s.flags ELF_SECTION_EXECUTABLE <;>
            simp [h1, h2, h3, Nat.testBit_lor, testBit_one, testBit_two, testBit_nx,
              Nat.zero_testBit] <;> decide
    · unfold from_elf_section_flags PRESENT WRITABLE
      by_cases h1 : elfFlagsContain s.flags ELF_SECTION_ALLOCATED <;>
        by_cases h2 : elfFlagsContain s.flags ELF_SECTION_WRITABLE <;>
          by_cases h3 : elfFlagsContain s.flags ELF_SECTION_EXECUTABLE <;>
            simp [h1, h2, h3, Nat.testBit_lor, testBit_one, testBit_two, testBit_nx,
              Nat.zero_testBit] <;> decide
    · intro j hj0 hj1 hj63
      have hj2 : 2 ≤ j := by omega
      unfold from_elf_section_flags PRESENT WRITABLE
      by_cases h1 : elfFlagsContain s.flags ELF_SECTION_ALLOCATED <;>
        by_cases h2 : elfFlagsContain s.flags ELF_SECTION_WRITABLE <;>
          by_cases h3 : elfFlagsContain s.flags ELF_SECTION_EXECUTABLE <;>
            simp only [h1, h2, h3, if_true, if_false, ite_true, ite_false,
              not_false_eq_true, not_true_eq_false] <;>
            first
              | exact (testBit_combo _ (by decide) j hj2 hj63).1
              | exact (testBit_combo _ (by decide) j hj2 hj63).2
  · induction sections generalizing ops with
    | nil =>
      intro s hs
      simp at hs
    | cons t rest ih =>
      intro s hs halloc hsz fr hlo hhi
      unfold remapSectionOps at hops
      cases hops1 : sectionOps t with
      | error e =>
        rw [hops1] at hops
        exact absurd hops (by simp)
      | ok ops1 =>
        rw [hops1] at hops
        simp only [] at hops
        cases hops2 : remapSectionOps rest with
        | error e =>
          rw [hops2] at hops
          exact absurd hops (by simp)
        | ok more =>
          rw [hops2] at hops
          simp only [Except.ok.injEq] at hops
          subst hops
          rcases List.mem_cons.mp hs with hst | hsr
          · subst hst
            apply List.mem_append.mpr
            left
            unfold sectionOps at hops1
            rw [if_neg (by push_neg; exact ⟨halloc, hsz⟩)] at hops1
            by_cases hal : s.addr % PAGE_SIZE = 0
            · rw [if_pos hal] at hops1
              simp only [Except.ok.injEq] at hops1
              subst hops1
              apply List.mem_map.mpr
              refine ⟨fr, ?_, rfl⟩
              unfold frameRangeInclusive
              rw [List.mem_range'_1]
              omega
            · rw [if_neg hal] at hops1
              exact absurd hops1 (by simp)
          · apply List.mem_append.mpr
            right
            exact ih more hops2 s hsr halloc hsz fr hlo hhi

/-- Witness for C6 with a concrete allocated executable section. -/
theorem c6_from_elf_section_flags_witness :
    (∀ s : ElfSection,
      ((from_elf_section_flags s).testBit 0 = true ↔
        elfFlagsContain s.flags ELF_SECTION_ALLOCATED) ∧
      ((from_elf_section_flags s).testBit 1 = true ↔
        elfFlagsContain s.flags ELF_SECTION_WRITABLE) ∧
      ((from_elf_section_flags s).testBit 63 = true ↔
        ¬ elfFlagsContain s.flags ELF_SECTION_EXECUTABLE) ∧
      (∀ j, j ≠ 0 → j ≠ 1 → j ≠ 63 → (from_elf_section_flags s).testBit j = false)) ∧
    (∀ s ∈ [(⟨0x100000, 0x1000, 6⟩ : ElfSection)],
      elfFlagsContain s.flags ELF_SECTION_ALLOCATED → s.size ≠ 0 →
      ∀ fr, frameContaining s.addr ≤ fr → fr ≤ frameContaining (s.addr + s.size - 1) →
        (fr, from_elf_section_flags s) ∈ [(256, 1)]) :=
  c6_from_elf_section_flags [⟨0x100000, 0x1000, 6⟩] [(256, 1)] (by rfl)

/-! ## C8: TinyAllocator (paging/temporary_page.rs) -/

/-- TinyAllocator: a fixed array of three optional frames. -/
structure TinyAllocator where
  s0 : Option Nat
  s1 : Option Nat
  s2 : Option Nat

/-- One `allocate_frame` pull from a list-backed underlying allocator. -/
def listAlloc (al : List Nat) : Option Nat × List Nat :=
  match al with
  | [] => (none, [])
  | f :: rest => (some f, rest)

/-- TinyAllocator::new: pull three frames from the underlying allocator. -/
def TinyAllocator.new (al : List Nat) : TinyAllocator × List Nat :=
  let r0 := listAlloc al
  let r1 := listAlloc r0.2
  let r2 := listAlloc r1.2
  (⟨r0.1, r1.1, r2.1⟩, r2.2)

/-- TinyAllocator::allocate_frame: take the first filled slot. -/
def TinyAllocator.allocate_frame : TinyAllocator → Option Nat × TinyAllocator
  | ⟨some a, b, c⟩ => (some a, ⟨none, b, c⟩)
  | ⟨none, some b, c⟩ => (some b, ⟨none, none, c⟩)
  | ⟨none, none, some c⟩ => (some c, ⟨none, none, none⟩)
  | ⟨none, none, none⟩ => (none, ⟨none, none, none⟩)

/-- Panic message of TinyAllocator::deallocate_frame. -/
def msgTiny : String := "tiny allocator can hold only 3 frames."

/-- TinyAllocator::deallocate_frame: refill the first empty slot, panic if
all three are full. -/
def TinyAllocator.deallocate_frame : TinyAllocator → Nat → Except String TinyAllocator
  | ⟨none, b, c⟩, f => .ok ⟨some f, b, c⟩
  | ⟨some a, none, c⟩, f => .ok ⟨some a, some f, c⟩
  | ⟨some a, some b, none⟩, f => .ok ⟨some a, some b, some f⟩
  | ⟨some _, some _, some _⟩, _ => .error msgTiny

/-- Number of frames currently held. -/
def tinyCount (t : TinyAllocator) : Nat :=
  (if t.s0.isSome then 1 else 0) + (if t.s1.isSome then 1 else 0) +
    (if t.s2.isSome then 1 else 0)

/-- C8: a TinyAllocator holds three optional frames, filled by pulling
three frames from the underlying allocator at construction, refilled on
`deallocate_frame`, and panicking when asked to hold a fourth simultaneous
frame. -/
theorem c8_tiny_allocator (a b c : Nat) (rest : List Nat) (t : TinyAllocator) (f : Nat) :
    TinyAllocator.new (a :: b :: c :: rest) = (⟨some a, some b, some c⟩, rest) ∧
    (tinyCount t = 3 → t.deallocate_frame f = .error msgTiny) ∧
    (tinyCount t < 3 →
      ∃ t', t.deallocate_frame f = .ok t' ∧ tinyCount t' = tinyCount t + 1) := by
  refine ⟨rfl, ?_, ?_⟩
  · intro h3
    rcases t with ⟨_ | a0, _ | a1, _ | a2⟩ <;>
      simp [tinyCount] at h3 <;> rfl
  · intro hlt
    rcases t with ⟨_ | a0, _ | a1, _ | a2⟩ <;>
      simp [tinyCount] at hlt ⊢ <;>
        exact ⟨_, rfl, by simp [tinyCount]⟩

/-- Witness for C8 at concrete allocator states. -/
theorem c8_tiny_allocator_witness :
    TinyAllocator.new [1, 2, 3, 4] = (⟨some 1, some 2, some 3⟩, [4]) ∧
    (tinyCount ⟨some 1, some 2, some 3⟩ = 3 →
      TinyAllocator.deallocate_frame ⟨some 1, some 2, some 3⟩ 9 = .error msgTiny) ∧
    (tinyCount ⟨some 1, some 2, some 3⟩ < 3 →
      ∃ t', TinyAllocator.deallocate_frame ⟨some 1, some 2, some 3⟩ 9 = .ok t' ∧
        tinyCount t' = tinyCount ⟨some 1, some 2, some 3⟩ + 1) :=
  c8_tiny_allocator 1 2 3 [4] ⟨some 1, some 2, some 3⟩ 9

/-! ## C9: Gdt::add_entry (interrupts/gdt.rs) -/

/-- Panic message of Gdt::push. -/
def msgGdtFull : String := "GDT full"

/-- The Global Descriptor Table: 16 entry slots and the next free index. -/
structure Gdt where
  table : List Nat
  next_free : Nat

/-- Gdt::new: 16 zeroed slots, next_free starts at 1 (slot 0 is the null
descriptor). -/
def Gdt.new : Gdt := ⟨List.replicate 16 0, 1⟩

/-- A GDT descriptor: a user segment (one slot) or a system segment (two
slots). -/
inductive Descriptor where
  | UserSegment (value : Nat)
  | SystemSegment (low high : Nat)

/-- Slots consumed by a descriptor. -/
def descrSize : Descriptor → Nat
  | .UserSegment _ => 1
  | .SystemSegment _ _ => 2

/-- Gdt::push: store the value at next_free and return its index, or panic
when the table is full. -/
def Gdt.push (g : Gdt) (value : Nat) : Except String (Nat × Gdt) :=
  if g.next_free < g.table.length then
    .ok (g.next_free, ⟨g.table.set g.next_free value, g.next_free + 1⟩)
  else .error msgGdtFull

/-- Gdt::add_entry: push one slot for a user segment, two (low then high)
for a system segment; the returned selector index is that of the first
pushed slot. -/
def Gdt.add_entry (g : Gdt) (entry : Descriptor) : Except String (Nat × Gdt) :=
  match entry with
  | .UserSegment value => g.push value
  | .SystemSegment low high =>
    match g.push low with
    | .error e => .error e
    | .ok (index, g1) =>
      match g1.push high with
      | .error e => .error e
      | .ok (_, g2) => .ok (index, g2)

/-- A sequence of add_entry calls, collecting the returned indices. -/
def addEntries (g : Gdt) : List Descriptor → Except String (List Nat × Gdt)
  | [] => .ok ([], g)
  | d :: rest =>
    match g.add_entry d with
    | .error e => .error e
    | .ok (i, g1) =>
      match addEntries g1 rest with
      | .error e => .error e
      | .ok (is, g2) => .ok (i :: is, g2)

theorem push_spec (g : Gdt) (v i : Nat) (g' : Gdt) (h : g.push v = .ok (i, g')) :
    i = g.next_free ∧ g'.next_free = g.next_free + 1 ∧
    g'.table.length = g.table.length := by
  unfold Gdt.push at h
  by_cases hc : g.next_free < g.table.length
  · rw [if_pos hc] at h
    simp only [Except.ok.injEq, Prod.mk.injEq] at h
    obtain ⟨h1, h2⟩ := h
    subst h1
    rw [← h2]
    exact ⟨rfl, rfl, List.length_set ..⟩
  · rw [if_neg hc] at h
    exact absurd h (by simp)

theorem add_entry_spec (g : Gdt) (e : Descriptor) (i : Nat) (g' : Gdt)
    (h : g.add_entry e = .ok (i, g')) :
    i = g.next_free ∧ g'.next_free = g.next_free + descrSize e ∧
    g'.table.length = g.table.length := by
  cases e with
  | UserSegment v =>
    obtain ⟨h1, h2, h3⟩ := push_spec g v i g' h
    exact ⟨h1, h2, h3⟩
  | SystemSegment lo hi =>
    unfold Gdt.add_entry at h
    simp only [] at h
    cases hp1 : g.push lo with
    | error e1 => rw [hp1] at h; exact absurd h (by simp)
    | ok r1 =>
      obtain ⟨i1, g1⟩ := r1
      rw [hp1] at h
      simp only [] at h
      cases hp2 : g1.push hi with
      | error e2 => rw [hp2] at h; exact absurd h (by simp)
      | ok r2 =>
        obtain ⟨i2, g2⟩ := r2
        rw [hp2] at h
        simp only [Except.ok.injEq, Prod.mk.injEq] at h
        obtain ⟨h1, h2⟩ := h
        obtain ⟨q1, q2, q3⟩ := push_spec g lo i1 g1 hp1
        obtain ⟨w1, w2, w3⟩ := push_spec g1 hi i2 g2 hp2
        subst h1 h2
        refine ⟨q1, ?_, by rw [w3, q3]⟩
        rw [w2, q2]
        rfl

theorem addEntries_spec (ds : List Descriptor) (g : Gdt) :
    ∀ is g2, addEntries g ds = .ok (is, g2) →
      List.Pairwise (· < ·) is ∧ (∀ i ∈ is, g.next_free ≤ i) ∧
      g.next_free ≤ g2.next_free ∧
      (ds ≠ [] → is.head? = some g.next_free) := by
  induction ds generalizing g with
  | nil =>
    intro is g2 h
    unfold addEntries at h
    simp only [Except.ok.injEq, Prod.mk.injEq] at h
    obtain ⟨h1, h2⟩ := h
    subst h1 h2
    exact ⟨by simp, by simp, le_refl _, by simp⟩
  | cons d rest ih =>
    intro is g2 h
    unfold addEntries at h
    cases h1 : g.add_entry d with
    | error e => rw [h1] at h; exact absurd h (by simp)
    | ok r1 =>
      obtain ⟨i1, g1⟩ := r1
      rw [h1] at h
      simp only [] at h
      cases h2 : addEntries g1 rest with
      | error e => rw [h2] at h; exact absurd h (by simp)
      | ok r2 =>
        obtain ⟨is1, g2a⟩ := r2
        rw [h2] at h
        simp only [Except.ok.injEq, Prod.mk.injEq] at h
        obtain ⟨hh1, hh2⟩ := h
        subst hh1 hh2
        obtain ⟨q1, q2, q3⟩ := add_entry_spec g d i1 g1 h1
        obtain ⟨p1, p2, p3, p4⟩ := ih g1 is1 g2a h2
        have hsz : 1 ≤ descrSize d := by cases d <;> simp [descrSize]
        refine ⟨?_, ?_, ?_, ?_⟩
        · refine List.pairwise_cons.mpr ⟨?_, p1⟩
          intro j hj
          have := p2 j hj
          omega
        · intro i hi
          rcases List.mem_cons.mp hi with hi1 | hi2
          · omega
          · have := p2 i hi2
            omega
        · omega
        · intro _
          simp [q1]

theorem add_entry_error_iff (g : Gdt) (e : Descriptor) (hlen : g.table.length = 16) :
    (∃ er, g.add_entry e = .error er) ↔ 16 < g.next_free + descrSize e := by
  cases e with
  | UserSegment v =>
    unfold Gdt.add_entry Gdt.push
    simp only []
    rw [hlen]
    by_cases hc : g.next_free < 16
    · rw [if_pos hc]
      simp [descrSize]
      omega
    · rw [if_neg hc]
      simp [descrSize, msgGdtFull]
      omega
  | SystemSegment lo hi =>
    unfold Gdt.add_entry Gdt.push
    simp only []
    rw [hlen]
    by_cases hc : g.next_free < 16
    · rw [if_pos hc]
      simp only []
      have hlen2 : (g.table.set g.next_free lo).length = 16 := by
        rw [List.length_set, hlen]
      rw [hlen2]
      by_cases hc2 : g.next_free + 1 < 16
      · rw [if_pos hc2]
        simp [descrSize]
        omega
      · rw [if_neg hc2]
        simp [descrSize, msgGdtFull]
        omega
    · rw [if_neg hc]
      simp [descrSize, msgGdtFull]
      omega

/-- C9: on a fresh Gdt the indices assigned by successive add_entry calls
are strictly increasing starting at 1, a SystemSegment consumes two slots,
and add_entry panics exactly when the descriptor does not fit the 16-slot
table. -/
theorem c9_gdt_add_entry (ds : List Descriptor) (is : List Nat) (g2 : Gdt)
    (hds : addEntries Gdt.new ds = .ok (is, g2)) :
    (List.Pairwise (· < ·) is ∧ (∀ i ∈ is, 1 ≤ i) ∧
      (ds ≠ [] → is.head? = some 1)) ∧
    (∀ g e i g', Gdt.add_entry g e = .ok (i, g') →
      i = g.next_free ∧ g'.next_free = g.next_free + descrSize e) ∧
    (∀ g : Gdt, ∀ e, g.table.length = 16 →
      ((∃ er, g.add_entry e = .error er) ↔ 16 < g.next_free + descrSize e)) := by
  obtain ⟨p1, p2, p3, p4⟩ := addEntries_spec ds Gdt.new is g2 hds
  refine ⟨⟨p1, p2, p4⟩, ?_, ?_⟩
  · intro g e i g' h
    obtain ⟨q1, q2, q3⟩ := add_entry_spec g e i g' h
    exact ⟨q1, q2⟩
  · intro g e hlen
    exact add_entry_error_iff g e hlen

/-- Witness for C9 with two concrete descriptors. -/
theorem c9_gdt_add_entry_witness :
    (List.Pairwise (· < ·) [1, 2] ∧ (∀ i ∈ [1, 2], 1 ≤ i) ∧
      ([Descriptor.UserSegment 8, Descriptor.SystemSegment 5 6] ≠ [] →
        List.head? [1, 2] = some 1)) ∧
    (∀ g e i g', Gdt.add_entry g e = .ok (i, g') →
      i = g.next_free ∧ g'.next_free = g.next_free + descrSize e) ∧
    (∀ g : Gdt, ∀ e, g.table.length = 16 →
      ((∃ er, g.add_entry e = .error er) ↔ 16 < g.next_free + descrSize e)) :=
  c9_gdt_add_entry [Descriptor.UserSegment 8, Descriptor.SystemSegment 5 6] [1, 2]
    ⟨((List.replicate 16 0).set 1 8 |>.set 2 5 |>.set 3 6), 4⟩ (by rfl)

/-! ## C7: the stack allocator (memory/stack_allocator.rs)

The theorems about `alloc_stack` need a stronger structural invariant than
`Inv`: the paging structure is a tree, i.e. all frames of the structure are
pairwise distinct, so distinct present entries point at distinct child
tables. -/

/-- Tree-shaped paging structure: all frames of the structure are pairwise
distinct, and the allocator's pending frames are distinct, free and valid. -/
def TreeInv (mp : Mapper) : Prop :=
  (ptFrames mp.mem mp.p4).Nodup ∧ mp.alloc.Nodup ∧
  ∀ a ∈ mp.alloc, a ∉ ptFrames mp.mem mp.p4 ∧ a < 2 ^ 40

instance (mp : Mapper) : Decidable (TreeInv mp) := by
  unfold TreeInv; infer_instance

theorem nodup_app3_parts {a b c : List Nat} (h : (a ++ b ++ c).Nodup) :
    a.Nodup ∧ b.Nodup ∧ c.Nodup ∧
    (∀ y ∈ a, y ∉ b) ∧ (∀ y ∈ a, y ∉ c) ∧ (∀ y ∈ b, y ∉ c) := by
  rw [List.nodup_append] at h
  obtain ⟨hab, hc, hd⟩ := h
  rw [List.nodup_append] at hab
  obtain ⟨ha, hb, hd2⟩ := hab
  refine ⟨ha, hb, hc, ?_, ?_, ?_⟩
  · intro y hy hyb
    exact hd2 hy hyb
  · intro y hy hyc
    exact hd (List.mem_append.mpr (Or.inl hy)) hyc
  · intro y hy hyc
    exact hd (List.mem_append.mpr (Or.inr hy)) hyc

theorem nodup_app3_build {a b c : List Nat}
    (ha : a.Nodup) (hb : b.Nodup) (hc : c.Nodup)
    (dab : ∀ y ∈ a, y ∉ b) (dac : ∀ y ∈ a, y ∉ c) (dbc : ∀ y ∈ b, y ∉ c) :
    (a ++ b ++ c).Nodup := by
  rw [List.nodup_append]
  refine ⟨?_, hc, ?_⟩
  · rw [List.nodup_append]
    exact ⟨ha, hb, fun y hy hyb => dab y hy hyb⟩
  · intro y hy hyc
    rcases List.mem_append.mp hy with h | h
    · exact dac y h hyc
    · exact dbc y h hyc

/-- A tree-shaped structure satisfies the level-separation invariant. -/
theorem Inv_of_TreeInv (mp : Mapper) (h : TreeInv mp) : Inv mp := by
  obtain ⟨hnd, hal, hfr⟩ := h
  refine ⟨?_, hal, hfr⟩
  unfold ptFrames at hnd
  rw [List.nodup_cons] at hnd
  obtain ⟨hp4, hnd⟩ := hnd
  obtain ⟨_, _, _, d32, d31, d21⟩ := nodup_app3_parts hnd
  simp only [List.mem_append, not_or] at hp4
  exact ⟨hp4.1.1, hp4.1.2, hp4.2,
    fun x hx => ⟨d32 x hx, d31 x hx⟩, fun x hx => d21 x hx⟩

/-! ### List toolkit for structure-rebuilding -/

theorem filterMap_congr_list {f g : Nat → Option Nat} :
    ∀ (l : List Nat), (∀ a ∈ l, f a = g a) → l.filterMap f = l.filterMap g := by
  intro l
  induction l with
  | nil => intro _; rfl
  | cons x xs ih =>
    intro h
    rw [List.filterMap_cons, List.filterMap_cons, h x (List.mem_cons_self x xs),
      ih (fun a ha => h a (List.mem_cons_of_mem x ha))]

theorem flatMap_congr_list {f g : Nat → List Nat} :
    ∀ (l : List Nat), (∀ a ∈ l, f a = g a) → l.flatMap f = l.flatMap g := by
  intro l
  induction l with
  | nil => intro _; rfl
  | cons x xs ih =>
    intro h
    rw [List.flatMap_cons, List.flatMap_cons, h x (List.mem_cons_self x xs),
      ih (fun a ha => h a (List.mem_cons_of_mem x ha))]

theorem filterMap_nodup_inj {f : Nat → Option Nat} :
    ∀ (l : List Nat), (l.filterMap f).Nodup →
      ∀ a ∈ l, ∀ b ∈ l, ∀ c, f a = some c → f b = some c → a = b := by
  intro l
  induction l with
  | nil =>
    intro _ a ha
    exact absurd ha (by simp)
  | cons x xs ih =>
    intro hnd a ha b hb c hfa hfb
    cases hx : f x with
    | none =>
      rw [List.filterMap_cons_none hx] at hnd
      have ha2 : a ∈ xs := by
        rcases List.mem_cons.mp ha with h | h
        · rw [h, hx] at hfa; exact absurd hfa (by simp)
        · exact h
      have hb2 : b ∈ xs := by
        rcases List.mem_cons.mp hb with h | h
        · rw [h, hx] at hfb; exact absurd hfb (by simp)
        · exact h
      exact ih hnd a ha2 b hb2 c hfa hfb
    | some d =>
      rw [List.filterMap_cons_some hx, List.nodup_cons] at hnd
      rcases List.mem_cons.mp ha with h | ha2
      · rcases List.mem_cons.mp hb with h2 | hb2
        · rw [h, h2]
        · rw [h, hx] at hfa
          have hdc : d = c := Option.some_inj.mp hfa
          rw [hdc] at hnd
          exact absurd (List.mem_filterMap.mpr ⟨b, hb2, hfb⟩) hnd.1
      · rcases List.mem_cons.mp hb with h2 | hb2
        · rw [h2, hx] at hfb
          have hdc : d = c := Option.some_inj.mp hfb
          rw [hdc] at hnd
          exact absurd (List.mem_filterMap.mpr ⟨a, ha2, hfa⟩) hnd.1
        · exact ih hnd.2 a ha2 b hb2 c hfa hfb

theorem flatMap_nodup_elim {f : Nat → List Nat} :
    ∀ (l : List Nat), (l.flatMap f).Nodup → ∀ a ∈ l, (f a).Nodup := by
  intro l
  induction l with
  | nil =>
    intro _ a ha
    exact absurd ha (by simp)
  | cons x xs ih =>
    intro hnd a ha
    rw [List.flatMap_cons, List.nodup_append] at hnd
    rcases List.mem_cons.mp ha with h | h
    · rw [h]; exact hnd.1
    · exact ih hnd.2.1 a h

theorem flatMap_nodup_src {f : Nat → List Nat} :
    ∀ (l : List Nat), (l.flatMap f).Nodup →
      ∀ a ∈ l, ∀ b ∈ l, ∀ c, c ∈ f a → c ∈ f b → a = b := by
  intro l
  induction l with
  | nil =>
    intro _ a ha
    exact absurd ha (by simp)
  | cons x xs ih =>
    intro hnd a ha b hb c hca hcb
    rw [List.flatMap_cons, List.nodup_append] at hnd
    rcases List.mem_cons.mp ha with h | ha2
    · rcases List.mem_cons.mp hb with h2 | hb2
      · rw [h, h2]
      · rw [h] at hca
        exact absurd (List.mem_flatMap.mpr ⟨b, hb2, hcb⟩) (fun hm => hnd.2.2 hca hm)
    · rcases List.mem_cons.mp hb with h2 | hb2
      · rw [h2] at hcb
        exact absurd (List.mem_flatMap.mpr ⟨a, ha2, hca⟩) (fun hm => hnd.2.2 hcb hm)
      · exact ih hnd.2.1 a ha2 b hb2 c hca hcb

theorem flatMap_nodup_intro {f : Nat → List Nat} :
    ∀ (l : List Nat), l.Nodup → (∀ a ∈ l, (f a).Nodup) →
      (∀ a ∈ l, ∀ b ∈ l, a ≠ b → ∀ x ∈ f a, x ∉ f b) →
      (l.flatMap f).Nodup := by
  intro l
  induction l with
  | nil =>
    intro _ _ _
    simp
  | cons x xs ih =>
    intro hl h1 h2
    rw [List.flatMap_cons, List.nodup_append]
    rw [List.nodup_cons] at hl
    refine ⟨h1 x (List.mem_cons_self x xs), ?_, ?_⟩
    · exact ih hl.2 (fun a ha => h1 a (List.mem_cons_of_mem _ ha))
        (fun a ha b hb hne => h2 a (List.mem_cons_of_mem _ ha) b
          (List.mem_cons_of_mem _ hb) hne)
    · intro y hy hmem
      obtain ⟨b, hb, hyb⟩ := List.mem_flatMap.mp hmem
      have hbx : x ≠ b := by
        intro h
        rw [h] at hl
        exact hl.1 hb
      exact h2 x (List.mem_cons_self x xs) b (List.mem_cons_of_mem _ hb) hbx y hy hyb

theorem filterMap_update_mem {f g : Nat → Option Nat} (n i c : Nat) (hi : i < n)
    (hsame : ∀ j, j ≠ i → g j = f j) (hf : f i = none) (hc : g i = some c) :
    ∀ x, x ∈ (List.range n).filterMap g ↔ x ∈ (List.range n).filterMap f ∨ x = c := by
  intro x
  constructor
  · intro hx
    obtain ⟨j, hj, hfj⟩ := List.mem_filterMap.mp hx
    rcases eq_or_ne j i with h | hne
    · right
      rw [h, hc] at hfj
      exact (Option.some_inj.mp hfj).symm
    · left
      rw [hsame j hne] at hfj
      exact List.mem_filterMap.mpr ⟨j, hj, hfj⟩
  · intro hx
    rcases hx with hx | hx
    · obtain ⟨j, hj, hfj⟩ := List.mem_filterMap.mp hx
      have hne : j ≠ i := by
        intro h
        rw [h, hf] at hfj
        exact absurd hfj (by simp)
      refine List.mem_filterMap.mpr ⟨j, hj, ?_⟩
      rw [hsame j hne]
      exact hfj
    · rw [hx]
      exact List.mem_filterMap.mpr ⟨i, List.mem_range.mpr hi, hc⟩

theorem filterMap_update_nodup {f g : Nat → Option Nat} {i c : Nat}
    (hsame : ∀ j, j ≠ i → g j = f j) (hf : f i = none) (hc : g i = some c) :
    ∀ (l : List Nat), l.Nodup → (l.filterMap f).Nodup → c ∉ l.filterMap f →
      (l.filterMap g).Nodup := by
  intro l
  induction l with
  | nil =>
    intro _ _ _
    simp
  | cons x xs ih =>
    intro hl hnd hcn
    rw [List.nodup_cons] at hl
    have hnd2 : (xs.filterMap f).Nodup := by
      cases hx : f x with
      | none => rwa [List.filterMap_cons_none hx] at hnd
      | some d =>
        rw [List.filterMap_cons_some hx] at hnd
        exact (List.nodup_cons.mp hnd).2
    have hcn2 : c ∉ xs.filterMap f := by
      intro hmem
      apply hcn
      cases hx : f x with
      | none => rwa [List.filterMap_cons_none hx]
      | some d =>
        rw [List.filterMap_cons_some hx]
        exact List.mem_cons_of_mem _ hmem
    have ihx := ih hl.2 hnd2 hcn2
    cases hx2 : g x with
    | none => rwa [List.filterMap_cons_none hx2]
    | some d =>
      rw [List.filterMap_cons_some hx2, List.nodup_cons]
      refine ⟨?_, ihx⟩
      intro hd
      obtain ⟨j, hj, hfj⟩ := List.mem_filterMap.mp hd
      rcases eq_or_ne x i with hxi | hxi
      · rw [hxi, hc] at hx2
        have hdc : d = c := (Option.some_inj.mp hx2).symm
        have hji : j ≠ i := by
          intro h
          rw [h, ← hxi] at hj
          exact hl.1 hj
        rw [hsame j hji] at hfj
        rw [hdc] at hfj
        exact hcn2 (List.mem_filterMap.mpr ⟨j, hj, hfj⟩)
      · have hfx : f x = some d := by
          rw [← hsame x hxi]
          exact hx2
        rcases eq_or_ne j i with hji | hji
        · rw [hji, hc] at hfj
          have hdc : d = c := (Option.some_inj.mp hfj).symm
          apply hcn
          rw [List.filterMap_cons_some hfx, hdc]
          exact List.mem_cons_self _ _
        · rw [hsame j hji] at hfj
          rw [List.filterMap_cons_some hfx] at hnd
          exact (List.nodup_cons.mp hnd).1 (List.mem_filterMap.mpr ⟨j, hj, hfj⟩)

theorem filterMap_range_single {f : Nat → Option Nat} (n i c : Nat) (hi : i < n)
    (hz : ∀ j, j ≠ i → f j = none) (hc : f i = some c) :
    (List.range n).filterMap f = [c] := by
  induction n with
  | zero => omega
  | succ k ih =>
    rw [List.range_succ, List.filterMap_append]
    rcases Nat.lt_or_ge i k with h | h
    · rw [ih h]
      have hk : f k = none := hz k (by omega)
      simp [hk]
    · have hik : i = k := by omega
      have h0 : (List.range k).filterMap f = [] := by
        rw [List.filterMap_eq_nil_iff]
        intro a ha
        refine hz a ?_
        rw [List.mem_range] at ha
        omega
      rw [h0, ← hik]
      simp [hc]




/-! ### Rebuilding the level lists after a write -/

theorem childFrames_congr (m m2 : PTMem) (t : Nat)
    (h : ∀ i, m2 t i = m t i) : childFrames m2 t = childFrames m t := by
  unfold childFrames
  exact filterMap_congr_list _ (fun i _ => nextTableFrame_congr m2 m t i (h i))

theorem childFrames_insert_mem (m m2 : PTMem) (t i c : Nat) (hi : i < 512)
    (hrow : ∀ j, j ≠ i → m2 t j = m t j)
    (hold : nextTableFrame m t i = none) (hnew : nextTableFrame m2 t i = some c) :
    ∀ x, x ∈ childFrames m2 t ↔ x ∈ childFrames m t ∨ x = c := by
  unfold childFrames ENTRY_COUNT
  exact filterMap_update_mem 512 i c hi
    (fun j hj => nextTableFrame_congr m2 m t j (hrow j hj)) hold hnew

theorem childFrames_insert_nodup (m m2 : PTMem) (t i c : Nat)
    (hrow : ∀ j, j ≠ i → m2 t j = m t j)
    (hold : nextTableFrame m t i = none) (hnew : nextTableFrame m2 t i = some c)
    (hnd : (childFrames m t).Nodup) (hcn : c ∉ childFrames m t) :
    (childFrames m2 t).Nodup := by
  unfold childFrames ENTRY_COUNT at hnd hcn ⊢
  exact filterMap_update_nodup
    (fun j hj => nextTableFrame_congr m2 m t j (hrow j hj)) hold hnew
    _ (List.nodup_range 512) hnd hcn

theorem childFrames_single_eq (m2 : PTMem) (t i c : Nat) (hi : i < 512)
    (hz : ∀ j, j ≠ i → nextTableFrame m2 t j = none)
    (hc : nextTableFrame m2 t i = some c) :
    childFrames m2 t = [c] := by
  unfold childFrames ENTRY_COUNT
  exact filterMap_range_single 512 i c hi hz hc

/-- Rebuilding one level of the structure when at most the table `t` gained
one child `c` and the level list itself may have gained `t`. -/
theorem flatMap_level (Lold Lnew : List Nat) (f g : Nat → List Nat) (t c : Nat)
    (hnew_nd : Lnew.Nodup)
    (hmem : ∀ b ∈ Lnew, b ∈ Lold ∨ b = t)
    (hold_nd : (Lold.flatMap f).Nodup)
    (hsame : ∀ b ∈ Lnew, b ≠ t → g b = f b)
    (hgt : ∀ x ∈ g t, (t ∈ Lold ∧ x ∈ f t) ∨ x = c)
    (hgt_nd : (g t).Nodup)
    (hcf : c ∉ Lold.flatMap f) :
    (Lnew.flatMap g).Nodup ∧
    (∀ x ∈ Lnew.flatMap g, x ∈ Lold.flatMap f ∨ x = c) := by
  constructor
  · apply flatMap_nodup_intro Lnew hnew_nd
    · intro a ha
      rcases eq_or_ne a t with h | hne
      · rw [h]
        exact hgt_nd
      · rw [hsame a ha hne]
        rcases hmem a ha with h | h
        · exact flatMap_nodup_elim Lold hold_nd a h
        · exact absurd h hne
    · intro a ha b hb hne x hxa hxb
      rcases eq_or_ne a t with hat | hat
      · rcases eq_or_ne b t with hbt | hbt
        · rw [← hbt] at hat
          exact hne hat
        · have hbo : b ∈ Lold := (hmem b hb).resolve_right hbt
          rw [hsame b hb hbt] at hxb
          rw [hat] at hxa
          rcases hgt x hxa with ⟨hto, hxf⟩ | hxc
          · have heq := flatMap_nodup_src Lold hold_nd t hto b hbo x hxf hxb
            rw [hat] at hne
            exact hne heq
          · rw [hxc] at hxb
            exact hcf (List.mem_flatMap.mpr ⟨b, hbo, hxb⟩)
      · rcases eq_or_ne b t with hbt | hbt
        · have hao : a ∈ Lold := (hmem a ha).resolve_right hat
          rw [hsame a ha hat] at hxa
          rw [hbt] at hxb
          rcases hgt x hxb with ⟨hto, hxf⟩ | hxc
          · have heq := flatMap_nodup_src Lold hold_nd a hao t hto x hxa hxf
            rw [← hbt] at heq
            exact hne heq
          · rw [hxc] at hxa
            exact hcf (List.mem_flatMap.mpr ⟨a, hao, hxa⟩)
        · have hao : a ∈ Lold := (hmem a ha).resolve_right hat
          have hbo : b ∈ Lold := (hmem b hb).resolve_right hbt
          rw [hsame a ha hat] at hxa
          rw [hsame b hb hbt] at hxb
          exact hne (flatMap_nodup_src Lold hold_nd a hao b hbo x hxa hxb)
  · intro x hx
    obtain ⟨b, hb, hxb⟩ := List.mem_flatMap.mp hx
    rcases eq_or_ne b t with hbt | hbt
    · rw [hbt] at hxb
      rcases hgt x hxb with ⟨hto, hxf⟩ | hxc
      · exact Or.inl (List.mem_flatMap.mpr ⟨t, hto, hxf⟩)
      · exact Or.inr hxc
    · have hbo : b ∈ Lold := (hmem b hb).resolve_right hbt
      rw [hsame b hb hbt] at hxb
      exact Or.inl (List.mem_flatMap.mpr ⟨b, hbo, hxb⟩)

theorem ptFrames_mem_split (m : PTMem) (p4 x : Nat) :
    x ∈ ptFrames m p4 ↔
      x = p4 ∨ x ∈ l3frames m p4 ∨ x ∈ l2frames m p4 ∨ x ∈ l1frames m p4 := by
  unfold ptFrames
  simp [List.mem_cons, List.mem_append, or_assoc]

theorem ptFrames_nodup_build (m : PTMem) (p4 : Nat)
    (h1 : p4 ∉ l3frames m p4) (h2 : p4 ∉ l2frames m p4) (h3 : p4 ∉ l1frames m p4)
    (n3 : (l3frames m p4).Nodup) (n2 : (l2frames m p4).Nodup)
    (n1 : (l1frames m p4).Nodup)
    (d32 : ∀ y ∈ l3frames m p4, y ∉ l2frames m p4)
    (d31 : ∀ y ∈ l3frames m p4, y ∉ l1frames m p4)
    (d21 : ∀ y ∈ l2frames m p4, y ∉ l1frames m p4) :
    (ptFrames m p4).Nodup := by
  unfold ptFrames
  rw [List.nodup_cons]
  refine ⟨?_, nodup_app3_build n3 n2 n1 d32 d31 d21⟩
  simp only [List.mem_append, not_or]
  exact ⟨⟨h1, h2⟩, h3⟩

theorem ptFrames_nodup_parts (m : PTMem) (p4 : Nat) (h : (ptFrames m p4).Nodup) :
    (p4 ∉ l3frames m p4 ∧ p4 ∉ l2frames m p4 ∧ p4 ∉ l1frames m p4) ∧
    (l3frames m p4).Nodup ∧ (l2frames m p4).Nodup ∧ (l1frames m p4).Nodup ∧
    (∀ y ∈ l3frames m p4, y ∉ l2frames m p4) ∧
    (∀ y ∈ l3frames m p4, y ∉ l1frames m p4) ∧
    (∀ y ∈ l2frames m p4, y ∉ l1frames m p4) := by
  unfold ptFrames at h
  rw [List.nodup_cons] at h
  obtain ⟨hp4, h⟩ := h
  obtain ⟨n3, n2, n1, d32, d31, d21⟩ := nodup_app3_parts h
  simp only [List.mem_append, not_or] at hp4
  exact ⟨⟨hp4.1.1, hp4.1.2, hp4.2⟩, n3, n2, n1, d32, d31, d21⟩


/-- A successful `map_to` from a tree-shaped state yields a tree-shaped
state: the structure grows only by the freshly allocated (hence distinct
and previously unused) table frames. -/
theorem mapTo_treeInv (mp mp2 : Mapper) (p f fl : Nat)
    (hT : TreeInv mp) (hok : mp.mapTo p f fl = .ok mp2) :
    TreeInv mp2 ∧ mp2.p4 = mp.p4 := by
  obtain ⟨hnd, hal, hfr⟩ := hT
  have hInv : Inv mp := Inv_of_TreeInv mp ⟨hnd, hal, hfr⟩
  have hsmall : ∀ a ∈ mp.alloc, a < 2 ^ 40 := fun a ha => (hfr a ha).2
  obtain ⟨hp4, hmask, p3f, p2f, p1f, hcase⟩ := mapTo_spec mp mp2 p f fl hsmall hok
  obtain ⟨hD4, w1, w2, w3, wleaf⟩ := mapTo_path mp mp2 p f fl p3f p2f p1f hInv hcase
  obtain ⟨⟨p4n3, p4n2, p4n1⟩, nd3, nd2, nd1, d32, d31, d21⟩ := ptFrames_nodup_parts _ _ hnd
  refine ⟨?_, hp4⟩
  unfold TreeInv
  rw [hp4]
  rcases hcase with hc | hc | hc | hc
  · -- AAA: only the leaf entry of the existing P1 table changed
    obtain ⟨h1, h2, h3, hz, hmemX, halq⟩ := hc
    have m3f : p3f ∈ l3frames mp.mem mp.p4 := mem_l3frames _ _ _ _ (p4Index_lt p) h1
    have m2f : p2f ∈ l2frames mp.mem mp.p4 := mem_l2frames _ _ _ _ _ m3f (p3Index_lt p) h2
    have m1f : p1f ∈ l1frames mp.mem mp.p4 := mem_l1frames _ _ _ _ _ m2f (p2Index_lt p) h3
    have hrow : ∀ t, t ≠ p1f → ∀ i, mp2.mem t i = mp.mem t i := by
      intro t ht i
      simp only [hmemX, memSet_read]
      simp [ht]
    have hl3 : l3frames mp2.mem mp.p4 = l3frames mp.mem mp.p4 :=
      childFrames_congr _ _ _ (hrow mp.p4 (fun h => p4n1 (by rw [← h] at m1f; exact m1f)))
    have hl2 : l2frames mp2.mem mp.p4 = l2frames mp.mem mp.p4 := by
      unfold l2frames
      rw [hl3]
      apply flatMap_congr_list
      intro a ha
      exact childFrames_congr _ _ _ (hrow a (fun h => d31 a ha (by rw [h]; exact m1f)))
    have hl1 : l1frames mp2.mem mp.p4 = l1frames mp.mem mp.p4 := by
      unfold l1frames
      rw [hl2]
      apply flatMap_congr_list
      intro b hb
      exact childFrames_congr _ _ _ (hrow b (fun h => d21 b hb (by rw [h]; exact m1f)))
    have hpt : ptFrames mp2.mem mp.p4 = ptFrames mp.mem mp.p4 := by
      unfold ptFrames
      rw [hl3, hl2, hl1]
    rw [hpt, halq]
    exact ⟨hnd, hal, hfr⟩
  · -- AAB: the P1 table was created in the existing P2 table
    obtain ⟨h1, h2, h3, hhg, halq, hc1, hmemX⟩ := hc
    have m3f : p3f ∈ l3frames mp.mem mp.p4 := mem_l3frames _ _ _ _ (p4Index_lt p) h1
    have m2f : p2f ∈ l2frames mp.mem mp.p4 := mem_l2frames _ _ _ _ _ m3f (p3Index_lt p) h2
    have hp1a : p1f ∈ mp.alloc := by rw [halq]; simp
    obtain ⟨e1, e2, e3, e4⟩ := fresh_split mp.mem mp.p4 mp.alloc hfr p1f hp1a
    have d6 : p2f ≠ p1f := by
      intro h
      rw [h] at m2f
      exact e3 m2f
    have hrow : ∀ t, t ≠ p1f → t ≠ p2f → ∀ i, mp2.mem t i = mp.mem t i := by
      intro t ht1 ht2 i
      simp only [hmemX, memSet_read, zeroFrame_read]
      simp [ht1, ht2]
    have hrow2 : ∀ j, j ≠ p2Index p → mp2.mem p2f j = mp.mem p2f j := by
      intro j hj
      simp only [hmemX, memSet_read, zeroFrame_read]
      simp [d6, hj]
    have hl3 : l3frames mp2.mem mp.p4 = l3frames mp.mem mp.p4 :=
      childFrames_congr _ _ _
        (hrow mp.p4 (fun h => e1 h.symm) (fun h => p4n2 (by rw [← h] at m2f; exact m2f)))
    have hl2 : l2frames mp2.mem mp.p4 = l2frames mp.mem mp.p4 := by
      unfold l2frames
      rw [hl3]
      apply flatMap_congr_list
      intro a ha
      refine childFrames_congr _ _ _ (hrow a ?_ ?_)
      · intro h
        rw [h] at ha
        exact e2 ha
      · intro h
        rw [h] at ha
        exact d32 p2f ha m2f
    have hins_mem := childFrames_insert_mem mp.mem mp2.mem p2f (p2Index p) p1f
      (p2Index_lt p) hrow2 h3 w3
    have hnd_cf : (childFrames mp.mem p2f).Nodup := flatMap_nodup_elim _ nd1 p2f m2f
    have hp1_notin : p1f ∉ childFrames mp.mem p2f := by
      intro hmem2
      exact e4 (List.mem_flatMap.mpr ⟨p2f, m2f, hmem2⟩)
    have hins_nd := childFrames_insert_nodup mp.mem mp2.mem p2f (p2Index p) p1f
      hrow2 h3 w3 hnd_cf hp1_notin
    have hlev := flatMap_level (l2frames mp.mem mp.p4) (l2frames mp.mem mp.p4)
      (childFrames mp.mem) (childFrames mp2.mem) p2f p1f
      nd2 (fun b hb => Or.inl hb) nd1
      (fun b hb hbt => childFrames_congr _ _ _
        (hrow b (fun h => e3 (by rw [← h]; exact hb)) hbt))
      (fun x hx => by
        rcases (hins_mem x).mp hx with h | h
        · exact Or.inl ⟨m2f, h⟩
        · exact Or.inr h)
      hins_nd e4
    obtain ⟨l1nd0, l1mem0⟩ := hlev
    have hl1nd : (l1frames mp2.mem mp.p4).Nodup := by
      unfold l1frames
      rw [hl2]
      exact l1nd0
    have hl1mem : ∀ x ∈ l1frames mp2.mem mp.p4, x ∈ l1frames mp.mem mp.p4 ∨ x = p1f := by
      unfold l1frames
      rw [hl2]
      exact l1mem0
    refine ⟨?_, ?_, ?_⟩
    · apply ptFrames_nodup_build
      · rw [hl3]; exact p4n3
      · rw [hl2]; exact p4n2
      · intro hmem2
        rcases hl1mem mp.p4 hmem2 with h | h
        · exact p4n1 h
        · exact e1 h.symm
      · rw [hl3]; exact nd3
      · rw [hl2]; exact nd2
      · exact hl1nd
      · intro y hy
        rw [hl3] at hy
        rw [hl2]
        exact d32 y hy
      · intro y hy hy1
        rw [hl3] at hy
        rcases hl1mem y hy1 with h | h
        · exact d31 y hy h
        · rw [h] at hy
          exact e2 hy
      · intro y hy hy1
        rw [hl2] at hy
        rcases hl1mem y hy1 with h | h
        · exact d21 y hy h
        · rw [h] at hy
          exact e3 hy
    · have h2x := hal
      rw [halq] at h2x
      exact (List.nodup_cons.mp h2x).2
    · intro a ha
      have hamem : a ∈ mp.alloc := by
        rw [halq]
        exact List.mem_cons_of_mem _ ha
      obtain ⟨hapt, ha40⟩ := hfr a hamem
      refine ⟨?_, ha40⟩
      intro hin
      have hane : a ≠ p1f := by
        intro h
        have h2x := hal
        rw [halq] at h2x
        rw [h] at ha
        exact (List.nodup_cons.mp h2x).1 ha
      rcases (ptFrames_mem_split mp2.mem mp.p4 a).mp hin with h | h | h | h
      · exact hapt ((ptFrames_mem_split mp.mem mp.p4 a).mpr (Or.inl h))
      · rw [hl3] at h
        exact hapt ((ptFrames_mem_split mp.mem mp.p4 a).mpr (Or.inr (Or.inl h)))
      · rw [hl2] at h
        exact hapt ((ptFrames_mem_split mp.mem mp.p4 a).mpr (Or.inr (Or.inr (Or.inl h))))
      · rcases hl1mem a h with h2 | h2
        · exact hapt ((ptFrames_mem_split mp.mem mp.p4 a).mpr (Or.inr (Or.inr (Or.inr h2))))
        · exact hane h2
  · -- ABB: P2 and P1 were created below the existing P3 table
    obtain ⟨h1, h2, hhg, halq, hc2, hc1, hmemX⟩ := hc
    have m3f : p3f ∈ l3frames mp.mem mp.p4 := mem_l3frames _ _ _ _ (p4Index_lt p) h1
    have hp2a : p2f ∈ mp.alloc := by rw [halq]; simp
    have hp1a : p1f ∈ mp.alloc := by rw [halq]; simp
    obtain ⟨e1, e2, e3, e4⟩ := fresh_split mp.mem mp.p4 mp.alloc hfr p1f hp1a
    obtain ⟨g1, g2, g3, g4⟩ := fresh_split mp.mem mp.p4 mp.alloc hfr p2f hp2a
    have halnd : (p2f :: p1f :: mp2.alloc).Nodup := by rw [← halq]; exact hal
    have d6 : p2f ≠ p1f := by
      have h := (List.nodup_cons.mp halnd).1
      simp only [List.mem_cons, not_or] at h
      exact h.1
    have d35 : p3f ≠ p2f := by
      intro h
      rw [h] at m3f
      exact g2 m3f
    have d36 : p3f ≠ p1f := by
      intro h
      rw [h] at m3f
      exact e2 m3f
    have hrow : ∀ t, t ≠ p1f → t ≠ p2f → t ≠ p3f → ∀ i, mp2.mem t i = mp.mem t i := by
      intro t ht1 ht2 ht3 i
      simp only [hmemX, memSet_read, zeroFrame_read]
      simp [ht1, ht2, ht3]
    have hrow3 : ∀ j, j ≠ p3Index p → mp2.mem p3f j = mp.mem p3f j := by
      intro j hj
      simp only [hmemX, memSet_read, zeroFrame_read]
      simp [d35, d36, hj]
    have hrow2f : ∀ j, j ≠ p2Index p → mp2.mem p2f j = 0 := by
      intro j hj
      simp only [hmemX, memSet_read, zeroFrame_read]
      simp [d6, hj]
    have hl3 : l3frames mp2.mem mp.p4 = l3frames mp.mem mp.p4 :=
      childFrames_congr _ _ _
        (hrow mp.p4 (fun h => e1 h.symm) (fun h => g1 h.symm)
          (fun h => p4n3 (by rw [← h] at m3f; exact m3f)))
    have hins_mem := childFrames_insert_mem mp.mem mp2.mem p3f (p3Index p) p2f
      (p3Index_lt p) hrow3 h2 w2
    have hnd_cf : (childFrames mp.mem p3f).Nodup := flatMap_nodup_elim _ nd2 p3f m3f
    have hp2_notin : p2f ∉ childFrames mp.mem p3f := by
      intro hmem2
      exact g3 (List.mem_flatMap.mpr ⟨p3f, m3f, hmem2⟩)
    have hins_nd := childFrames_insert_nodup mp.mem mp2.mem p3f (p3Index p) p2f
      hrow3 h2 w2 hnd_cf hp2_notin
    have hlev2 := flatMap_level (l3frames mp.mem mp.p4) (l3frames mp.mem mp.p4)
      (childFrames mp.mem) (childFrames mp2.mem) p3f p2f
      nd3 (fun b hb => Or.inl hb) nd2
      (fun b hb hbt => childFrames_congr _ _ _
        (hrow b (fun h => e2 (by rw [← h]; exact hb))
          (fun h => g2 (by rw [← h]; exact hb)) hbt))
      (fun x hx => by
        rcases (hins_mem x).mp hx with h | h
        · exact Or.inl ⟨m3f, h⟩
        · exact Or.inr h)
      hins_nd g3
    obtain ⟨l2nd0, l2mem0⟩ := hlev2
    have hl2nd : (l2frames mp2.mem mp.p4).Nodup := by
      unfold l2frames
      rw [hl3]
      exact l2nd0
    have hl2mem : ∀ x ∈ l2frames mp2.mem mp.p4, x ∈ l2frames mp.mem mp.p4 ∨ x = p2f := by
      unfold l2frames
      rw [hl3]
      exact l2mem0
    have hsingle : childFrames mp2.mem p2f = [p1f] :=
      childFrames_single_eq mp2.mem p2f (p2Index p) p1f (p2Index_lt p)
        (fun j hj => nextTableFrame_zero _ _ _ (hrow2f j hj)) w3
    have hlev1 := flatMap_level (l2frames mp.mem mp.p4) (l2frames mp2.mem mp.p4)
      (childFrames mp.mem) (childFrames mp2.mem) p2f p1f
      hl2nd hl2mem nd1
      (fun b hb hbt => by
        have hbo : b ∈ l2frames mp.mem mp.p4 := (hl2mem b hb).resolve_right hbt
        exact childFrames_congr _ _ _
          (hrow b (fun h => e3 (by rw [← h]; exact hbo)) hbt
            (fun h => d32 p3f m3f (by rw [← h]; exact hbo))))
      (fun x hx => by
        rw [hsingle] at hx
        simp only [List.mem_singleton] at hx
        exact Or.inr hx)
      (by rw [hsingle]; simp)
      e4
    obtain ⟨l1nd0, l1mem0⟩ := hlev1
    have hl1nd : (l1frames mp2.mem mp.p4).Nodup := by
      unfold l1frames
      exact l1nd0
    have hl1mem : ∀ x ∈ l1frames mp2.mem mp.p4, x ∈ l1frames mp.mem mp.p4 ∨ x = p1f := by
      unfold l1frames
      exact l1mem0
    refine ⟨?_, ?_, ?_⟩
    · apply ptFrames_nodup_build
      · rw [hl3]; exact p4n3
      · intro hmem2
        rcases hl2mem mp.p4 hmem2 with h | h
        · exact p4n2 h
        · exact g1 h.symm
      · intro hmem2
        rcases hl1mem mp.p4 hmem2 with h | h
        · exact p4n1 h
        · exact e1 h.symm
      · rw [hl3]; exact nd3
      · exact hl2nd
      · exact hl1nd
      · intro y hy hy2
        rw [hl3] at hy
        rcases hl2mem y hy2 with h | h
        · exact d32 y hy h
        · rw [h] at hy
          exact g2 hy
      · intro y hy hy1
        rw [hl3] at hy
        rcases hl1mem y hy1 with h | h
        · exact d31 y hy h
        · rw [h] at hy
          exact e2 hy
      · intro y hy hy1
        rcases hl2mem y hy with h | h
        · rcases hl1mem y hy1 with h2 | h2
          · exact d21 y h h2
          · rw [h2] at h
            exact e3 h
        · rcases hl1mem y hy1 with h2 | h2
          · rw [h] at h2
            exact g4 h2
          · rw [h] at h2
            exact d6 h2
    · have t1 := (List.nodup_cons.mp halnd).2
      exact (List.nodup_cons.mp t1).2
    · intro a ha
      have hamem : a ∈ mp.alloc := by
        rw [halq]
        exact List.mem_cons_of_mem _ (List.mem_cons_of_mem _ ha)
      obtain ⟨hapt, ha40⟩ := hfr a hamem
      refine ⟨?_, ha40⟩
      intro hin
      have hane1 : a ≠ p1f := by
        intro h
        have t1 := (List.nodup_cons.mp halnd).2
        rw [h] at ha
        exact (List.nodup_cons.mp t1).1 ha
      have hane2 : a ≠ p2f := by
        intro h
        have t1 := (List.nodup_cons.mp halnd).1
        rw [h] at ha
        exact t1 (List.mem_cons_of_mem _ ha)
      rcases (ptFrames_mem_split mp2.mem mp.p4 a).mp hin with h | h | h | h
      · exact hapt ((ptFrames_mem_split mp.mem mp.p4 a).mpr (Or.inl h))
      · rw [hl3] at h
        exact hapt ((ptFrames_mem_split mp.mem mp.p4 a).mpr (Or.inr (Or.inl h)))
      · rcases hl2mem a h with h2 | h2
        · exact hapt ((ptFrames_mem_split mp.mem mp.p4 a).mpr (Or.inr (Or.inr (Or.inl h2))))
        · exact hane2 h2
      · rcases hl1mem a h with h2 | h2
        · exact hapt ((ptFrames_mem_split mp.mem mp.p4 a).mpr (Or.inr (Or.inr (Or.inr h2))))
        · exact hane1 h2
  · -- BBB: the whole path was created
    obtain ⟨h1, hhg, halq, hc3, hc2, hc1, hmemX⟩ := hc
    have hp3a : p3f ∈ mp.alloc := by rw [halq]; simp
    have hp2a : p2f ∈ mp.alloc := by rw [halq]; simp
    have hp1a : p1f ∈ mp.alloc := by rw [halq]; simp
    obtain ⟨e1, e2, e3, e4⟩ := fresh_split mp.mem mp.p4 mp.alloc hfr p1f hp1a
    obtain ⟨g1, g2, g3, g4⟩ := fresh_split mp.mem mp.p4 mp.alloc hfr p2f hp2a
    obtain ⟨k1, k2, k3, k4⟩ := fresh_split mp.mem mp.p4 mp.alloc hfr p3f hp3a
    have halnd : (p3f :: p2f :: p1f :: mp2.alloc).Nodup := by rw [← halq]; exact hal
    have hdist : p3f ≠ p2f ∧ p3f ≠ p1f ∧ p2f ≠ p1f := by
      have h := halnd
      simp only [List.nodup_cons, List.mem_cons, not_or] at h
      exact ⟨h.1.1, h.1.2.1, h.2.1.1⟩
    have q1 : mp.p4 ≠ p1f := fun h => e1 h.symm
    have q2 : mp.p4 ≠ p2f := fun h => g1 h.symm
    have q3 : mp.p4 ≠ p3f := fun h => k1 h.symm
    have hrow4 : ∀ j, j ≠ p4Index p → mp2.mem mp.p4 j = mp.mem mp.p4 j := by
      intro j hj
      simp only [hmemX, memSet_read, zeroFrame_read]
      simp [q1, q2, q3, hj]
    have hrow_other : ∀ t, t ≠ p1f → t ≠ p2f → t ≠ p3f → t ≠ mp.p4 →
        ∀ i, mp2.mem t i = mp.mem t i := by
      intro t ht1 ht2 ht3 ht4 i
      simp only [hmemX, memSet_read, zeroFrame_read]
      simp [ht1, ht2, ht3, ht4]
    have hrow3f : ∀ j, j ≠ p3Index p → mp2.mem p3f j = 0 := by
      intro j hj
      simp only [hmemX, memSet_read, zeroFrame_read]
      simp [hdist.1, hdist.2.1, hj]
    have hrow2f : ∀ j, j ≠ p2Index p → mp2.mem p2f j = 0 := by
      intro j hj
      simp only [hmemX, memSet_read, zeroFrame_read]
      simp [hdist.2.2, hj]
    have hins3_mem := childFrames_insert_mem mp.mem mp2.mem mp.p4 (p4Index p) p3f
      (p4Index_lt p) hrow4 h1 w1
    have hins3_nd := childFrames_insert_nodup mp.mem mp2.mem mp.p4 (p4Index p) p3f
      hrow4 h1 w1 nd3 k2
    have hl3nd : (l3frames mp2.mem mp.p4).Nodup := hins3_nd
    have hl3mem : ∀ x ∈ l3frames mp2.mem mp.p4, x ∈ l3frames mp.mem mp.p4 ∨ x = p3f :=
      fun x hx => (hins3_mem x).mp hx
    have hsingle3 : childFrames mp2.mem p3f = [p2f] :=
      childFrames_single_eq mp2.mem p3f (p3Index p) p2f (p3Index_lt p)
        (fun j hj => nextTableFrame_zero _ _ _ (hrow3f j hj)) w2
    have hlev2 := flatMap_level (l3frames mp.mem mp.p4) (l3frames mp2.mem mp.p4)
      (childFrames mp.mem) (childFrames mp2.mem) p3f p2f
      hl3nd hl3mem nd2
      (fun b hb hbt => by
        have hbo : b ∈ l3frames mp.mem mp.p4 := (hl3mem b hb).resolve_right hbt
        exact childFrames_congr _ _ _
          (hrow_other b (fun h => e2 (by rw [← h]; exact hbo))
            (fun h => g2 (by rw [← h]; exact hbo)) hbt
            (fun h => p4n3 (by rw [h] at hbo; exact hbo))))
      (fun x hx => by
        rw [hsingle3] at hx
        simp only [List.mem_singleton] at hx
        exact Or.inr hx)
      (by rw [hsingle3]; simp)
      g3
    obtain ⟨l2nd0, l2mem0⟩ := hlev2
    have hl2nd : (l2frames mp2.mem mp.p4).Nodup := by
      unfold l2frames
      exact l2nd0
    have hl2mem : ∀ x ∈ l2frames mp2.mem mp.p4, x ∈ l2frames mp.mem mp.p4 ∨ x = p2f := by
      unfold l2frames
      exact l2mem0
    have hsingle2 : childFrames mp2.mem p2f = [p1f] :=
      childFrames_single_eq mp2.mem p2f (p2Index p) p1f (p2Index_lt p)
        (fun j hj => nextTableFrame_zero _ _ _ (hrow2f j hj)) w3
    have hlev1 := flatMap_level (l2frames mp.mem mp.p4) (l2frames mp2.mem mp.p4)
      (childFrames mp.mem) (childFrames mp2.mem) p2f p1f
      hl2nd hl2mem nd1
      (fun b hb hbt => by
        have hbo : b ∈ l2frames mp.mem mp.p4 := (hl2mem b hb).resolve_right hbt
        exact childFrames_congr _ _ _
          (hrow_other b (fun h => e3 (by rw [← h]; exact hbo)) hbt
            (fun h => k3 (by rw [← h]; exact hbo))
            (fun h => p4n2 (by rw [h] at hbo; exact hbo))))
      (fun x hx => by
        rw [hsingle2] at hx
        simp only [List.mem_singleton] at hx
        exact Or.inr hx)
      (by rw [hsingle2]; simp)
      e4
    obtain ⟨l1nd0, l1mem0⟩ := hlev1
    have hl1nd : (l1frames mp2.mem mp.p4).Nodup := by
      unfold l1frames
      exact l1nd0
    have hl1mem : ∀ x ∈ l1frames mp2.mem mp.p4, x ∈ l1frames mp.mem mp.p4 ∨ x = p1f := by
      unfold l1frames
      exact l1mem0
    refine ⟨?_, ?_, ?_⟩
    · apply ptFrames_nodup_build
      · intro hmem2
        rcases hl3mem mp.p4 hmem2 with h | h
        · exact p4n3 h
        · exact k1 h.symm
      · intro hmem2
        rcases hl2mem mp.p4 hmem2 with h | h
        · exact p4n2 h
        · exact g1 h.symm
      · intro hmem2
        rcases hl1mem mp.p4 hmem2 with h | h
        · exact p4n1 h
        · exact e1 h.symm
      · exact hl3nd
      · exact hl2nd
      · exact hl1nd
      · intro y hy hy2
        rcases hl3mem y hy with h | h
        · rcases hl2mem y hy2 with h2 | h2
          · exact d32 y h h2
          · rw [h2] at h
            exact g2 h
        · rcases hl2mem y hy2 with h2 | h2
          · rw [h] at h2
            exact k3 h2
          · rw [h] at h2
            exact hdist.1 h2
      · intro y hy hy1
        rcases hl3mem y hy with h | h
        · rcases hl1mem y hy1 with h2 | h2
          · exact d31 y h h2
          · rw [h2] at h
            exact e2 h
        · rcases hl1mem y hy1 with h2 | h2
          · rw [h] at h2
            exact k4 h2
          · rw [h] at h2
            exact hdist.2.1 h2
      · intro y hy hy1
        rcases hl2mem y hy with h | h
        · rcases hl1mem y hy1 with h2 | h2
          · exact d21 y h h2
          · rw [h2] at h
            exact e3 h
        · rcases hl1mem y hy1 with h2 | h2
          · rw [h] at h2
            exact g4 h2
          · rw [h] at h2
            exact hdist.2.2 h2
    · have t1 := (List.nodup_cons.mp halnd).2
      have t2 := (List.nodup_cons.mp t1).2
      exact (List.nodup_cons.mp t2).2
    · intro a ha
      have hamem : a ∈ mp.alloc := by
        rw [halq]
        exact List.mem_cons_of_mem _ (List.mem_cons_of_mem _ (List.mem_cons_of_mem _ ha))
      obtain ⟨hapt, ha40⟩ := hfr a hamem
      refine ⟨?_, ha40⟩
      intro hin
      have hane1 : a ≠ p1f := by
        intro h
        have t1 := (List.nodup_cons.mp halnd).2
        have t2 := (List.nodup_cons.mp t1).2
        rw [h] at ha
        exact (List.nodup_cons.mp t2).1 ha
      have hane2 : a ≠ p2f := by
        intro h
        have t1 := (List.nodup_cons.mp halnd).2
        rw [h] at ha
        exact (List.nodup_cons.mp t1).1 (List.mem_cons_of_mem _ ha)
      have hane3 : a ≠ p3f := by
        intro h
        rw [h] at ha
        exact (List.nodup_cons.mp halnd).1
          (List.mem_cons_of_mem _ (List.mem_cons_of_mem _ ha))
      rcases (ptFrames_mem_split mp2.mem mp.p4 a).mp hin with h | h | h | h
      · exact hapt ((ptFrames_mem_split mp.mem mp.p4 a).mpr (Or.inl h))
      · rcases hl3mem a h with h2 | h2
        · exact hapt ((ptFrames_mem_split mp.mem mp.p4 a).mpr (Or.inr (Or.inl h2)))
        · exact hane3 h2
      · rcases hl2mem a h with h2 | h2
        · exact hapt ((ptFrames_mem_split mp.mem mp.p4 a).mpr (Or.inr (Or.inr (Or.inl h2))))
        · exact hane2 h2
      · rcases hl1mem a h with h2 | h2
        · exact hapt ((ptFrames_mem_split mp.mem mp.p4 a).mpr (Or.inr (Or.inr (Or.inr h2))))
        · exact hane1 h2


/-! ### Child uniqueness in a tree-shaped structure -/

theorem child_unique_4 (m : PTMem) (p4 : Nat) (hnd : (ptFrames m p4).Nodup)
    (i j c : Nat) (hi : i < 512) (hj : j < 512)
    (h1 : nextTableFrame m p4 i = some c) (h2 : nextTableFrame m p4 j = some c) :
    i = j := by
  obtain ⟨_, nd3, _, _, _, _, _⟩ := ptFrames_nodup_parts m p4 hnd
  exact filterMap_nodup_inj (List.range 512) nd3 i (List.mem_range.mpr hi)
    j (List.mem_range.mpr hj) c h1 h2

theorem child_unique_3 (m : PTMem) (p4 : Nat) (hnd : (ptFrames m p4).Nodup)
    (a b i j c : Nat) (ha : a ∈ l3frames m p4) (hb : b ∈ l3frames m p4)
    (hi : i < 512) (hj : j < 512)
    (h1 : nextTableFrame m a i = some c) (h2 : nextTableFrame m b j = some c) :
    a = b ∧ i = j := by
  obtain ⟨_, _, nd2, _, _, _, _⟩ := ptFrames_nodup_parts m p4 hnd
  have hab : a = b := flatMap_nodup_src (l3frames m p4) nd2 a ha b hb c
    (mem_childFrames m a i c hi h1) (mem_childFrames m b j c hj h2)
  refine ⟨hab, ?_⟩
  have hcnd : (childFrames m a).Nodup := flatMap_nodup_elim _ nd2 a ha
  rw [← hab] at h2
  exact filterMap_nodup_inj (List.range 512) hcnd i (List.mem_range.mpr hi)
    j (List.mem_range.mpr hj) c h1 h2

theorem child_unique_2 (m : PTMem) (p4 : Nat) (hnd : (ptFrames m p4).Nodup)
    (a b i j c : Nat) (ha : a ∈ l2frames m p4) (hb : b ∈ l2frames m p4)
    (hi : i < 512) (hj : j < 512)
    (h1 : nextTableFrame m a i = some c) (h2 : nextTableFrame m b j = some c) :
    a = b ∧ i = j := by
  obtain ⟨_, _, _, nd1, _, _, _⟩ := ptFrames_nodup_parts m p4 hnd
  have hab : a = b := flatMap_nodup_src (l2frames m p4) nd1 a ha b hb c
    (mem_childFrames m a i c hi h1) (mem_childFrames m b j c hj h2)
  refine ⟨hab, ?_⟩
  have hcnd : (childFrames m a).Nodup := flatMap_nodup_elim _ nd1 a ha
  rw [← hab] at h2
  exact filterMap_nodup_inj (List.range 512) hcnd i (List.mem_range.mpr hi)
    j (List.mem_range.mpr hj) c h1 h2

/-! ### Computing translate_page from the shape of the walk -/

theorem option_bind_none {α β : Type} (f : α → Option β) :
    (Bind.bind (none : Option α) f : Option β) = none := rfl

theorem translatePage_break0 (mp : Mapper) (q : Nat)
    (h1 : nextTableFrame mp.mem mp.p4 (p4Index q) = none) :
    mp.translatePage q = .ok none := by
  unfold Mapper.translatePage
  rw [h1]

theorem translatePage_break1 (mp : Mapper) (q t3 : Nat)
    (h1 : nextTableFrame mp.mem mp.p4 (p4Index q) = some t3)
    (h2 : nextTableFrame mp.mem t3 (p3Index q) = none)
    (h3 : pointedFrame (mp.mem t3 (p3Index q)) = none ∨
      ¬ flagsContain (mp.mem t3 (p3Index q)) HUGE_PAGE) :
    mp.translatePage q = .ok none := by
  unfold Mapper.translatePage
  simp only [h1, h2, option_bind_none]
  unfold hugePageLookup
  simp only [h2]
  rcases h3 with h3 | h3
  · simp only [h3]
  · cases hp : pointedFrame (mp.mem t3 (p3Index q)) with
    | none => rfl
    | some s => simp only [if_neg h3]

theorem translatePage_break2 (mp : Mapper) (q t3 t2 : Nat)
    (h1 : nextTableFrame mp.mem mp.p4 (p4Index q) = some t3)
    (h2 : nextTableFrame mp.mem t3 (p3Index q) = some t2)
    (h3 : nextTableFrame mp.mem t2 (p2Index q) = none)
    (h4 : pointedFrame (mp.mem t2 (p2Index q)) = none ∨
      ¬ flagsContain (mp.mem t2 (p2Index q)) HUGE_PAGE) :
    mp.translatePage q = .ok none := by
  obtain ⟨hpr3, hnh3, _⟩ := ntf_some_elim _ _ _ _ h2
  unfold Mapper.translatePage
  simp only [h1, h2, h3, option_bind_some, option_bind_none]
  unfold hugePageLookup
  simp only [h2]
  rw [pointedFrame_of_present _ hpr3]
  simp only [if_neg hnh3]
  rcases h4 with h4 | h4
  · simp only [h4]
  · cases hp : pointedFrame (mp.mem t2 (p2Index q)) with
    | none => rfl
    | some s => simp only [if_neg h4]

theorem translatePage_break3 (mp : Mapper) (q t3 t2 t1 : Nat)
    (h1 : nextTableFrame mp.mem mp.p4 (p4Index q) = some t3)
    (h2 : nextTableFrame mp.mem t3 (p3Index q) = some t2)
    (h3 : nextTableFrame mp.mem t2 (p2Index q) = some t1)
    (h4 : pointedFrame (mp.mem t1 (p1Index q)) = none) :
    mp.translatePage q = .ok none := by
  obtain ⟨hpr3, hnh3, _⟩ := ntf_some_elim _ _ _ _ h2
  obtain ⟨hpr2, hnh2, _⟩ := ntf_some_elim _ _ _ _ h3
  unfold Mapper.translatePage
  simp only [h1, h2, h3, option_bind_some, h4]
  unfold hugePageLookup
  simp only [h2]
  rw [pointedFrame_of_present _ hpr3]
  simp only [if_neg hnh3]
  rw [pointedFrame_of_present _ hpr2]
  simp only [if_neg hnh2]

theorem translatePage_of_walk (mp : Mapper) (q t3 t2 t1 fr : Nat)
    (h1 : nextTableFrame mp.mem mp.p4 (p4Index q) = some t3)
    (h2 : nextTableFrame mp.mem t3 (p3Index q) = some t2)
    (h3 : nextTableFrame mp.mem t2 (p2Index q) = some t1)
    (h4 : pointedFrame (mp.mem t1 (p1Index q)) = some fr) :
    mp.translatePage q = .ok (some fr) := by
  unfold Mapper.translatePage
  simp only [h1, h2, h3, option_bind_some, h4]

/-- Inversion of `translate_page = ok none`: where the walk broke, with the
huge-page facts of the breaking entry. -/
theorem translatePage_none_inv (mp : Mapper) (q : Nat)
    (hnone : mp.translatePage q = .ok none) :
    nextTableFrame mp.mem mp.p4 (p4Index q) = none ∨
    ∃ t3, nextTableFrame mp.mem mp.p4 (p4Index q) = some t3 ∧
      ((nextTableFrame mp.mem t3 (p3Index q) = none ∧
        (pointedFrame (mp.mem t3 (p3Index q)) = none ∨
         ¬ flagsContain (mp.mem t3 (p3Index q)) HUGE_PAGE)) ∨
       ∃ t2, nextTableFrame mp.mem t3 (p3Index q) = some t2 ∧
         ((nextTableFrame mp.mem t2 (p2Index q) = none ∧
           (pointedFrame (mp.mem t2 (p2Index q)) = none ∨
            ¬ flagsContain (mp.mem t2 (p2Index q)) HUGE_PAGE)) ∨
          ∃ t1, nextTableFrame mp.mem t2 (p2Index q) = some t1 ∧
            pointedFrame (mp.mem t1 (p1Index q)) = none)) := by
  cases c4 : nextTableFrame mp.mem mp.p4 (p4Index q) with
  | none => exact Or.inl rfl
  | some t3 =>
    refine Or.inr ⟨t3, rfl, ?_⟩
    cases c3 : nextTableFrame mp.mem t3 (p3Index q) with
    | none =>
      refine Or.inl ⟨rfl, ?_⟩
      unfold Mapper.translatePage at hnone
      simp only [c4, c3, option_bind_none] at hnone
      unfold hugePageLookup at hnone
      simp only [c3] at hnone
      by_cases hh : flagsContain (mp.mem t3 (p3Index q)) HUGE_PAGE
      · left
        cases hp : pointedFrame (mp.mem t3 (p3Index q)) with
        | none => rfl
        | some s =>
          simp only [hp, if_pos hh] at hnone
          by_cases hal : s % (ENTRY_COUNT * ENTRY_COUNT) = 0
          · rw [if_pos hal] at hnone
            exact absurd hnone (by simp)
          · rw [if_neg hal] at hnone
            exact absurd hnone (by simp)
      · right
        exact hh
    | some t2 =>
      refine Or.inr ⟨t2, rfl, ?_⟩
      cases c2x : nextTableFrame mp.mem t2 (p2Index q) with
      | none =>
        refine Or.inl ⟨rfl, ?_⟩
        unfold Mapper.translatePage at hnone
        simp only [c4, c3, c2x, option_bind_some, option_bind_none] at hnone
        unfold hugePageLookup at hnone
        simp only [c3] at hnone
        obtain ⟨hpr3, hnh3, _⟩ := ntf_some_elim _ _ _ _ c3
        rw [pointedFrame_of_present _ hpr3] at hnone
        simp only [if_neg hnh3] at hnone
        by_cases hh : flagsContain (mp.mem t2 (p2Index q)) HUGE_PAGE
        · left
          cases hp : pointedFrame (mp.mem t2 (p2Index q)) with
          | none => rfl
          | some s =>
            simp only [hp, if_pos hh] at hnone
            by_cases hal : s % ENTRY_COUNT = 0
            · rw [if_pos hal] at hnone
              exact absurd hnone (by simp)
            · rw [if_neg hal] at hnone
              exact absurd hnone (by simp)
        · right
          exact hh
      | some t1 =>
        refine Or.inr ⟨t1, rfl, ?_⟩
        unfold Mapper.translatePage at hnone
        simp only [c4, c3, c2x, option_bind_some] at hnone
        cases hp : pointedFrame (mp.mem t1 (p1Index q)) with
        | none => rfl
        | some fr =>
          simp only [hp] at hnone
          exact absurd hnone (by simp)


/-! ### Preservation of other pages' walks under map_to -/

/-- After `map_to` of page `p` from a tree-shaped state, the four cells of
any complete walk of a different page `q` are untouched. -/
theorem walk_cells_preserved (mp mp2 : Mapper) (p f fl q q3 q2 q1 : Nat)
    (hT : TreeInv mp) (hok : mp.mapTo p f fl = .ok mp2)
    (hvp : ValidPage p) (hvq : ValidPage q) (hne : q ≠ p)
    (v1 : nextTableFrame mp.mem mp.p4 (p4Index q) = some q3)
    (v2 : nextTableFrame mp.mem q3 (p3Index q) = some q2)
    (v3 : nextTableFrame mp.mem q2 (p2Index q) = some q1) :
    mp2.mem mp.p4 (p4Index q) = mp.mem mp.p4 (p4Index q) ∧
    mp2.mem q3 (p3Index q) = mp.mem q3 (p3Index q) ∧
    mp2.mem q2 (p2Index q) = mp.mem q2 (p2Index q) ∧
    mp2.mem q1 (p1Index q) = mp.mem q1 (p1Index q) := by
  obtain ⟨hnd, hal, hfr⟩ := hT
  have hInv : Inv mp := Inv_of_TreeInv mp ⟨hnd, hal, hfr⟩
  have hsmall : ∀ a ∈ mp.alloc, a < 2 ^ 40 := fun a ha => (hfr a ha).2
  obtain ⟨hp4, hmask, p3f, p2f, p1f, hcase⟩ := mapTo_spec mp mp2 p f fl hsmall hok
  obtain ⟨⟨p4n3, p4n2, p4n1⟩, nd3, nd2, nd1, d32, d31, d21⟩ := ptFrames_nodup_parts _ _ hnd
  have mq3 : q3 ∈ l3frames mp.mem mp.p4 := mem_l3frames _ _ _ _ (p4Index_lt q) v1
  have mq2 : q2 ∈ l2frames mp.mem mp.p4 := mem_l2frames _ _ _ _ _ mq3 (p3Index_lt q) v2
  have mq1 : q1 ∈ l1frames mp.mem mp.p4 := mem_l1frames _ _ _ _ _ mq2 (p2Index_lt q) v3
  rcases hcase with hc | hc | hc | hc
  · -- AAA: single write at (p1f, p1Index p)
    obtain ⟨h1, h2, h3, hz, hmemX, halq⟩ := hc
    have m3f : p3f ∈ l3frames mp.mem mp.p4 := mem_l3frames _ _ _ _ (p4Index_lt p) h1
    have m2f : p2f ∈ l2frames mp.mem mp.p4 := mem_l2frames _ _ _ _ _ m3f (p3Index_lt p) h2
    have m1f : p1f ∈ l1frames mp.mem mp.p4 := mem_l1frames _ _ _ _ _ m2f (p2Index_lt p) h3
    have hx4 : mp.p4 ≠ p1f := by
      intro h
      rw [← h] at m1f
      exact p4n1 m1f
    have hx3 : q3 ≠ p1f := by
      intro h
      rw [h] at mq3
      exact d31 p1f mq3 m1f
    have hx2 : q2 ≠ p1f := by
      intro h
      rw [h] at mq2
      exact d21 p1f mq2 m1f
    refine ⟨?_, ?_, ?_, ?_⟩
    · simp only [hmemX, memSet_read]
      simp [hx4]
    · simp only [hmemX, memSet_read]
      simp [hx3]
    · simp only [hmemX, memSet_read]
      simp [hx2]
    · by_cases hq1 : q1 = p1f
      · by_cases hj1 : p1Index q = p1Index p
        · exfalso
          rw [hq1] at v3
          obtain ⟨e2eq, i2eq⟩ := child_unique_2 mp.mem mp.p4 hnd q2 p2f
            (p2Index q) (p2Index p) p1f mq2 m2f (p2Index_lt q) (p2Index_lt p) v3 h3
          rw [e2eq] at v2
          obtain ⟨e3eq, i3eq⟩ := child_unique_3 mp.mem mp.p4 hnd q3 p3f
            (p3Index q) (p3Index p) p2f mq3 m3f (p3Index_lt q) (p3Index_lt p) v2 h2
          rw [e3eq] at v1
          have i4eq := child_unique_4 mp.mem mp.p4 hnd (p4Index q) (p4Index p) p3f
            (p4Index_lt q) (p4Index_lt p) v1 h1
          exact hne (validPage_injective q p hvq hvp i4eq i3eq i2eq hj1)
        · simp only [hmemX, memSet_read]
          simp [hq1, hj1]
      · simp only [hmemX, memSet_read]
        simp [hq1]
  · -- AAB: write at (p2f, p2Index p), fresh frame p1f
    obtain ⟨h1, h2, h3, hhg, halq, hc1, hmemX⟩ := hc
    have m3f : p3f ∈ l3frames mp.mem mp.p4 := mem_l3frames _ _ _ _ (p4Index_lt p) h1
    have m2f : p2f ∈ l2frames mp.mem mp.p4 := mem_l2frames _ _ _ _ _ m3f (p3Index_lt p) h2
    have hp1a : p1f ∈ mp.alloc := by rw [halq]; simp
    obtain ⟨e1, e2, e3, e4⟩ := fresh_split mp.mem mp.p4 mp.alloc hfr p1f hp1a
    have d6 : p2f ≠ p1f := by
      intro h
      rw [h] at m2f
      exact e3 m2f
    have hx41 : mp.p4 ≠ p1f := fun h => e1 h.symm
    have hx42 : mp.p4 ≠ p2f := by
      intro h
      rw [← h] at m2f
      exact p4n2 m2f
    have hx31 : q3 ≠ p1f := by
      intro h
      rw [h] at mq3
      exact e2 mq3
    have hx32 : q3 ≠ p2f := by
      intro h
      rw [h] at mq3
      exact d32 p2f mq3 m2f
    refine ⟨?_, ?_, ?_, ?_⟩
    · simp only [hmemX, memSet_read, zeroFrame_read]
      simp [hx41, hx42]
    · simp only [hmemX, memSet_read, zeroFrame_read]
      simp [hx31, hx32]
    · have hq2ne : q2 ≠ p1f := by
        intro h
        rw [h] at mq2
        exact e3 mq2
      by_cases hq2 : q2 = p2f
      · have hj2 : p2Index q ≠ p2Index p := by
          intro hj
          rw [hq2, hj, h3] at v3
          exact absurd v3 (by simp)
        simp only [hmemX, memSet_read, zeroFrame_read]
        simp [hq2ne, hq2, hj2, d6]
      · simp only [hmemX, memSet_read, zeroFrame_read]
        simp [hq2ne, hq2]
    · have hq1ne1 : q1 ≠ p1f := by
        intro h
        rw [h] at mq1
        exact e4 mq1
      have hq1ne2 : q1 ≠ p2f := by
        intro h
        rw [h] at mq1
        exact d21 p2f m2f mq1
      simp only [hmemX, memSet_read, zeroFrame_read]
      simp [hq1ne1, hq1ne2]
  · -- ABB: write at (p3f, p3Index p), fresh frames p2f and p1f
    obtain ⟨h1, h2, hhg, halq, hc2, hc1, hmemX⟩ := hc
    have m3f : p3f ∈ l3frames mp.mem mp.p4 := mem_l3frames _ _ _ _ (p4Index_lt p) h1
    have hp2a : p2f ∈ mp.alloc := by rw [halq]; simp
    have hp1a : p1f ∈ mp.alloc := by rw [halq]; simp
    obtain ⟨e1, e2, e3, e4⟩ := fresh_split mp.mem mp.p4 mp.alloc hfr p1f hp1a
    obtain ⟨g1, g2, g3, g4⟩ := fresh_split mp.mem mp.p4 mp.alloc hfr p2f hp2a
    have hx41 : mp.p4 ≠ p1f := fun h => e1 h.symm
    have hx42 : mp.p4 ≠ p2f := fun h => g1 h.symm
    have hx43 : mp.p4 ≠ p3f := by
      intro h
      rw [← h] at m3f
      exact p4n3 m3f
    refine ⟨?_, ?_, ?_, ?_⟩
    · simp only [hmemX, memSet_read, zeroFrame_read]
      simp [hx41, hx42, hx43]
    · have hq3ne1 : q3 ≠ p1f := by
        intro h
        rw [h] at mq3
        exact e2 mq3
      have hq3ne2 : q3 ≠ p2f := by
        intro h
        rw [h] at mq3
        exact g2 mq3
      by_cases hq3 : q3 = p3f
      · have hj3 : p3Index q ≠ p3Index p := by
          intro hj
          rw [hq3, hj, h2] at v2
          exact absurd v2 (by simp)
        have d35 : p3f ≠ p2f := by
          intro h
          rw [h] at m3f
          exact g2 m3f
        have d36 : p3f ≠ p1f := by
          intro h
          rw [h] at m3f
          exact e2 m3f
        simp only [hmemX, memSet_read, zeroFrame_read]
        simp [hq3ne1, hq3ne2, hq3, hj3, d35, d36]
      · simp only [hmemX, memSet_read, zeroFrame_read]
        simp [hq3ne1, hq3ne2, hq3]
    · have hn1 : q2 ≠ p1f := by
        intro h
        rw [h] at mq2
        exact e3 mq2
      have hn2 : q2 ≠ p2f := by
        intro h
        rw [h] at mq2
        exact g3 mq2
      have hn3 : q2 ≠ p3f := by
        intro h
        rw [h] at mq2
        exact d32 p3f m3f mq2
      simp only [hmemX, memSet_read, zeroFrame_read]
      simp [hn1, hn2, hn3]
    · have hn1 : q1 ≠ p1f := by
        intro h
        rw [h] at mq1
        exact e4 mq1
      have hn2 : q1 ≠ p2f := by
        intro h
        rw [h] at mq1
        exact g4 mq1
      have hn3 : q1 ≠ p3f := by
        intro h
        rw [h] at mq1
        exact d31 p3f m3f mq1
      simp only [hmemX, memSet_read, zeroFrame_read]
      simp [hn1, hn2, hn3]
  · -- BBB: write at (p4, p4Index p), fresh frames p3f, p2f, p1f
    obtain ⟨h1, hhg, halq, hc3, hc2, hc1, hmemX⟩ := hc
    have hp3a : p3f ∈ mp.alloc := by rw [halq]; simp
    have hp2a : p2f ∈ mp.alloc := by rw [halq]; simp
    have hp1a : p1f ∈ mp.alloc := by rw [halq]; simp
    obtain ⟨e1, e2, e3, e4⟩ := fresh_split mp.mem mp.p4 mp.alloc hfr p1f hp1a
    obtain ⟨g1, g2, g3, g4⟩ := fresh_split mp.mem mp.p4 mp.alloc hfr p2f hp2a
    obtain ⟨k1, k2, k3, k4⟩ := fresh_split mp.mem mp.p4 mp.alloc hfr p3f hp3a
    refine ⟨?_, ?_, ?_, ?_⟩
    · have hj4 : p4Index q ≠ p4Index p := by
        intro hj
        rw [hj, h1] at v1
        exact absurd v1 (by simp)
      have hx41 : mp.p4 ≠ p1f := fun h => e1 h.symm
      have hx42 : mp.p4 ≠ p2f := fun h => g1 h.symm
      have hx43 : mp.p4 ≠ p3f := fun h => k1 h.symm
      simp only [hmemX, memSet_read, zeroFrame_read]
      simp [hx41, hx42, hx43, hj4]
    · have hn1 : q3 ≠ p1f := by
        intro h
        rw [h] at mq3
        exact e2 mq3
      have hn2 : q3 ≠ p2f := by
        intro h
        rw [h] at mq3
        exact g2 mq3
      have hn3 : q3 ≠ p3f := by
        intro h
        rw [h] at mq3
        exact k2 mq3
      have hn4 : q3 ≠ mp.p4 := by
        intro h
        rw [h] at mq3
        exact p4n3 mq3
      simp only [hmemX, memSet_read, zeroFrame_read]
      simp [hn1, hn2, hn3, hn4]
    · have hn1 : q2 ≠ p1f := by
        intro h
        rw [h] at mq2
        exact e3 mq2
      have hn2 : q2 ≠ p2f := by
        intro h
        rw [h] at mq2
        exact g3 mq2
      have hn3 : q2 ≠ p3f := by
        intro h
        rw [h] at mq2
        exact k3 mq2
      have hn4 : q2 ≠ mp.p4 := by
        intro h
        rw [h] at mq2
        exact p4n2 mq2
      simp only [hmemX, memSet_read, zeroFrame_read]
      simp [hn1, hn2, hn3, hn4]
    · have hn1 : q1 ≠ p1f := by
        intro h
        rw [h] at mq1
        exact e4 mq1
      have hn2 : q1 ≠ p2f := by
        intro h
        rw [h] at mq1
        exact g4 mq1
      have hn3 : q1 ≠ p3f := by
        intro h
        rw [h] at mq1
        exact k4 mq1
      have hn4 : q1 ≠ mp.p4 := by
        intro h
        rw [h] at mq1
        exact p4n1 mq1
      simp only [hmemX, memSet_read, zeroFrame_read]
      simp [hn1, hn2, hn3, hn4]

/-! ### Mapped-writable pages -/

/-- The page `q` is mapped writable: a complete non-huge walk whose leaf
points at frame `fr` and carries the WRITABLE flag, and `translate_page`
finds it. -/
def MappedWritable (mp : Mapper) (q : Nat) : Prop :=
  ∃ q3 q2 q1 fr,
    nextTableFrame mp.mem mp.p4 (p4Index q) = some q3 ∧
    nextTableFrame mp.mem q3 (p3Index q) = some q2 ∧
    nextTableFrame mp.mem q2 (p2Index q) = some q1 ∧
    pointedFrame (mp.mem q1 (p1Index q)) = some fr ∧
    flagsContain (mp.mem q1 (p1Index q)) WRITABLE ∧
    mp.translatePage q = .ok (some fr)

theorem flagsContain_writable_iff (e : Nat) :
    flagsContain e WRITABLE ↔ e.testBit 1 = true := by
  unfold flagsContain entryFlags WRITABLE
  rw [Nat.land_assoc]
  have h1 : flagsMask &&& 2 = 2 := by decide
  rw [h1]
  have h2 : (2 : Nat) = 2 ^ 1 := by norm_num
  rw [h2, Nat.and_two_pow]
  cases h : e.testBit 1 <;> simp [h]

theorem leafVal_writable (f : Nat) : flagsContain (leafVal f WRITABLE) WRITABLE := by
  rw [flagsContain_writable_iff]
  unfold leafVal WRITABLE PRESENT
  rw [Nat.testBit_lor]
  have h2 : ((2 : Nat) ||| 1).testBit 1 = true := by decide
  rw [h2]
  simp

/-- `MappedWritable` survives a `map_to` of a different page. -/
theorem mappedWritable_preserved (mp mp2 : Mapper) (p f fl q : Nat)
    (hT : TreeInv mp) (hok : mp.mapTo p f fl = .ok mp2)
    (hvp : ValidPage p) (hvq : ValidPage q) (hne : q ≠ p)
    (hmw : MappedWritable mp q) : MappedWritable mp2 q := by
  obtain ⟨q3, q2, q1, fr, v1, v2, v3, vleaf, vw, _⟩ := hmw
  obtain ⟨c1, c2, c3, c4⟩ := walk_cells_preserved mp mp2 p f fl q q3 q2 q1
    hT hok hvp hvq hne v1 v2 v3
  have hp4 := (mapTo_treeInv mp mp2 p f fl hT hok).2
  have w1 : nextTableFrame mp2.mem mp2.p4 (p4Index q) = some q3 := by
    rw [hp4, nextTableFrame_congr mp2.mem mp.mem _ _ c1]
    exact v1
  have w2 : nextTableFrame mp2.mem q3 (p3Index q) = some q2 := by
    rw [nextTableFrame_congr mp2.mem mp.mem _ _ c2]
    exact v2
  have w3 : nextTableFrame mp2.mem q2 (p2Index q) = some q1 := by
    rw [nextTableFrame_congr mp2.mem mp.mem _ _ c3]
    exact v3
  refine ⟨q3, q2, q1, fr, w1, w2, w3, ?_, ?_, ?_⟩
  · rw [c4]
    exact vleaf
  · rw [c4]
    exact vw
  · apply translatePage_of_walk mp2 q q3 q2 q1 fr w1 w2 w3
    rw [c4]
    exact vleaf


/-- `translate_page = ok none` survives a `map_to` of a different page from
a tree-shaped state: the unmapped page stays unmapped. -/
theorem translatePage_none_preserved (mp mp2 : Mapper) (p f fl q : Nat)
    (hT : TreeInv mp) (hok : mp.mapTo p f fl = .ok mp2)
    (hvp : ValidPage p) (hvq : ValidPage q) (hne : q ≠ p)
    (hnone : mp.translatePage q = .ok none) :
    mp2.translatePage q = .ok none := by
  obtain ⟨hnd, hal, hfr⟩ := hT
  have hInv : Inv mp := Inv_of_TreeInv mp ⟨hnd, hal, hfr⟩
  have hsmall : ∀ a ∈ mp.alloc, a < 2 ^ 40 := fun a ha => (hfr a ha).2
  obtain ⟨hp4, hmask, p3f, p2f, p1f, hcase⟩ := mapTo_spec mp mp2 p f fl hsmall hok
  obtain ⟨hD4, w1, w2, w3, wleaf⟩ := mapTo_path mp mp2 p f fl p3f p2f p1f hInv hcase
  obtain ⟨⟨p4n3, p4n2, p4n1⟩, nd3, nd2, nd1, d32, d31, d21⟩ := ptFrames_nodup_parts _ _ hnd
  have hinv := translatePage_none_inv mp q hnone
  rcases hcase with hc | hc | hc | hc
  · -- AAA: single write at (p1f, p1Index p)
    obtain ⟨h1, h2, h3, hz, hmemX, halq⟩ := hc
    have m3f : p3f ∈ l3frames mp.mem mp.p4 := mem_l3frames _ _ _ _ (p4Index_lt p) h1
    have m2f : p2f ∈ l2frames mp.mem mp.p4 := mem_l2frames _ _ _ _ _ m3f (p3Index_lt p) h2
    have m1f : p1f ∈ l1frames mp.mem mp.p4 := mem_l1frames _ _ _ _ _ m2f (p2Index_lt p) h3
    have hx4 : mp.p4 ≠ p1f := by
      intro h
      rw [← h] at m1f
      exact p4n1 m1f
    have c0 : mp2.mem mp.p4 (p4Index q) = mp.mem mp.p4 (p4Index q) := by
      simp only [hmemX, memSet_read]
      simp [hx4]
    rcases hinv with hW | ⟨t3, u1, hW⟩
    · apply translatePage_break0
      rw [hp4, nextTableFrame_congr mp2.mem mp.mem _ _ c0]
      exact hW
    · have mt3 : t3 ∈ l3frames mp.mem mp.p4 := mem_l3frames _ _ _ _ (p4Index_lt q) u1
      have hxt3 : t3 ≠ p1f := by
        intro h
        rw [h] at mt3
        exact d31 p1f mt3 m1f
      have c3c : mp2.mem t3 (p3Index q) = mp.mem t3 (p3Index q) := by
        simp only [hmemX, memSet_read]
        simp [hxt3]
      have u1' : nextTableFrame mp2.mem mp2.p4 (p4Index q) = some t3 := by
        rw [hp4, nextTableFrame_congr mp2.mem mp.mem _ _ c0]
        exact u1
      rcases hW with ⟨hn3, hfact3⟩ | ⟨t2, u2, hW⟩
      · apply translatePage_break1 mp2 q t3 u1'
        · rw [nextTableFrame_congr mp2.mem mp.mem _ _ c3c]
          exact hn3
        · rw [c3c]
          exact hfact3
      · have mt2 : t2 ∈ l2frames mp.mem mp.p4 := mem_l2frames _ _ _ _ _ mt3 (p3Index_lt q) u2
        have hxt2 : t2 ≠ p1f := by
          intro h
          rw [h] at mt2
          exact d21 p1f mt2 m1f
        have c2c : mp2.mem t2 (p2Index q) = mp.mem t2 (p2Index q) := by
          simp only [hmemX, memSet_read]
          simp [hxt2]
        have u2' : nextTableFrame mp2.mem t3 (p3Index q) = some t2 := by
          rw [nextTableFrame_congr mp2.mem mp.mem _ _ c3c]
          exact u2
        rcases hW with ⟨hn2, hfact2⟩ | ⟨t1, u3, hleafq⟩
        · apply translatePage_break2 mp2 q t3 t2 u1' u2'
          · rw [nextTableFrame_congr mp2.mem mp.mem _ _ c2c]
            exact hn2
          · rw [c2c]
            exact hfact2
        · have u3' : nextTableFrame mp2.mem t2 (p2Index q) = some t1 := by
            rw [nextTableFrame_congr mp2.mem mp.mem _ _ c2c]
            exact u3
          by_cases ht1 : t1 = p1f
          · by_cases hj1 : p1Index q = p1Index p
            · exfalso
              rw [ht1] at u3
              obtain ⟨e2eq, i2eq⟩ := child_unique_2 mp.mem mp.p4 hnd t2 p2f
                (p2Index q) (p2Index p) p1f mt2 m2f (p2Index_lt q) (p2Index_lt p) u3 h3
              rw [e2eq] at u2
              obtain ⟨e3eq, i3eq⟩ := child_unique_3 mp.mem mp.p4 hnd t3 p3f
                (p3Index q) (p3Index p) p2f mt3 m3f (p3Index_lt q) (p3Index_lt p) u2 h2
              rw [e3eq] at u1
              have i4eq := child_unique_4 mp.mem mp.p4 hnd (p4Index q) (p4Index p) p3f
                (p4Index_lt q) (p4Index_lt p) u1 h1
              exact hne (validPage_injective q p hvq hvp i4eq i3eq i2eq hj1)
            · have cl : mp2.mem t1 (p1Index q) = mp.mem t1 (p1Index q) := by
                simp only [hmemX, memSet_read]
                simp [ht1, hj1]
              apply translatePage_break3 mp2 q t3 t2 t1 u1' u2' u3'
              rw [cl]
              exact hleafq
          · have cl : mp2.mem t1 (p1Index q) = mp.mem t1 (p1Index q) := by
              simp only [hmemX, memSet_read]
              simp [ht1]
            apply translatePage_break3 mp2 q t3 t2 t1 u1' u2' u3'
            rw [cl]
            exact hleafq
  · -- AAB: write at (p2f, p2Index p), fresh table p1f
    obtain ⟨h1, h2, h3, hhg, halq, hc1x, hmemX⟩ := hc
    have m3f : p3f ∈ l3frames mp.mem mp.p4 := mem_l3frames _ _ _ _ (p4Index_lt p) h1
    have m2f : p2f ∈ l2frames mp.mem mp.p4 := mem_l2frames _ _ _ _ _ m3f (p3Index_lt p) h2
    have hp1a : p1f ∈ mp.alloc := by rw [halq]; simp
    obtain ⟨e1, e2, e3, e4⟩ := fresh_split mp.mem mp.p4 mp.alloc hfr p1f hp1a
    have d6 : p2f ≠ p1f := by
      intro h
      rw [h] at m2f
      exact e3 m2f
    have hx41 : mp.p4 ≠ p1f := fun h => e1 h.symm
    have hx42 : mp.p4 ≠ p2f := by
      intro h
      rw [← h] at m2f
      exact p4n2 m2f
    have c0 : mp2.mem mp.p4 (p4Index q) = mp.mem mp.p4 (p4Index q) := by
      simp only [hmemX, memSet_read, zeroFrame_read]
      simp [hx41, hx42]
    rcases hinv with hW | ⟨t3, u1, hW⟩
    · apply translatePage_break0
      rw [hp4, nextTableFrame_congr mp2.mem mp.mem _ _ c0]
      exact hW
    · have mt3 : t3 ∈ l3frames mp.mem mp.p4 := mem_l3frames _ _ _ _ (p4Index_lt q) u1
      have hxt31 : t3 ≠ p1f := by
        intro h
        rw [h] at mt3
        exact e2 mt3
      have hxt32 : t3 ≠ p2f := by
        intro h
        rw [h] at mt3
        exact d32 p2f mt3 m2f
      have c3c : mp2.mem t3 (p3Index q) = mp.mem t3 (p3Index q) := by
        simp only [hmemX, memSet_read, zeroFrame_read]
        simp [hxt31, hxt32]
      have u1' : nextTableFrame mp2.mem mp2.p4 (p4Index q) = some t3 := by
        rw [hp4, nextTableFrame_congr mp2.mem mp.mem _ _ c0]
        exact u1
      rcases hW with ⟨hn3, hfact3⟩ | ⟨t2, u2, hW⟩
      · apply translatePage_break1 mp2 q t3 u1'
        · rw [nextTableFrame_congr mp2.mem mp.mem _ _ c3c]
          exact hn3
        · rw [c3c]
          exact hfact3
      · have mt2 : t2 ∈ l2frames mp.mem mp.p4 := mem_l2frames _ _ _ _ _ mt3 (p3Index_lt q) u2
        have hxt2 : t2 ≠ p1f := by
          intro h
          rw [h] at mt2
          exact e3 mt2
        have u2' : nextTableFrame mp2.mem t3 (p3Index q) = some t2 := by
          rw [nextTableFrame_congr mp2.mem mp.mem _ _ c3c]
          exact u2
        have hc2or : (t2 = p2f ∧ p2Index q = p2Index p) ∨
            mp2.mem t2 (p2Index q) = mp.mem t2 (p2Index q) := by
          by_cases ht2 : t2 = p2f
          · by_cases hj2 : p2Index q = p2Index p
            · exact Or.inl ⟨ht2, hj2⟩
            · refine Or.inr ?_
              simp only [hmemX, memSet_read, zeroFrame_read]
              simp [hxt2, ht2, hj2, d6]
          · refine Or.inr ?_
            simp only [hmemX, memSet_read, zeroFrame_read]
            simp [hxt2, ht2]
        rcases hc2or with ⟨ht2, hj2⟩ | c2c
        · -- the old walk met the freshly filled slot: the new walk enters
          -- the fresh P1 table, which is zero away from p's leaf index
          rw [ht2] at u2
          obtain ⟨e3eq, i3eq⟩ := child_unique_3 mp.mem mp.p4 hnd t3 p3f
            (p3Index q) (p3Index p) p2f mt3 m3f (p3Index_lt q) (p3Index_lt p) u2 h2
          rw [e3eq] at u1
          have i4eq := child_unique_4 mp.mem mp.p4 hnd (p4Index q) (p4Index p) p3f
            (p4Index_lt q) (p4Index_lt p) u1 h1
          rcases hW with ⟨hn2, hfact2⟩ | ⟨t1, u3, hleafq⟩
          · by_cases hj1 : p1Index q = p1Index p
            · exfalso
              exact hne (validPage_injective q p hvq hvp i4eq i3eq hj2 hj1)
            · apply translatePage_break3 mp2 q t3 p2f p1f u1'
              · rw [e3eq, i3eq]
                exact w2
              · rw [hj2]
                exact w3
              · have hcell : mp2.mem p1f (p1Index q) = 0 := by
                  simp only [hmemX, memSet_read, zeroFrame_read]
                  simp [hj1]
                rw [hcell]
                exact pointedFrame_zero
          · exfalso
            rw [ht2, hj2, h3] at u3
            exact absurd u3 (by simp)
        · have u2x : nextTableFrame mp2.mem t2 (p2Index q) =
              nextTableFrame mp.mem t2 (p2Index q) :=
            nextTableFrame_congr mp2.mem mp.mem _ _ c2c
          rcases hW with ⟨hn2, hfact2⟩ | ⟨t1, u3, hleafq⟩
          · apply translatePage_break2 mp2 q t3 t2 u1' u2'
            · rw [u2x]
              exact hn2
            · rw [c2c]
              exact hfact2
          · have mt1 : t1 ∈ l1frames mp.mem mp.p4 :=
              mem_l1frames _ _ _ _ _ mt2 (p2Index_lt q) u3
            have hxt11 : t1 ≠ p1f := by
              intro h
              rw [h] at mt1
              exact e4 mt1
            have hxt12 : t1 ≠ p2f := by
              intro h
              rw [h] at mt1
              exact d21 p2f m2f mt1
            have cl : mp2.mem t1 (p1Index q) = mp.mem t1 (p1Index q) := by
              simp only [hmemX, memSet_read, zeroFrame_read]
              simp [hxt11, hxt12]
            apply translatePage_break3 mp2 q t3 t2 t1 u1' u2'
            · rw [u2x]
              exact u3
            · rw [cl]
              exact hleafq
  · -- ABB: write at (p3f, p3Index p), fresh tables p2f and p1f
    obtain ⟨h1, h2, hhg, halq, hc2x, hc1x, hmemX⟩ := hc
    have m3f : p3f ∈ l3frames mp.mem mp.p4 := mem_l3frames _ _ _ _ (p4Index_lt p) h1
    have hp2a : p2f ∈ mp.alloc := by rw [halq]; simp
    have hp1a : p1f ∈ mp.alloc := by rw [halq]; simp
    obtain ⟨e1, e2, e3, e4⟩ := fresh_split mp.mem mp.p4 mp.alloc hfr p1f hp1a
    obtain ⟨g1, g2, g3, g4⟩ := fresh_split mp.mem mp.p4 mp.alloc hfr p2f hp2a
    have halnd : (p2f :: p1f :: mp2.alloc).Nodup := by
      rw [← halq]
      exact hal
    have d6 : p2f ≠ p1f := by
      have h := (List.nodup_cons.mp halnd).1
      simp only [List.mem_cons, not_or] at h
      exact h.1
    have d35 : p3f ≠ p2f := by
      intro h
      rw [h] at m3f
      exact g2 m3f
    have d36 : p3f ≠ p1f := by
      intro h
      rw [h] at m3f
      exact e2 m3f
    have hx41 : mp.p4 ≠ p1f := fun h => e1 h.symm
    have hx42 : mp.p4 ≠ p2f := fun h => g1 h.symm
    have hx43 : mp.p4 ≠ p3f := by
      intro h
      rw [← h] at m3f
      exact p4n3 m3f
    have c0 : mp2.mem mp.p4 (p4Index q) = mp.mem mp.p4 (p4Index q) := by
      simp only [hmemX, memSet_read, zeroFrame_read]
      simp [hx41, hx42, hx43]
    rcases hinv with hW | ⟨t3, u1, hW⟩
    · apply translatePage_break0
      rw [hp4, nextTableFrame_congr mp2.mem mp.mem _ _ c0]
      exact hW
    · have mt3 : t3 ∈ l3frames mp.mem mp.p4 := mem_l3frames _ _ _ _ (p4Index_lt q) u1
      have hxt31 : t3 ≠ p1f := by
        intro h
        rw [h] at mt3
        exact e2 mt3
      have hxt32 : t3 ≠ p2f := by
        intro h
        rw [h] at mt3
        exact g2 mt3
      have u1' : nextTableFrame mp2.mem mp2.p4 (p4Index q) = some t3 := by
        rw [hp4, nextTableFrame_congr mp2.mem mp.mem _ _ c0]
        exact u1
      have hc3or : (t3 = p3f ∧ p3Index q = p3Index p) ∨
          mp2.mem t3 (p3Index q) = mp.mem t3 (p3Index q) := by
        by_cases ht3 : t3 = p3f
        · by_cases hj3 : p3Index q = p3Index p
          · exact Or.inl ⟨ht3, hj3⟩
          · refine Or.inr ?_
            simp only [hmemX, memSet_read, zeroFrame_read]
            simp [hxt31, hxt32, ht3, hj3, d35, d36]
        · refine Or.inr ?_
          simp only [hmemX, memSet_read, zeroFrame_read]
          simp [hxt31, hxt32, ht3]
      rcases hc3or with ⟨ht3, hj3⟩ | c3c
      · -- the old walk met the freshly filled P3 slot
        rw [ht3] at u1
        have i4eq := child_unique_4 mp.mem mp.p4 hnd (p4Index q) (p4Index p) p3f
          (p4Index_lt q) (p4Index_lt p) u1 h1
        rcases hW with ⟨hn3, hfact3⟩ | ⟨t2, u2, hW⟩
        · by_cases hj2 : p2Index q = p2Index p
          · by_cases hj1 : p1Index q = p1Index p
            · exfalso
              exact hne (validPage_injective q p hvq hvp i4eq hj3 hj2 hj1)
            · apply translatePage_break3 mp2 q t3 p2f p1f u1'
              · rw [ht3, hj3]
                exact w2
              · rw [hj2]
                exact w3
              · have hcell : mp2.mem p1f (p1Index q) = 0 := by
                  simp only [hmemX, memSet_read, zeroFrame_read]
                  simp [hj1]
                rw [hcell]
                exact pointedFrame_zero
          · apply translatePage_break2 mp2 q t3 p2f u1'
            · rw [ht3, hj3]
              exact w2
            · apply nextTableFrame_zero
              simp only [hmemX, memSet_read, zeroFrame_read]
              simp [d6, hj2]
            · refine Or.inl ?_
              have hcell : mp2.mem p2f (p2Index q) = 0 := by
                simp only [hmemX, memSet_read, zeroFrame_read]
                simp [d6, hj2]
              rw [hcell]
              exact pointedFrame_zero
        · exfalso
          rw [ht3, hj3, h2] at u2
          exact absurd u2 (by simp)
      · have u3x : nextTableFrame mp2.mem t3 (p3Index q) =
            nextTableFrame mp.mem t3 (p3Index q) :=
          nextTableFrame_congr mp2.mem mp.mem _ _ c3c
        rcases hW with ⟨hn3, hfact3⟩ | ⟨t2, u2, hW⟩
        · apply translatePage_break1 mp2 q t3 u1'
          · rw [u3x]
            exact hn3
          · rw [c3c]
            exact hfact3
        · have mt2 : t2 ∈ l2frames mp.mem mp.p4 :=
            mem_l2frames _ _ _ _ _ mt3 (p3Index_lt q) u2
          have hy1 : t2 ≠ p1f := by
            intro h
            rw [h] at mt2
            exact e3 mt2
          have hy2 : t2 ≠ p2f := by
            intro h
            rw [h] at mt2
            exact g3 mt2
          have hy3 : t2 ≠ p3f := by
            intro h
            rw [h] at mt2
            exact d32 p3f m3f mt2
          have c2c : mp2.mem t2 (p2Index q) = mp.mem t2 (p2Index q) := by
            simp only [hmemX, memSet_read, zeroFrame_read]
            simp [hy1, hy2, hy3]
          have u2' : nextTableFrame mp2.mem t3 (p3Index q) = some t2 := by
            rw [u3x]
            exact u2
          rcases hW with ⟨hn2, hfact2⟩ | ⟨t1, u3, hleafq⟩
          · apply translatePage_break2 mp2 q t3 t2 u1' u2'
            · rw [nextTableFrame_congr mp2.mem mp.mem _ _ c2c]
              exact hn2
            · rw [c2c]
              exact hfact2
          · have mt1 : t1 ∈ l1frames mp.mem mp.p4 :=
              mem_l1frames _ _ _ _ _ mt2 (p2Index_lt q) u3
            have hz1 : t1 ≠ p1f := by
              intro h
              rw [h] at mt1
              exact e4 mt1
            have hz2 : t1 ≠ p2f := by
              intro h
              rw [h] at mt1
              exact g4 mt1
            have hz3 : t1 ≠ p3f := by
              intro h
              rw [h] at mt1
              exact d31 p3f m3f mt1
            have cl : mp2.mem t1 (p1Index q) = mp.mem t1 (p1Index q) := by
              simp only [hmemX, memSet_read, zeroFrame_read]
              simp [hz1, hz2, hz3]
            apply translatePage_break3 mp2 q t3 t2 t1 u1' u2'
            · rw [nextTableFrame_congr mp2.mem mp.mem _ _ c2c]
              exact u3
            · rw [cl]
              exact hleafq
  · -- BBB: write at (p4, p4Index p), fresh tables p3f, p2f, p1f
    obtain ⟨h1, hhg, halq, hc3x, hc2x, hc1x, hmemX⟩ := hc
    have hp3a : p3f ∈ mp.alloc := by rw [halq]; simp
    have hp2a : p2f ∈ mp.alloc := by rw [halq]; simp
    have hp1a : p1f ∈ mp.alloc := by rw [halq]; simp
    obtain ⟨e1, e2, e3, e4⟩ := fresh_split mp.mem mp.p4 mp.alloc hfr p1f hp1a
    obtain ⟨g1, g2, g3, g4⟩ := fresh_split mp.mem mp.p4 mp.alloc hfr p2f hp2a
    obtain ⟨k1, k2, k3, k4⟩ := fresh_split mp.mem mp.p4 mp.alloc hfr p3f hp3a
    have halnd : (p3f :: p2f :: p1f :: mp2.alloc).Nodup := by
      rw [← halq]
      exact hal
    have hdist : p3f ≠ p2f ∧ p3f ≠ p1f ∧ p2f ≠ p1f := by
      have h := halnd
      simp only [List.nodup_cons, List.mem_cons, not_or] at h
      exact ⟨h.1.1, h.1.2.1, h.2.1.1⟩
    have q1x : mp.p4 ≠ p1f := fun h => e1 h.symm
    have q2x : mp.p4 ≠ p2f := fun h => g1 h.symm
    have q3x : mp.p4 ≠ p3f := fun h => k1 h.symm
    by_cases hj4 : p4Index q = p4Index p
    · -- the old walk broke at the missing P3 slot, which is now filled:
      -- the new walk runs inside the freshly created, zeroed tables
      rcases hinv with hW | ⟨t3, u1, hW⟩
      swap
      · exfalso
        rw [hj4, h1] at u1
        exact absurd u1 (by simp)
      have u1' : nextTableFrame mp2.mem mp2.p4 (p4Index q) = some p3f := by
        rw [hp4, hj4]
        exact w1
      by_cases hj3 : p3Index q = p3Index p
      · by_cases hj2 : p2Index q = p2Index p
        · by_cases hj1 : p1Index q = p1Index p
          · exfalso
            exact hne (validPage_injective q p hvq hvp hj4 hj3 hj2 hj1)
          · apply translatePage_break3 mp2 q p3f p2f p1f u1'
            · rw [hj3]
              exact w2
            · rw [hj2]
              exact w3
            · have hcell : mp2.mem p1f (p1Index q) = 0 := by
                simp only [hmemX, memSet_read, zeroFrame_read]
                simp [hj1]
              rw [hcell]
              exact pointedFrame_zero
        · apply translatePage_break2 mp2 q p3f p2f u1'
          · rw [hj3]
            exact w2
          · apply nextTableFrame_zero
            simp only [hmemX, memSet_read, zeroFrame_read]
            simp [hdist.2.2, hj2]
          · refine Or.inl ?_
            have hcell : mp2.mem p2f (p2Index q) = 0 := by
              simp only [hmemX, memSet_read, zeroFrame_read]
              simp [hdist.2.2, hj2]
            rw [hcell]
            exact pointedFrame_zero
      · apply translatePage_break1 mp2 q p3f u1'
        · apply nextTableFrame_zero
          simp only [hmemX, memSet_read, zeroFrame_read]
          simp [hdist.1, hdist.2.1, hj3]
        · refine Or.inl ?_
          have hcell : mp2.mem p3f (p3Index q) = 0 := by
            simp only [hmemX, memSet_read, zeroFrame_read]
            simp [hdist.1, hdist.2.1, hj3]
          rw [hcell]
          exact pointedFrame_zero
    · -- the P4 slot of q is a different one and is untouched
      have c0 : mp2.mem mp.p4 (p4Index q) = mp.mem mp.p4 (p4Index q) := by
        simp only [hmemX, memSet_read, zeroFrame_read]
        simp [q1x, q2x, q3x, hj4]
      rcases hinv with hW | ⟨t3, u1, hW⟩
      · apply translatePage_break0
        rw [hp4, nextTableFrame_congr mp2.mem mp.mem _ _ c0]
        exact hW
      · have mt3 : t3 ∈ l3frames mp.mem mp.p4 := mem_l3frames _ _ _ _ (p4Index_lt q) u1
        have ha1 : t3 ≠ p1f := by
          intro h
          rw [h] at mt3
          exact e2 mt3
        have ha2 : t3 ≠ p2f := by
          intro h
          rw [h] at mt3
          exact g2 mt3
        have ha3 : t3 ≠ p3f := by
          intro h
          rw [h] at mt3
          exact k2 mt3
        have ha4 : t3 ≠ mp.p4 := by
          intro h
          rw [h] at mt3
          exact p4n3 mt3
        have c3c : mp2.mem t3 (p3Index q) = mp.mem t3 (p3Index q) := by
          simp only [hmemX, memSet_read, zeroFrame_read]
          simp [ha1, ha2, ha3, ha4]
        have u1' : nextTableFrame mp2.mem mp2.p4 (p4Index q) = some t3 := by
          rw [hp4, nextTableFrame_congr mp2.mem mp.mem _ _ c0]
          exact u1
        rcases hW with ⟨hn3, hfact3⟩ | ⟨t2, u2, hW⟩
        · apply translatePage_break1 mp2 q t3 u1'
          · rw [nextTableFrame_congr mp2.mem mp.mem _ _ c3c]
            exact hn3
          · rw [c3c]
            exact hfact3
        · have mt2 : t2 ∈ l2frames mp.mem mp.p4 :=
            mem_l2frames _ _ _ _ _ mt3 (p3Index_lt q) u2
          have hb1 : t2 ≠ p1f := by
            intro h
            rw [h] at mt2
            exact e3 mt2
          have hb2 : t2 ≠ p2f := by
            intro h
            rw [h] at mt2
            exact g3 mt2
          have hb3 : t2 ≠ p3f := by
            intro h
            rw [h] at mt2
            exact k3 mt2
          have hb4 : t2 ≠ mp.p4 := by
            intro h
            rw [h] at mt2
            exact p4n2 mt2
          have c2c : mp2.mem t2 (p2Index q) = mp.mem t2 (p2Index q) := by
            simp only [hmemX, memSet_read, zeroFrame_read]
            simp [hb1, hb2, hb3, hb4]
          have u2' : nextTableFrame mp2.mem t3 (p3Index q) = some t2 := by
            rw [nextTableFrame_congr mp2.mem mp.mem _ _ c3c]
            exact u2
          rcases hW with ⟨hn2, hfact2⟩ | ⟨t1, u3, hleafq⟩
          · apply translatePage_break2 mp2 q t3 t2 u1' u2'
            · rw [nextTableFrame_congr mp2.mem mp.mem _ _ c2c]
              exact hn2
            · rw [c2c]
              exact hfact2
          · have mt1 : t1 ∈ l1frames mp.mem mp.p4 :=
              mem_l1frames _ _ _ _ _ mt2 (p2Index_lt q) u3
            have hd1 : t1 ≠ p1f := by
              intro h
              rw [h] at mt1
              exact e4 mt1
            have hd2 : t1 ≠ p2f := by
              intro h
              rw [h] at mt1
              exact g4 mt1
            have hd3 : t1 ≠ p3f := by
              intro h
              rw [h] at mt1
              exact k4 mt1
            have hd4 : t1 ≠ mp.p4 := by
              intro h
              rw [h] at mt1
              exact p4n1 mt1
            have cl : mp2.mem t1 (p1Index q) = mp.mem t1 (p1Index q) := by
              simp only [hmemX, memSet_read, zeroFrame_read]
              simp [hd1, hd2, hd3, hd4]
            apply translatePage_break3 mp2 q t3 t2 t1 u1' u2'
            · rw [nextTableFrame_congr mp2.mem mp.mem _ _ c2c]
              exact u3
            · rw [cl]
              exact hleafq


/-! ### Mapping a run of consecutive pages (the loop of alloc_stack) -/

/-- A successful `Mapper.map` establishes a writable mapping of the page,
keeps the tree invariant, and preserves both unmapped-ness and writable
mappings of every other page. -/
theorem map_step (mp mp2 : Mapper) (p : Nat)
    (hT : TreeInv mp) (hvp : ValidPage p)
    (hok : mp.map p WRITABLE = .ok mp2) :
    TreeInv mp2 ∧ mp2.p4 = mp.p4 ∧ MappedWritable mp2 p ∧
    (∀ q, ValidPage q → q ≠ p →
      (mp.translatePage q = .ok none → mp2.translatePage q = .ok none) ∧
      (MappedWritable mp q → MappedWritable mp2 q)) := by
  unfold Mapper.map at hok
  cases hal : mp.alloc with
  | nil =>
    rw [hal] at hok
    exact absurd hok (by simp)
  | cons f rest =>
    rw [hal] at hok
    simp only [] at hok
    have hTi : TreeInv ⟨mp.p4, mp.mem, rest⟩ := by
      obtain ⟨hnd, halnd, hfr⟩ := hT
      rw [hal] at halnd hfr
      exact ⟨hnd, (List.nodup_cons.mp halnd).2,
        fun a ha => hfr a (List.mem_cons_of_mem _ ha)⟩
    obtain ⟨hT2, hp4i⟩ := mapTo_treeInv _ mp2 p f WRITABLE hTi hok
    have hf40 : f < 2 ^ 40 := by
      obtain ⟨_, _, hfr⟩ := hT
      refine (hfr f ?_).2
      rw [hal]
      simp
    have hsmalli : ∀ a ∈ rest, a < 2 ^ 40 := by
      obtain ⟨_, _, hfr⟩ := hT
      intro a ha
      refine (hfr a ?_).2
      rw [hal]
      exact List.mem_cons_of_mem _ ha
    obtain ⟨hp4x, hmask, p3f, p2f, p1f, hcase⟩ :=
      mapTo_spec _ mp2 p f WRITABLE hsmalli hok
    obtain ⟨hD4, w1, w2, w3, wleaf⟩ :=
      mapTo_path _ mp2 p f WRITABLE p3f p2f p1f (Inv_of_TreeInv _ hTi) hcase
    have hfl : WRITABLE &&& flagsMask = WRITABLE := by decide
    have hmw : MappedWritable mp2 p := by
      refine ⟨p3f, p2f, p1f, f, ?_, w2, w3, ?_, ?_, ?_⟩
      · rw [hp4i]
        exact w1
      · rw [wleaf]
        exact pointedFrame_leafVal f WRITABLE hf40 hfl
      · rw [wleaf]
        exact leafVal_writable f
      · refine translatePage_of_walk mp2 p p3f p2f p1f f ?_ w2 w3 ?_
        · rw [hp4i]
          exact w1
        · rw [wleaf]
          exact pointedFrame_leafVal f WRITABLE hf40 hfl
    refine ⟨hT2, hp4i, hmw, ?_⟩
    intro q hvq hne
    constructor
    · intro hq
      exact translatePage_none_preserved _ mp2 p f WRITABLE q hTi hok hvp hvq hne hq
    · intro hq
      exact mappedWritable_preserved _ mp2 p f WRITABLE q hTi hok hvp hvq hne hq

/-- The `for page in Page::range_inclusive(start, end)` loop of
`alloc_stack`: map `count` consecutive pages writable, threading the
mapper (and its frame allocator) through. -/
def mapPages (mp : Mapper) (start : Nat) : Nat → Except String Mapper
  | 0 => .ok mp
  | n + 1 =>
    match mp.map start WRITABLE with
    | .error e => .error e
    | .ok mp1 => mapPages mp1 (start + 1) n

/-- Loop invariant of the mapping loop: the tree invariant is kept, all the
pages of the run end up mapped writable, and other pages keep their
translation. -/
theorem mapPages_spec : ∀ (count : Nat) (mp mp2 : Mapper) (start : Nat),
    TreeInv mp →
    (∀ i, i < count → ValidPage (start + i)) →
    mapPages mp start count = .ok mp2 →
    TreeInv mp2 ∧ mp2.p4 = mp.p4 ∧
    (∀ i, i < count → MappedWritable mp2 (start + i)) ∧
    (∀ q, ValidPage q → (∀ i, i < count → q ≠ start + i) →
      (mp.translatePage q = .ok none → mp2.translatePage q = .ok none) ∧
      (MappedWritable mp q → MappedWritable mp2 q)) := by
  intro count
  induction count with
  | zero =>
    intro mp mp2 start hT hv hok
    simp only [mapPages] at hok
    have heq : mp = mp2 := by
      simpa using hok
    rw [← heq]
    exact ⟨hT, rfl, fun i hi => absurd hi (by omega), fun q _ _ => ⟨id, id⟩⟩
  | succ n ih =>
    intro mp mp2 start hT hv hok
    simp only [mapPages] at hok
    cases hm : mp.map start WRITABLE with
    | error e =>
      rw [hm] at hok
      exact absurd hok (by simp)
    | ok mp1 =>
      rw [hm] at hok
      simp only [] at hok
      have hvstart : ValidPage start := by
        have h := hv 0 (by omega)
        simpa using h
      obtain ⟨hT1, hp41, hmw1, hpres1⟩ := map_step mp mp1 start hT hvstart hm
      have hv2 : ∀ i, i < n → ValidPage (start + 1 + i) := by
        intro i hi
        have h := hv (i + 1) (by omega)
        have harr : start + (i + 1) = start + 1 + i := by omega
        rw [harr] at h
        exact h
      obtain ⟨hT2, hp42, hmw2, hpres2⟩ := ih mp1 mp2 (start + 1) hT1 hv2 hok
      refine ⟨hT2, by rw [hp42, hp41], ?_, ?_⟩
      · intro i hi
        cases i with
        | zero =>
          have harr : start + 0 = start := by omega
          rw [harr]
          refine (hpres2 start hvstart ?_).2 hmw1
          intro j hj
          omega
        | succ m =>
          have harr : start + (m + 1) = start + 1 + m := by omega
          rw [harr]
          exact hmw2 m (by omega)
      · intro q hvq hqa
        have hqa1 : q ≠ start := by
          have h := hqa 0 (by omega)
          simpa using h
        have hqa2 : ∀ i, i < n → q ≠ start + 1 + i := by
          intro i hi
          have h := hqa (i + 1) (by omega)
          have harr : start + (i + 1) = start + 1 + i := by omega
          rw [harr] at h
          exact h
        obtain ⟨ha, hb⟩ := hpres1 q hvq hqa1
        obtain ⟨hc, hd⟩ := hpres2 q hvq hqa2
        exact ⟨fun h => hc (ha h), fun h => hd (hb h)⟩


/-! ### The page iterator and the stack allocator (memory/stack_allocator.rs) -/

/-- `PageIter` (paging/mod.rs): inclusive iterator over page numbers.  The
source calls the second field `end`, a reserved word here, hence `stop`. -/
structure PageIter where
  start : Nat
  stop : Nat
deriving DecidableEq

/-- `Iterator::next` for `PageIter`: yield `start` while `start <= end`,
advancing `start`. -/
def PageIter.next (it : PageIter) : Option Nat × PageIter :=
  if it.start ≤ it.stop then (some it.start, ⟨it.start + 1, it.stop⟩) else (none, it)

/-- `Iterator::nth n` (the default library implementation): discard `n`
items, then return `next()`; stops early when the iterator runs out. -/
def PageIter.nth (it : PageIter) : Nat → Option Nat × PageIter
  | 0 => it.next
  | n + 1 =>
    match it.next with
    | (none, it2) => (none, it2)
    | (some _, it2) => it2.nth n

theorem PageIter.nth_ok : ∀ (n : Nat) (it : PageIter), it.start + n ≤ it.stop →
    it.nth n = (some (it.start + n), ⟨it.start + n + 1, it.stop⟩) := by
  intro n
  induction n with
  | zero =>
    intro it h
    unfold PageIter.nth PageIter.next
    rw [if_pos (by omega)]
    simp
  | succ k ih =>
    intro it h
    unfold PageIter.nth PageIter.next
    rw [if_pos (by omega)]
    simp only []
    have hstep := ih ⟨it.start + 1, it.stop⟩ (show it.start + 1 + k ≤ it.stop by omega)
    rw [hstep]
    have h1 : it.start + 1 + k = it.start + (k + 1) := by omega
    rw [h1]

theorem PageIter.nth_fail : ∀ (n : Nat) (it : PageIter), it.stop < it.start + n →
    (it.nth n).1 = none := by
  intro n
  induction n with
  | zero =>
    intro it h
    unfold PageIter.nth PageIter.next
    rw [if_neg (by omega)]
  | succ k ih =>
    intro it h
    unfold PageIter.nth PageIter.next
    by_cases hc : it.start ≤ it.stop
    · rw [if_pos hc]
      simp only []
      exact ih ⟨it.start + 1, it.stop⟩ (show it.stop < it.start + 1 + k by omega)
    · rw [if_neg hc]

/-- x86_64 stack handed out by the stack allocator, with the `top > bottom`
assertion of its constructor. -/
structure Stack where
  top : Nat
  bottom : Nat
deriving DecidableEq

/-- Panic message of `assert!(top > bottom)` in `Stack::new`. -/
def msgStackNew : String := "assertion failed: top > bottom"

/-- `Stack::new`. -/
def Stack.new (top bottom : Nat) : Except String Stack :=
  if bottom < top then .ok ⟨top, bottom⟩ else .error msgStackNew

/-- `StackAllocator`: the page range it may allocate stacks in. -/
structure StackAllocator where
  range : PageIter
deriving DecidableEq

/-- `StackAllocator::new`. -/
def StackAllocator.new (page_range : PageIter) : StackAllocator := ⟨page_range⟩

/-- `StackAllocator::alloc_stack`: work on a clone of the range; pull the
guard page, the stack start, and (for sizes above one) advance to the stack
end; on success commit the clone, map the pages writable, and build the
stack; otherwise return `None` leaving the stored range unchanged.  The
mapper carries the active table and the frame allocator; a panic inside
`map` or `Stack::new` surfaces as `.error`. -/
def StackAllocator.alloc_stack (sa : StackAllocator) (mp : Mapper)
    (size_in_pages : Nat) : Except String (Option Stack × StackAllocator × Mapper) :=
  if size_in_pages = 0 then .ok (none, sa, mp)
  else
    let r1 := sa.range.next
    let r2 := r1.2.next
    let r3 := if size_in_pages = 1 then r2 else r2.2.nth (size_in_pages - 2)
    match r1.1, r2.1, r3.1 with
    | some _, some start, some stop =>
      (match mapPages mp start (stop + 1 - start) with
       | .error e => .error e
       | .ok mp2 =>
         match Stack.new (startAddress stop + PAGE_SIZE) (startAddress start) with
         | .error e => .error e
         | .ok st => .ok (some st, ⟨r3.2⟩, mp2))
    | _, _, _ => .ok (none, sa, mp)


/-- Common tail of a successful allocation: the mapping loop ran over pages
`start+1 .. start+n` and the stack was built. -/
theorem alloc_stack_tail (sa : StackAllocator) (mp : Mapper) (n stopv : Nat)
    (st : Stack) (sa2 : StackAllocator) (mp2 : Mapper) (hT : TreeInv mp)
    (hreg : ∀ q, sa.range.start ≤ q → q ≤ sa.range.stop →
      ValidPage q ∧ mp.translatePage q = .ok none)
    (hn : 1 ≤ n) (hstop : stopv = sa.range.start + n)
    (hbound : sa.range.start + n ≤ sa.range.stop)
    (hok2 : ((match mapPages mp (sa.range.start + 1) (stopv + 1 - (sa.range.start + 1)) with
       | .error e => .error e
       | .ok mp3 =>
         (match Stack.new (startAddress stopv + PAGE_SIZE)
             (startAddress (sa.range.start + 1)) with
         | .error e => .error e
         | .ok st2 =>
           .ok (some st2, (⟨⟨stopv + 1, sa.range.stop⟩⟩ : StackAllocator), mp3))) :
       Except String (Option Stack × StackAllocator × Mapper))
       = .ok (some st, sa2, mp2)) :
    1 ≤ n ∧ sa.range.start + n ≤ sa.range.stop ∧
    st.bottom = (sa.range.start + 1) * PAGE_SIZE ∧
    st.top = (sa.range.start + n + 1) * PAGE_SIZE ∧
    sa2.range.start = sa.range.start + n + 1 ∧
    sa2.range.stop = sa.range.stop ∧
    TreeInv mp2 ∧ mp2.p4 = mp.p4 ∧
    (∀ q, sa.range.start + 1 ≤ q → q ≤ sa.range.start + n → MappedWritable mp2 q) ∧
    mp2.translatePage sa.range.start = .ok none ∧
    (∀ q, ValidPage q → (q < sa.range.start + 1 ∨ sa.range.start + n < q) →
      (mp.translatePage q = .ok none → mp2.translatePage q = .ok none) ∧
      (MappedWritable mp q → MappedWritable mp2 q)) := by
  subst hstop
  rw [show sa.range.start + n + 1 - (sa.range.start + 1) = n from by omega] at hok2
  cases hmp : mapPages mp (sa.range.start + 1) n with
  | error e =>
    rw [hmp] at hok2
    exact absurd hok2 (by simp)
  | ok mp3 =>
    rw [hmp] at hok2
    simp only [] at hok2
    have htb : startAddress (sa.range.start + 1) <
        startAddress (sa.range.start + n) + PAGE_SIZE := by
      unfold startAddress PAGE_SIZE
      have hm := Nat.mul_le_mul_right 4096 (show sa.range.start + 1 ≤ sa.range.start + n
        from by omega)
      omega
    unfold Stack.new at hok2
    rw [if_pos htb] at hok2
    simp only [Except.ok.injEq, Prod.mk.injEq, Option.some.injEq] at hok2
    obtain ⟨hst, hsa2, hmp2⟩ := hok2
    subst hmp2
    subst hsa2
    have hv : ∀ i, i < n → ValidPage (sa.range.start + 1 + i) := by
      intro i hi
      exact (hreg (sa.range.start + 1 + i) (by omega) (by omega)).1
    obtain ⟨hT2, hp4, hmw, hpres⟩ := mapPages_spec n mp mp3 (sa.range.start + 1) hT hv hmp
    have hvguard : ValidPage sa.range.start :=
      (hreg sa.range.start (by omega) (by omega)).1
    have hnguard : mp.translatePage sa.range.start = .ok none :=
      (hreg sa.range.start (by omega) (by omega)).2
    refine ⟨hn, hbound, ?_, ?_, rfl, rfl, hT2, hp4, ?_, ?_, ?_⟩
    · rw [← hst]
      rfl
    · rw [← hst]
      show startAddress (sa.range.start + n) + PAGE_SIZE = (sa.range.start + n + 1) * PAGE_SIZE
      unfold startAddress PAGE_SIZE
      ring
    · intro q hq1 hq2
      have harr : sa.range.start + 1 + (q - (sa.range.start + 1)) = q := by omega
      rw [← harr]
      exact hmw (q - (sa.range.start + 1)) (by omega)
    · refine (hpres sa.range.start hvguard ?_).1 hnguard
      intro i hi
      omega
    · intro q hvq hside
      refine hpres q hvq ?_
      intro i hi
      omega


/-- Specification of a successful `alloc_stack` on a tree-shaped mapper
whose range is initially unmapped: the guard page `range.start` is skipped
and stays unmapped, pages `range.start+1 .. range.start+n` are mapped
writable, the stack spans exactly those pages, and every page outside the
run keeps its translation. -/
theorem alloc_stack_spec (sa : StackAllocator) (mp : Mapper) (n : Nat)
    (st : Stack) (sa2 : StackAllocator) (mp2 : Mapper)
    (hT : TreeInv mp)
    (hreg : ∀ q, sa.range.start ≤ q → q ≤ sa.range.stop →
      ValidPage q ∧ mp.translatePage q = .ok none)
    (hok : sa.alloc_stack mp n = .ok (some st, sa2, mp2)) :
    1 ≤ n ∧ sa.range.start + n ≤ sa.range.stop ∧
    st.bottom = (sa.range.start + 1) * PAGE_SIZE ∧
    st.top = (sa.range.start + n + 1) * PAGE_SIZE ∧
    sa2.range.start = sa.range.start + n + 1 ∧
    sa2.range.stop = sa.range.stop ∧
    TreeInv mp2 ∧ mp2.p4 = mp.p4 ∧
    (∀ q, sa.range.start + 1 ≤ q → q ≤ sa.range.start + n → MappedWritable mp2 q) ∧
    mp2.translatePage sa.range.start = .ok none ∧
    (∀ q, ValidPage q → (q < sa.range.start + 1 ∨ sa.range.start + n < q) →
      (mp.translatePage q = .ok none → mp2.translatePage q = .ok none) ∧
      (MappedWritable mp q → MappedWritable mp2 q)) := by
  by_cases hz : n = 0
  · subst hz
    unfold StackAllocator.alloc_stack at hok
    simp at hok
  · unfold StackAllocator.alloc_stack at hok
    rw [if_neg hz] at hok
    by_cases hc1 : sa.range.start ≤ sa.range.stop
    swap
    · have hr1 : sa.range.next = (none, sa.range) := by
        simp only [PageIter.next]
        rw [if_neg hc1]
      simp only [hr1] at hok
      simp at hok
    · have hr1 : sa.range.next =
          (some sa.range.start, ⟨sa.range.start + 1, sa.range.stop⟩) := by
        simp only [PageIter.next]
        rw [if_pos hc1]
      by_cases hc2 : sa.range.start + 1 ≤ sa.range.stop
      swap
      · have hr2 : PageIter.next ⟨sa.range.start + 1, sa.range.stop⟩ =
            (none, ⟨sa.range.start + 1, sa.range.stop⟩) := by
          simp only [PageIter.next]
          rw [if_neg (by omega)]
        simp only [hr1, hr2] at hok
        simp at hok
      · have hr2 : PageIter.next ⟨sa.range.start + 1, sa.range.stop⟩ =
            (some (sa.range.start + 1), ⟨sa.range.start + 2, sa.range.stop⟩) := by
          simp only [PageIter.next]
          rw [if_pos (by omega)]
        by_cases hn1 : n = 1
        · simp only [hr1, hr2, if_pos hn1] at hok
          refine alloc_stack_tail sa mp n (sa.range.start + 1) st sa2 mp2 hT hreg
            (by omega) (by omega) (by omega) ?_
          exact hok
        · by_cases hc3 : sa.range.start + 2 + (n - 2) ≤ sa.range.stop
          · have hr3 : PageIter.nth ⟨sa.range.start + 2, sa.range.stop⟩ (n - 2) =
                (some (sa.range.start + 2 + (n - 2)),
                 ⟨sa.range.start + 2 + (n - 2) + 1, sa.range.stop⟩) :=
              PageIter.nth_ok (n - 2) ⟨sa.range.start + 2, sa.range.stop⟩
                (by show sa.range.start + 2 + (n - 2) ≤ sa.range.stop; omega)
            simp only [hr1, hr2, if_neg hn1, hr3] at hok
            refine alloc_stack_tail sa mp n (sa.range.start + 2 + (n - 2)) st sa2 mp2 hT hreg
              (by omega) (by omega) (by omega) ?_
            exact hok
          · cases hr3p : PageIter.nth ⟨sa.range.start + 2, sa.range.stop⟩ (n - 2) with
            | mk o3 it3 =>
              have hfail := PageIter.nth_fail (n - 2) ⟨sa.range.start + 2, sa.range.stop⟩
                (by show sa.range.stop < sa.range.start + 2 + (n - 2); omega)
              rw [hr3p] at hfail
              simp only [] at hfail
              subst hfail
              simp only [hr1, hr2, if_neg hn1, hr3p] at hok
              simp at hok


/-- C7: `StackAllocator::alloc_stack` returns None when `size_in_pages` is
0; when it returns `Some stack` the stack satisfies
`top - bottom = size_in_pages * 4096` with `top` page-aligned, the pages
of the run are mapped WRITABLE while the guard page immediately below
`bottom` is left unmapped; for two successive successful allocations the
second stack starts one (unmapped) guard page above the first stack's top
while the first stack's pages stay mapped; and when it returns None the
stored page iterator (and the mapper) is unchanged.  Hypotheses: the
mapper is tree-shaped and the allocator's page range is canonical and
initially unmapped. -/
theorem c7_stack_allocator (sa : StackAllocator) (mp : Mapper)
    (hT : TreeInv mp)
    (hreg : ∀ q, sa.range.start ≤ q → q ≤ sa.range.stop →
      ValidPage q ∧ mp.translatePage q = .ok none) :
    sa.alloc_stack mp 0 = .ok (none, sa, mp) ∧
    (∀ n sa1 mp1, sa.alloc_stack mp n = .ok (none, sa1, mp1) → sa1 = sa ∧ mp1 = mp) ∧
    (∀ n st sa1 mp1, sa.alloc_stack mp n = .ok (some st, sa1, mp1) →
      st.top - st.bottom = n * PAGE_SIZE ∧
      st.top % PAGE_SIZE = 0 ∧
      (∀ q, st.bottom / PAGE_SIZE ≤ q → q < st.top / PAGE_SIZE → MappedWritable mp1 q) ∧
      mp1.translatePage (st.bottom / PAGE_SIZE - 1) = .ok none) ∧
    (∀ n1 n2 st1 sa1 mp1 st2 sa2 mp2,
      sa.alloc_stack mp n1 = .ok (some st1, sa1, mp1) →
      sa1.alloc_stack mp1 n2 = .ok (some st2, sa2, mp2) →
      st2.bottom = st1.top + PAGE_SIZE ∧
      mp2.translatePage (st1.top / PAGE_SIZE) = .ok none ∧
      (∀ q, st1.bottom / PAGE_SIZE ≤ q → q < st1.top / PAGE_SIZE →
        MappedWritable mp2 q)) := by
  refine ⟨rfl, ?_, ?_, ?_⟩
  · -- a None result leaves the stored iterator and the mapper unchanged
    intro n sa1 mp1 hok
    by_cases hz : n = 0
    · subst hz
      unfold StackAllocator.alloc_stack at hok
      simp at hok
      exact ⟨hok.1.symm, hok.2.symm⟩
    · unfold StackAllocator.alloc_stack at hok
      rw [if_neg hz] at hok
      by_cases hc1 : sa.range.start ≤ sa.range.stop
      swap
      · have hr1 : sa.range.next = (none, sa.range) := by
          simp only [PageIter.next]
          rw [if_neg hc1]
        simp only [hr1] at hok
        simp at hok
        exact ⟨hok.1.symm, hok.2.symm⟩
      · have hr1 : sa.range.next =
            (some sa.range.start, ⟨sa.range.start + 1, sa.range.stop⟩) := by
          simp only [PageIter.next]
          rw [if_pos hc1]
        by_cases hc2 : sa.range.start + 1 ≤ sa.range.stop
        swap
        · have hr2 : PageIter.next ⟨sa.range.start + 1, sa.range.stop⟩ =
              (none, ⟨sa.range.start + 1, sa.range.stop⟩) := by
            simp only [PageIter.next]
            rw [if_neg (by omega)]
          simp only [hr1, hr2] at hok
          simp at hok
          exact ⟨hok.1.symm, hok.2.symm⟩
        · have hr2 : PageIter.next ⟨sa.range.start + 1, sa.range.stop⟩ =
              (some (sa.range.start + 1), ⟨sa.range.start + 2, sa.range.stop⟩) := by
            simp only [PageIter.next]
            rw [if_pos (by omega)]
          by_cases hn1 : n = 1
          · simp only [hr1, hr2, if_pos hn1] at hok
            cases hmp : mapPages mp (sa.range.start + 1)
                (sa.range.start + 1 + 1 - (sa.range.start + 1)) with
            | error e =>
              rw [hmp] at hok
              exact absurd hok (by simp)
            | ok mp3 =>
              rw [hmp] at hok
              simp only [] at hok
              cases hsn : Stack.new (startAddress (sa.range.start + 1) + PAGE_SIZE)
                  (startAddress (sa.range.start + 1)) with
              | error e =>
                rw [hsn] at hok
                exact absurd hok (by simp)
              | ok st2 =>
                rw [hsn] at hok
                exact absurd hok (by simp)
          · by_cases hc3 : sa.range.start + 2 + (n - 2) ≤ sa.range.stop
            · have hr3 : PageIter.nth ⟨sa.range.start + 2, sa.range.stop⟩ (n - 2) =
                  (some (sa.range.start + 2 + (n - 2)),
                   ⟨sa.range.start + 2 + (n - 2) + 1, sa.range.stop⟩) :=
                PageIter.nth_ok (n - 2) ⟨sa.range.start + 2, sa.range.stop⟩
                  (by show sa.range.start + 2 + (n - 2) ≤ sa.range.stop; omega)
              simp only [hr1, hr2, if_neg hn1, hr3] at hok
              cases hmp : mapPages mp (sa.range.start + 1)
                  (sa.range.start + 2 + (n - 2) + 1 - (sa.range.start + 1)) with
              | error e =>
                rw [hmp] at hok
                exact absurd hok (by simp)
              | ok mp3 =>
                rw [hmp] at hok
                simp only [] at hok
                cases hsn : Stack.new
                    (startAddress (sa.range.start + 2 + (n - 2)) + PAGE_SIZE)
                    (startAddress (sa.range.start + 1)) with
                | error e =>
                  rw [hsn] at hok
                  exact absurd hok (by simp)
                | ok st2 =>
                  rw [hsn] at hok
                  exact absurd hok (by simp)
            · cases hr3p : PageIter.nth ⟨sa.range.start + 2, sa.range.stop⟩ (n - 2) with
              | mk o3 it3 =>
                have hfail := PageIter.nth_fail (n - 2) ⟨sa.range.start + 2, sa.range.stop⟩
                  (by show sa.range.stop < sa.range.start + 2 + (n - 2); omega)
                rw [hr3p] at hfail
                simp only [] at hfail
                subst hfail
                simp only [hr1, hr2, if_neg hn1, hr3p] at hok
                simp at hok
                exact ⟨hok.1.symm, hok.2.symm⟩
  · -- a Some result: size, alignment, mapped pages, unmapped guard
    intro n st sa1 mp1 hok
    obtain ⟨hn, hbound, hbot, htop, _, _, hT2, _, hmw, hguard, _⟩ :=
      alloc_stack_spec sa mp n st sa1 mp1 hT hreg hok
    have hbotd : st.bottom / PAGE_SIZE = sa.range.start + 1 := by
      rw [hbot]
      unfold PAGE_SIZE
      omega
    have htopd : st.top / PAGE_SIZE = sa.range.start + n + 1 := by
      rw [htop]
      unfold PAGE_SIZE
      omega
    refine ⟨?_, ?_, ?_, ?_⟩
    · rw [hbot, htop]
      unfold PAGE_SIZE
      omega
    · rw [htop]
      unfold PAGE_SIZE
      omega
    · intro q h1 h2
      rw [hbotd] at h1
      rw [htopd] at h2
      exact hmw q h1 (by omega)
    · rw [hbotd]
      have harr : sa.range.start + 1 - 1 = sa.range.start := by omega
      rw [harr]
      exact hguard
  · -- two successive successful allocations are separated by exactly the
    -- second allocation's (unmapped) guard page
    intro n1 n2 st1 sa1 mp1 st2 sa2 mp2 hok1 hok2
    obtain ⟨hn1, hbound1, hbot1, htop1, hsa1s, hsa1e, hT1, _, hmw1, hguard1, hpres1⟩ :=
      alloc_stack_spec sa mp n1 st1 sa1 mp1 hT hreg hok1
    have hreg2 : ∀ q, sa1.range.start ≤ q → q ≤ sa1.range.stop →
        ValidPage q ∧ mp1.translatePage q = .ok none := by
      intro q h1 h2
      rw [hsa1s] at h1
      rw [hsa1e] at h2
      obtain ⟨hvq, hnq⟩ := hreg q (by omega) h2
      exact ⟨hvq, (hpres1 q hvq (by omega)).1 hnq⟩
    obtain ⟨hn2, hbound2, hbot2, htop2, _, _, hT2, _, hmw2, hguard2, hpres2⟩ :=
      alloc_stack_spec sa1 mp1 n2 st2 sa2 mp2 hT1 hreg2 hok2
    refine ⟨?_, ?_, ?_⟩
    · rw [hbot2, hsa1s, htop1]
      unfold PAGE_SIZE
      ring
    · have hgd : st1.top / PAGE_SIZE = sa1.range.start := by
        rw [htop1, hsa1s]
        unfold PAGE_SIZE
        omega
      rw [hgd]
      exact hguard2
    · intro q h1 h2
      have hb1 : st1.bottom / PAGE_SIZE = sa.range.start + 1 := by
        rw [hbot1]
        unfold PAGE_SIZE
        omega
      have ht1 : st1.top / PAGE_SIZE = sa.range.start + n1 + 1 := by
        rw [htop1]
        unfold PAGE_SIZE
        omega
      rw [hb1] at h1
      rw [ht1] at h2
      have hvq : ValidPage q := (hreg q (by omega) (by omega)).1
      refine (hpres2 q hvq ?_).2 (hmw1 q h1 (by omega))
      left
      rw [hsa1s]
      omega


/-- Concrete objects for the C7 witness: a five-page range and an empty
page table with eight free frames. -/
def c7sa : StackAllocator := StackAllocator.new ⟨1, 5⟩

def c7mp : Mapper := ⟨9, fun _ _ => 0, [20, 21, 22, 23, 24, 25, 26, 27]⟩

/-- Witness for C7 at a concrete allocator and mapper state. -/
theorem c7_stack_allocator_witness :
    TreeInv c7mp ∧
    (StackAllocator.alloc_stack c7sa c7mp 0 = .ok (none, c7sa, c7mp) ∧
     (∀ n sa1 mp1, StackAllocator.alloc_stack c7sa c7mp n = .ok (none, sa1, mp1) →
        sa1 = c7sa ∧ mp1 = c7mp) ∧
     (∀ n st sa1 mp1, StackAllocator.alloc_stack c7sa c7mp n = .ok (some st, sa1, mp1) →
        st.top - st.bottom = n * PAGE_SIZE ∧
        st.top % PAGE_SIZE = 0 ∧
        (∀ q, st.bottom / PAGE_SIZE ≤ q → q < st.top / PAGE_SIZE →
          MappedWritable mp1 q) ∧
        mp1.translatePage (st.bottom / PAGE_SIZE - 1) = .ok none) ∧
     (∀ n1 n2 st1 sa1 mp1 st2 sa2 mp2,
        StackAllocator.alloc_stack c7sa c7mp n1 = .ok (some st1, sa1, mp1) →
        StackAllocator.alloc_stack sa1 mp1 n2 = .ok (some st2, sa2, mp2) →
        st2.bottom = st1.top + PAGE_SIZE ∧
        mp2.translatePage (st1.top / PAGE_SIZE) = .ok none ∧
        (∀ q, st1.bottom / PAGE_SIZE ≤ q → q < st1.top / PAGE_SIZE →
          MappedWritable mp2 q))) :=
  ⟨by decide, c7_stack_allocator c7sa c7mp (by decide)
    (fun q h1 h2 => by
      have h1x : 1 ≤ q := h1
      have h2x : q ≤ 5 := h2
      have hq : q = 1 ∨ q = 2 ∨ q = 3 ∨ q = 4 ∨ q = 5 := by omega
      rcases hq with rfl | rfl | rfl | rfl | rfl <;>
        exact ⟨by decide, by rfl⟩)⟩

end OsKernel
